import Mathlib

/-!
# Verification of the BeepBox-style synthesizer (`src/synth/synth.ts`)

A shallow embedding of the song codec, bit I/O, legacy-filter translator,
envelope evaluator and master compressor of the repository, with theorems
settling the frozen claims about them.

Conventions of the embedding:
* JavaScript numbers that always hold (possibly negative) integers are
  embedded as `Int` or `Nat`; values that can become `NaN`/`undefined`
  through out-of-range indexing are embedded as `Option` (with `none`
  standing for `NaN`/`undefined`, which is falsy in conditions and poisons
  arithmetic), and real-valued audio quantities as `ℝ`.
* Constants from `SynthConfig.ts` and the helpers of `filtering.ts` are not
  part of `src/`; they are modelled from the spec as a `Config` structure
  (and a `FilteringKit` for the frequency-response helpers) over which
  theorems quantify.
-/

namespace Beep

/-! ## Bit field writer (from `BitFieldWriter`, synth.ts lines 212-279) -/

/-- `BitFieldWriter.write(bitCount, value)`: pushes the `bitCount` low bits of
`value` most-significant-bit first. -/

def writeBits : Nat → Nat → List Bool
  | 0, _ => []
  | k+1, v => v.testBit k :: writeBits k v

/-- The first `while` loop of `BitFieldWriter.writeLongTail`: starting from the
already-offset value `v` and bit width `numBits`, emits a `1` bit and subtracts
`1 << numBits` (incrementing `numBits`) while `v ≥ 1 << numBits`. Returns the
emitted unary bits, the reduced remainder, and the final bit width. -/

def writeUnaryPart (v numBits : Nat) : List Bool × Nat × Nat :=
  if 2 ^ numBits ≤ v then
    (true :: (writeUnaryPart (v - 2 ^ numBits) (numBits + 1)).1,
      (writeUnaryPart (v - 2 ^ numBits) (numBits + 1)).2)
  else
    ([], v, numBits)
termination_by v
decreasing_by
  have : 0 < 2 ^ numBits := Nat.pos_pow_of_pos _ (by omega)
  omega

/-- `BitFieldWriter.writeLongTail(minValue, minBits, value)` (on
`value < minValue` the source throws instead): the unary prefix, a terminating
`0`, then the remainder written in the final bit width. -/

def writeLongTail (minValue minBits value : Nat) : List Bool :=
  (writeUnaryPart (value - minValue) minBits).1 ++
    false :: writeBits (writeUnaryPart (value - minValue) minBits).2.2
      (writeUnaryPart (value - minValue) minBits).2.1

/-! ## Bit field reader (from `BitFieldReader`, synth.ts lines 149-210)

The reader walks an array of bits with a read index; reading past the end
yields `undefined`, which is falsy in the reader's `if`/`while` tests. We
embed the reader in consuming style: the remaining suffix of the bit list
plays the role of the read index (the number of consumed positions is the
number of dropped list elements), and the empty list behaves as a falsy
bit, exactly like the source's out-of-bounds read inside `readLongTail`. -/

/-- The first `while` loop of `BitFieldReader.readLongTail`: consume `1` bits,
adding `1 << numBits` to the running result each time. Returns
`(result, numBits, remaining bits)`. -/

def readUnaryPart : List Bool → Nat → Nat → Nat × Nat × List Bool
  | true :: bs, result, numBits => readUnaryPart bs (result + 2 ^ numBits) (numBits + 1)
  | false :: bs, result, numBits => (result, numBits, bs)
  | [], result, numBits => (result, numBits, [])

/-- The second `while` loop of `BitFieldReader.readLongTail`: read `numBits`
bits, adding `1 << numBits` for each set bit (i.e. most-significant first). -/

def readBitsAcc : List Bool → Nat → Nat → Nat × List Bool
  | bs, 0, acc => (acc, bs)
  | [], n+1, acc => readBitsAcc [] n acc
  | b :: bs, n+1, acc => readBitsAcc bs n (acc + if b then 2 ^ n else 0)

/-- `BitFieldReader.readLongTail(minValue, minBits)`: returns the decoded value
and the remaining (unconsumed) bits. -/

def readLongTail (minValue minBits : Nat) (bs : List Bool) : Nat × List Bool :=
  readBitsAcc (readUnaryPart bs minValue minBits).2.2
    (readUnaryPart bs minValue minBits).2.1 (readUnaryPart bs minValue minBits).1

/-- `BitFieldReader.read(bitCount)`: most-significant-bit-first accumulation.
Reading past the end of the bits yields `NaN` in the source (`undefined`
arithmetic), embedded as `none`. -/

def readBitsOpt : List Bool → Nat → Nat → Option Nat
  | _, 0, acc => some acc
  | [], _+1, _ => none
  | b :: bs, n+1, acc => readBitsOpt bs n (acc * 2 + if b then 1 else 0)

/-! ## The decoder's clamp helper (from `clamp`, synth.ts lines 291-299)

The source reassigns `max = max - 1` on entry; we inline that offset. -/

/-- `clamp(min, max, val)` from the source: the `max` argument is decremented
first, so the returned value lies in `[min, max - 1]`. -/

def clamp (min max val : Int) : Int :=
  if val ≤ max - 1 then
    if val ≥ min then val else min
  else
    max - 1

/-- `clamp` applied to a possibly-`NaN` value (`none`): every comparison with
`NaN` is false in JavaScript, so `val <= max - 1` fails and the source returns
`max - 1`. -/

def clampJS (min max : Int) (val : Option Int) : Int :=
  match val with
  | some v => clamp min max v
  | none => max - 1

/-- `validateRange(min, max, val)` from synth.ts lines 301-304: returns `val`
if `min ≤ val ≤ max` (both inclusive) and throws otherwise; a `NaN` argument
fails the comparison and throws. -/

def validateRange (min max : Int) (val : Option Int) : Option Int :=
  match val with
  | some v => if min ≤ v ∧ v ≤ max then some v else none
  | none => none

/-! ## Envelopes (from `Synth.computeEnvelope`, synth.ts lines 3867-3889) -/

/-- The envelope curve kinds. Modelled from the spec: the `EnvelopeType` enum
lives in the missing `SynthConfig.ts`; spec §4.5 lists exactly these nine
kinds, which are also exactly the cases of `Synth.computeEnvelope` (whose
`default` branch throws and is therefore unreachable over this type). -/

inductive EnvelopeType where
  | custom
  | steady
  | twang
  | swell
  | tremolo
  | tremolo2
  | punch
  | flare
  | decay
deriving DecidableEq, Repr

/-- An envelope: a curve kind together with its speed (from the spec glossary,
"a named `(type, speed)` selecting a time→scalar curve"). -/

structure Envelope where
  type : EnvelopeType
  speed : ℝ

/-- `Synth.computeEnvelope(envelope, time, beats, noteExpression)`. -/

noncomputable def computeEnvelope (envelope : Envelope) (time beats noteExpression : ℝ) : ℝ :=
  match envelope.type with
  | .custom => noteExpression
  | .steady => 1
  | .twang => 1 / (1 + time * envelope.speed)
  | .swell => 1 - 1 / (1 + time * envelope.speed)
  | .tremolo => 0.5 - Real.cos (beats * 2 * Real.pi * envelope.speed) * 0.5
  | .tremolo2 => 0.75 - Real.cos (beats * 2 * Real.pi * envelope.speed) * 0.25
  | .punch => max 1 (2 - time * 10)
  | .flare =>
      if time < 0.25 / Real.sqrt envelope.speed then
        time / (0.25 / Real.sqrt envelope.speed)
      else
        1 / (1 + (time - 0.25 / Real.sqrt envelope.speed) * envelope.speed)
  | .decay => (2 : ℝ) ^ (-envelope.speed * time)

/-! ## Master compressor (from `Synth.synthesize`, synth.ts lines 3437-3439,
3502-3513 and 3597-3599) -/

/-- One sample of the compressor/limiter loop of `Synth.synthesize` (source
lines 3506-3512): the leaky-peak follower update followed by the volume
scaling of both channels with the updated `limit`. Returns
`(new limit, scaled left sample, scaled right sample)`. -/

noncomputable def compressorStep (limitRise limitDecay volume limit sampleL sampleR : ℝ) :
    ℝ × ℝ × ℝ :=
  (limit + (max |sampleL| |sampleR| - limit) *
      (if limit < max |sampleL| |sampleR| then limitRise else limitDecay * (1 + limit)),
    sampleL * (volume /
      (if 1 ≤ limit + (max |sampleL| |sampleR| - limit) *
          (if limit < max |sampleL| |sampleR| then limitRise else limitDecay * (1 + limit))
        then (limit + (max |sampleL| |sampleR| - limit) *
          (if limit < max |sampleL| |sampleR| then limitRise else limitDecay * (1 + limit))) * 1.05
        else (limit + (max |sampleL| |sampleR| - limit) *
          (if limit < max |sampleL| |sampleR| then limitRise else limitDecay * (1 + limit))) * 0.8 + 0.25)),
    sampleR * (volume /
      (if 1 ≤ limit + (max |sampleL| |sampleR| - limit) *
          (if limit < max |sampleL| |sampleR| then limitRise else limitDecay * (1 + limit))
        then (limit + (max |sampleL| |sampleR| - limit) *
          (if limit < max |sampleL| |sampleR| then limitRise else limitDecay * (1 + limit))) * 1.05
        else (limit + (max |sampleL| |sampleR| - limit) *
          (if limit < max |sampleL| |sampleR| then limitRise else limitDecay * (1 + limit))) * 0.8 + 0.25)))

/-- The post-run guard of `Synth.synthesize` (line 3598):
`if (!Number.isFinite(limit) || Math.abs(limit) < epsilon) limit = 0.0;` with
`epsilon = 1.0e-24` (line 15). Non-finite values do not exist in the real
numbers, so only the magnitude test remains in the embedding. -/

noncomputable def sanitizeLimit (limit : ℝ) : ℝ :=
  if |limit| < 1.0e-24 then 0 else limit

/-- The per-sample limiter update as the claim words it:
`limit += (abs − limit) · (limitRise if limit < abs else limitDecay·(1 + limit))`. -/

noncomputable def claimLimitUpdate (limitRise limitDecay limit a : ℝ) : ℝ :=
  limit + (a - limit) * (if limit < a then limitRise else limitDecay * (1 + limit))

/-- The per-sample output scale as the claim words it: `volume / (limit·1.05)`
when `limit ≥ 1` and `volume / (limit·0.8 + 0.25)` otherwise. -/

noncomputable def claimVolumeScale (volume limit : ℝ) : ℝ :=
  if 1 ≤ limit then volume / (limit * 1.05) else volume / (limit * 0.8 + 0.25)

/-! ## Legacy filter translator
(from `FilterSettings.convertLegacySettings`, synth.ts lines 708-792, and the
`FilterControlPoint` setting helpers, lines 590-605) -/

/-- Instrument kinds. Modelled from the spec: the `InstrumentType` enum lives
in the missing `SynthConfig.ts`; spec §3 lists the variants
`{chip, fm, noise, spectrum, drumset, harmonics, pwm, guitar}` in this order,
which matches the order the synth.ts `setTypeAndReset` switch handles them. -/

inductive InstrumentType where
  | chip
  | fm
  | noise
  | spectrum
  | drumset
  | harmonics
  | pwm
  | guitar
deriving DecidableEq, Repr

/-- Filter point kinds (spec §3: `type ∈ {lowpass, highpass, peak}`). -/

inductive FilterType where
  | lowPass
  | highPass
  | peak
deriving DecidableEq, Repr

/-- A filter control point `(type, freq setting, gain setting)` (synth.ts
lines 576-584). -/

structure FilterControlPoint where
  type : FilterType
  freq : ℤ
  gain : ℤ
deriving DecidableEq, Repr

/-- Modelled from the spec: the filter-related constants of the missing
`SynthConfig.ts` (spec §3: `Hz = maxHz · 2^((freq − (range−1)) · step)` and
`linearGain = 2^((gain − center) · gainStep)`). -/

structure FilterConfig where
  filterFreqMaxHz : ℝ
  filterFreqRange : ℤ
  filterFreqStep : ℝ
  filterGainRange : ℤ
  filterGainStep : ℝ
  filterGainCenter : ℤ

/-- `FilterControlPoint.getHzFromSettingValue` (synth.ts line 590). -/

noncomputable def getHzFromSettingValue (fc : FilterConfig) (value : ℝ) : ℝ :=
  fc.filterFreqMaxHz * (2 : ℝ) ^ ((value - ((fc.filterFreqRange : ℝ) - 1)) * fc.filterFreqStep)

/-- `FilterControlPoint.getSettingValueFromHz` (synth.ts line 593). -/

noncomputable def getSettingValueFromHz (fc : FilterConfig) (hz : ℝ) : ℝ :=
  Real.logb 2 (hz / fc.filterFreqMaxHz) / fc.filterFreqStep + ((fc.filterFreqRange : ℝ) - 1)

/-- `FilterControlPoint.getRoundedSettingValueFromHz` (synth.ts line 596);
JavaScript `Math.round` rounds half-way cases up, as does Mathlib `round`. -/

noncomputable def getRoundedSettingValueFromHz (fc : FilterConfig) (hz : ℝ) : ℤ :=
  max 0 (min (fc.filterFreqRange - 1) (round (getSettingValueFromHz fc hz)))

/-- `FilterControlPoint.getRoundedSettingValueFromLinearGain` (synth.ts
line 603). -/

noncomputable def getRoundedSettingValueFromLinearGain (fc : FilterConfig) (linearGain : ℝ) : ℤ :=
  max 0 (min (fc.filterGainRange - 1)
    (round (Real.logb 2 linearGain / fc.filterGainStep + (fc.filterGainCenter : ℝ))))

/-- Modelled from the spec: the legacy simplified-filter response helpers
(`FilterCoefficients.lowPass1stOrderSimplified`,
`FilterCoefficients.lowPass2ndOrderSimplified`, `FrequencyResponse.analyze`
and `FrequencyResponse.magnitude`) live in the missing `filtering.ts`; spec
§4.3 describes only their role ("evaluating the legacy filter's magnitude at
the new cutoff"), so the kit abstracts the magnitude of each legacy filter
shape at a probe frequency in radians per sample. -/

structure FilteringKit where
  lowPass1stOrderSimplifiedMagnitude : ℝ → ℝ → ℝ
  lowPass2ndOrderSimplifiedMagnitude : ℝ → ℝ → ℝ → ℝ

/-- The `envDecays` test of `convertLegacySettings` (synth.ts line 725):
whether the filter envelope is a flare, twang, decay or custom type. -/

def envelopeDecays : EnvelopeType → Bool
  | .flare => true
  | .twang => true
  | .decay => true
  | .custom => true
  | _ => false

/-- The low-pass point emitted by the first-order branch of
`convertLegacySettings` (synth.ts lines 733-761). -/

noncomputable def firstOrderLegacyPoint (fc : FilterConfig) (kit : FilteringKit)
    (cutoff : ℕ) (legacyEnv : Envelope) : FilterControlPoint :=
  let legacyHz : ℝ := 8000 * (2 : ℝ) ^ (((cutoff : ℝ) - (11 - 1)) * 0.5)
  let legacyRadians : ℝ := min (Real.arcsin (0.95 / 2) * 2) (2 * Real.pi * legacyHz / 48000)
  let targetRadians : ℝ := legacyRadians * (2 : ℝ) ^ (3.5 : ℝ)
  let curvedRadians : ℝ := targetRadians / (1 + targetRadians / (Real.pi * 0.8))
  let curvedHz : ℝ := 48000 * curvedRadians / (2 * Real.pi)
  let freqSetting : ℤ := getRoundedSettingValueFromHz fc curvedHz
  let finalHz : ℝ := getHzFromSettingValue fc (freqSetting : ℝ)
  let finalRadians : ℝ := 2 * Real.pi * finalHz / 48000
  let responseMag : ℝ := kit.lowPass1stOrderSimplifiedMagnitude legacyRadians finalRadians
  let logGain : ℝ := -3.5 + (Real.logb 2 responseMag + 3.5) * 0.82
  let logGainCapped : ℝ := if envelopeDecays legacyEnv.type then min logGain (-2) else logGain
  let convertedGain : ℝ := (2 : ℝ) ^ logGainCapped
  ⟨.lowPass, freqSetting, getRoundedSettingValueFromLinearGain fc convertedGain⟩

/-- The low-pass point emitted by the second-order branch of
`convertLegacySettings` (synth.ts lines 762-791). -/

noncomputable def secondOrderLegacyPoint (fc : FilterConfig) (kit : FilteringKit)
    (cutoff res : ℕ) (legacyEnv : Envelope) : FilterControlPoint :=
  let legacyHz : ℝ := 8000 * (2 : ℝ) ^ (((cutoff : ℝ) - (11 - 1)) * 0.5)
  let legacyRadians : ℝ := min (Real.arcsin (0.95 / 2) * 2) (2 * Real.pi * legacyHz / 48000)
  let intendedGain : ℝ := 0.5 / (1 - 0.95 * Real.sqrt (max 0 (((res : ℝ) - 1) / (8 - 2))))
  let invertedGain : ℝ := 0.5 / intendedGain
  let maxRadians : ℝ := 2 * Real.pi * 8000 / 48000
  let freqRatio : ℝ := legacyRadians / maxRadians
  let targetRadians : ℝ := legacyRadians * (freqRatio * invertedGain ^ (0.9 : ℝ) + 1)
  let curvedRadians : ℝ := legacyRadians + (targetRadians - legacyRadians) * invertedGain
  let curvedHz : ℝ :=
    if envelopeDecays legacyEnv.type then
      48000 * min curvedRadians (legacyRadians * (2 : ℝ) ^ (0.25 : ℝ)) / (2 * Real.pi)
    else
      48000 * curvedRadians / (2 * Real.pi)
  let freqSetting : ℤ := getRoundedSettingValueFromHz fc curvedHz
  let responseGain : ℝ :=
    if envelopeDecays legacyEnv.type then intendedGain
    else kit.lowPass2ndOrderSimplifiedMagnitude legacyRadians intendedGain curvedRadians
  let legacyFilterGain : ℝ :=
    if !decide (1 < res) then min responseGain (Real.sqrt 0.5) else responseGain
  ⟨.lowPass, freqSetting, getRoundedSettingValueFromLinearGain fc legacyFilterGain⟩

/-- `FilterSettings.convertLegacySettings(legacyCutoffSetting,
legacyResonanceSetting, legacyEnv, instrumentType)` (synth.ts lines 708-792):
resets the filter, then adds at most one low-pass control point translated
from the legacy cutoff/resonance settings. The returned list is the filter's
control points after the call. The legacy defaults (source lines 712-713):
an undefined cutoff defaults to 6 for chip instruments and 10 otherwise; an
undefined resonance defaults to 0. -/

noncomputable def convertLegacySettings (fc : FilterConfig) (kit : FilteringKit)
    (legacyCutoffSetting legacyResonanceSetting : Option ℕ)
    (legacyEnv : Envelope) (instrumentType : InstrumentType) : List FilterControlPoint :=
  if !envelopeDecays legacyEnv.type &&
      !decide (1 < legacyResonanceSetting.getD 0) &&
      decide (legacyCutoffSetting.getD (if instrumentType = .chip then 6 else 10) = 11 - 1) then
    -- The response is flat and there are no envelopes: no control points.
    []
  else if legacyResonanceSetting.getD 0 = 0 then
    [firstOrderLegacyPoint fc kit
      (legacyCutoffSetting.getD (if instrumentType = .chip then 6 else 10)) legacyEnv]
  else
    [secondOrderLegacyPoint fc kit
      (legacyCutoffSetting.getD (if instrumentType = .chip then 6 else 10))
      (legacyResonanceSetting.getD 0) legacyEnv]

/-! ## Song codec: data model
(from the classes of synth.ts: `Operator` lines 375-389, `Note` lines 306-355,
`Pattern` lines 357-373, `Instrument` lines 795-907, `Channel` lines
1315-1321, `Song` lines 1323-1405)

JavaScript values that can become `NaN`/`undefined` through out-of-range
lookups are embedded as `Option` types; `none` poisons arithmetic and makes
every comparison false, as in JavaScript. -/

/-- A note pin `(interval, time, expression)`. Times are rational because
legacy part durations are scaled by `partsPerBeat / stepsPerBeat` on decode;
a time or expression read past the end of a bit stream is `NaN` (`none`). -/

structure NotePin where
  interval : ℤ
  time : Option ℚ
  expression : Option ℕ
deriving DecidableEq

/-- A note: pitches, pins, and start/stop times in parts (synth.ts `Note`,
whose `end` field is spelled `stop` here because `end` is a Lean keyword). -/

structure Note where
  pitches : List ℤ
  pins : List NotePin
  start : Option ℚ
  stop : Option ℚ
deriving DecidableEq

/-- A pattern: an instrument index and its notes. The instrument index is
read from a bit stream and can be `NaN` (`none`). -/

structure Pattern where
  notes : List Note
  instrument : Option ℕ
deriving DecidableEq

/-- The empty pattern (`new Pattern()` / `Pattern.reset`). -/

def Pattern.default : Pattern := ⟨[], some 0⟩

/-- An FM operator (synth.ts lines 375-389). -/

structure Operator where
  frequency : ℤ
  amplitude : ℤ
  envelope : ℤ
deriving DecidableEq

/-- An instrument; the fields the URL decoder touches. `filter` and
`distortionFilter` hold the effective control points (the source keeps a pool
array plus a count; the list here is the first `controlPointCount` entries). -/

structure Instrument where
  type : InstrumentType
  preset : ℕ
  chipWave : ℤ
  chipNoise : ℤ
  filter : List FilterControlPoint
  distortionFilter : List FilterControlPoint
  filterEnvelope : ℤ
  transition : ℤ
  vibrato : ℤ
  interval : ℤ
  effects : ℕ
  chord : ℤ
  volume : ℤ
  pan : ℤ
  pulseWidth : ℤ
  pulseEnvelope : ℤ
  sustain : ℤ
  distortion : ℤ
  bitcrusherFreq : ℤ
  bitcrusherQuantization : ℤ
  reverb : ℤ
  algorithm : ℤ
  feedbackType : ℤ
  feedbackAmplitude : ℤ
  feedbackEnvelope : ℤ
  operators : List Operator
  spectrumWave : List (Option ℕ)
  harmonicsWave : List (Option ℕ)
  drumsetEnvelopes : List ℤ
  drumsetSpectrumWaves : List (List (Option ℕ))
deriving DecidableEq

/-- A channel (synth.ts lines 1315-1321; `muted` is never decoded and is
omitted). Bar entries assigned out of order in JavaScript leave holes
(`undefined`), hence `Option`. -/

structure Channel where
  octave : ℤ
  instruments : List Instrument
  patterns : List Pattern
  bars : List (Option ℕ)
deriving DecidableEq

/-- `new Channel()`. -/

def Channel.default : Channel := ⟨0, [], [], []⟩

/-- The song model (synth.ts lines 1323-1341). Fields that the decoder can
assign a `NaN`/`undefined` value are `Option`. -/

structure Song where
  scale : Option ℕ
  key : ℤ
  tempo : ℤ
  beatsPerBar : Option ℤ
  barCount : ℕ
  patternsPerChannel : ℕ
  rhythm : Option ℕ
  instrumentsPerChannel : ℕ
  loopStart : Option ℕ
  loopLength : Option ℕ
  pitchChannelCount : ℕ
  noiseChannelCount : ℕ
  channels : List Channel
deriving DecidableEq

/-- `Song.getChannelCount()` (synth.ts line 1350). -/

def Song.getChannelCount (s : Song) : ℕ := s.pitchChannelCount + s.noiseChannelCount

/-- `Song.getChannelIsNoise(channel)` (synth.ts line 1354). -/

def Song.getChannelIsNoise (s : Song) (channel : ℕ) : Bool :=
  s.pitchChannelCount ≤ channel

/-! ## Song codec: configuration

All constants of the missing `SynthConfig.ts` that the decoder consults,
modelled from the spec as a structure over which every theorem quantifies. -/

/-- Modelled from the spec: the constants of the missing `SynthConfig.ts`
used by `Song.fromBase64String`, `Song.initToDefault`, the `Instrument`
constructor and `Instrument.setTypeAndReset`. Ranges and lengths whose values
the spec does not give are left abstract. `rhythms` is the list of
steps-per-beat values (spec §3: rhythm is a "steps-per-beat selection");
`defaultSpectrumPitch`/`defaultSpectrumNoise` are the precomputed default
spectra of `SpectrumWave.reset` (synth.ts lines 400-410, whose constants
`spectrumControlPoints`/`spectrumMax` are in the missing config). -/

structure Config where
  partsPerBeat : ℕ
  maxChordSize : ℕ
  rhythms : List ℚ
  keysLength : ℕ
  tempoMin : ℤ
  tempoMax : ℤ
  reverbRange : ℤ
  beatsPerBarMin : ℤ
  beatsPerBarMax : ℤ
  barCountMin : ℤ
  barCountMax : ℤ
  pitchChannelCountMin : ℤ
  pitchChannelCountMax : ℤ
  noiseChannelCountMin : ℤ
  noiseChannelCountMax : ℤ
  instrumentsPerChannelMin : ℤ
  instrumentsPerChannelMax : ℤ
  scrollableOctaves : ℤ
  chipWavesLength : ℤ
  chipNoisesLength : ℤ
  transitionsLength : ℤ
  vibratosLength : ℤ
  intervalsLength : ℤ
  chordsLength : ℤ
  volumeRange : ℤ
  panMax : ℤ
  panCenter : ℤ
  pulseWidthRange : ℤ
  sustainRange : ℤ
  distortionRange : ℤ
  bitcrusherFreqRange : ℤ
  bitcrusherQuantizationRange : ℤ
  algorithmsLength : ℤ
  feedbacksLength : ℤ
  operatorFrequenciesLength : ℤ
  operatorAmplitudeMax : ℤ
  operatorCount : ℕ
  envelopesLength : ℤ
  spectrumControlPoints : ℕ
  spectrumControlPointBits : ℕ
  harmonicsControlPoints : ℕ
  harmonicsControlPointBits : ℕ
  harmonicsMax : ℕ
  drumCount : ℕ
  filterMaxPoints : ℤ
  filterFreqRange : ℤ
  filterGainRange : ℤ
  effectTypeLength : ℕ
  effectTypeReverb : ℕ
  effectTypePanning : ℕ
  transitionHardIndex : ℤ
  envelopeSteadyIndex : ℤ
  envelopeTwang2Index : ℤ
  defaultSpectrumPitch : List ℕ
  defaultSpectrumNoise : List ℕ

/-- The type of the legacy-filter translation the decoder performs through
`instrument.filter.convertLegacySettings(cutoff, resonance,
Config.envelopes[envelopeIndex], instrumentType)`: the decoder is
parameterized over it because the translated points are irrational-valued
(see `convertLegacySettings` above, which instantiates it for a given
`FilterConfig`, `FilteringKit` and envelope table). -/

def ConvertFn : Type :=
  Option ℕ → Option ℕ → ℤ → InstrumentType → List FilterControlPoint

/-! ## Song codec: JavaScript value helpers -/

/-- `base64CharCodeToInt` (synth.ts line 147): 128 entries mapping character
codes to 6-bit values; `.` is accepted as 62 for historical reasons. -/

def base64CharCodeToInt : List ℕ :=
  [0,0,0,0,0,0,0,0,0,0,0,0,0,0,0,0,0,0,0,0,0,0,0,0,0,0,0,0,0,0,0,0,
   0,0,0,0,0,0,0,0,0,0,0,0,0,62,62,0,0,1,2,3,4,5,6,7,8,9,0,0,0,0,0,0,
   0,36,37,38,39,40,41,42,43,44,45,46,47,48,49,50,51,52,53,54,55,56,57,58,59,60,61,0,0,0,0,63,
   0,10,11,12,13,14,15,16,17,18,19,20,21,22,23,24,25,26,27,28,29,30,31,32,33,34,35,0,0,0,0,0]

/-- `base64CharCodeToInt[compressed.charCodeAt(i)]`: `none` when the index is
past the end of the string (`charCodeAt` gives `NaN`) or the character code
is ≥ 128 (the table lookup gives `undefined`). -/

def charVal (input : List ℕ) (i : ℕ) : Option ℕ :=
  (input.get? i).bind (base64CharCodeToInt.get? ·)

/-- JavaScript `Math.min` with a constant left argument: `NaN` poisons. -/

def jsMin (a : ℤ) (v : Option ℤ) : Option ℤ := v.map (min a)

/-- JavaScript `Math.max` with a constant left argument: `NaN` poisons. -/

def jsMax (a : ℤ) (v : Option ℤ) : Option ℤ := v.map (max a)

/-- Addition where `NaN` (`none`) poisons. -/

def optAddQ : Option ℚ → Option ℚ → Option ℚ
  | some a, some b => some (a + b)
  | _, _ => none

/-- Indexing a list by a JavaScript number that may be negative or `NaN`. -/

def izGet (l : List α) (i : ℤ) : Option α :=
  if 0 ≤ i then l.get? i.toNat else none

/-- `arr.length = n` combined with filling `arr[i] = mk` for the old length
up to `n - 1`: the resize idiom the decoder uses on channels, patterns,
instruments and bars. -/

def padTruncate (l : List α) (n : ℕ) (mk : α) : List α :=
  (l ++ List.replicate (n - l.length) mk).take n

/-- `while ((1 << bits) < m) bits++`: the smallest width covering `m`
alternatives, i.e. `⌈log₂ m⌉`. -/

def neededBitCount (m : ℕ) : ℕ := Nat.clog 2 m

/-! ## Song codec: decoder state and errors -/

/-- The decoder's fatal errors (spec §7: "decoder throws a fatal error naming
the tag and position"). `typeErr` models a JavaScript `TypeError` from
dereferencing `undefined` (e.g. an instrument-targeted tag before any
`startInstrument`); `fuelExhausted` is an artifact of embedding the decoder's
note-reading `while` loop with explicit fuel and never occurs at the fuel
bound the embedding supplies. -/

inductive DecodeErr where
  | unrecognizedTag (tag : ℕ) (index : ℕ)
  | valueNotInRange (val : Option ℚ) (min max : ℚ)
  | unhandledSpectrumType
  | typeErr
  | fuelExhausted
deriving DecidableEq

/-- The per-instrument legacy filter settings the decoder collects for
versions < 9 (synth.ts lines 1717-1731). -/

structure LegacySettings where
  cutoff : Option ℕ
  resonance : Option ℕ
deriving DecidableEq

/-- `{}`: both fields undefined. -/

def LegacySettings.empty : LegacySettings := ⟨none, none⟩

/-- The mutable state of `Song.fromBase64String` besides the song: the
legacy filter settings table, the legacy global reverb, and the instrument
cursor (synth.ts lines 1717-1736). -/

structure DecState where
  song : Song
  legacyFilterSettings : Option (List (List LegacySettings))
  legacyGlobalReverb : ℤ
  instrumentChannelIterator : ℤ
  instrumentIndexIterator : ℤ
deriving DecidableEq

/-- The version comparisons computed once at the top of `fromBase64String`
(synth.ts lines 1702-1708). When the version symbol is `undefined` (an
out-of-table character) every comparison is false. -/

structure VersionFlags where
  beforeThree : Bool
  beforeFour : Bool
  beforeFive : Bool
  beforeSix : Bool
  beforeSeven : Bool
  beforeEight : Bool
  beforeNine : Bool
deriving DecidableEq

/-- The flags for a recognized version number. -/

def flagsOf (version : ℕ) : VersionFlags :=
  ⟨version < 3, version < 4, version < 5, version < 6, version < 7,
    version < 8, version < 9⟩

/-- The flags when the version symbol decodes to `undefined`: every
`undefined < k` comparison is false. -/

def flagsUndefined : VersionFlags := ⟨false, false, false, false, false, false, false⟩

/-- `validateRange` over a possibly-`NaN` rational (synth.ts lines 301-304):
`NaN` fails `min <= val` and throws. -/

def validateRangeQ (min max : ℚ) (val : Option ℚ) : Except DecodeErr ℚ :=
  match val with
  | some v => if min ≤ v ∧ v ≤ max then .ok v else .error (.valueNotInRange (some v) min max)
  | none => .error (.valueNotInRange none min max)

/-- `validateRange` on an integer range applied to a 6-bit symbol value,
returning the value as a natural number. -/

def validateRangeN (min max : ℤ) (val : Option ℕ) : Except DecodeErr ℕ :=
  match val with
  | some v => if min ≤ (v : ℤ) ∧ (v : ℤ) ≤ max then .ok v
              else .error (.valueNotInRange (some (v : ℚ)) (min : ℚ) (max : ℚ))
  | none => .error (.valueNotInRange none (min : ℚ) (max : ℚ))

/-! ## Song codec: constructors and resets -/

/-- `Operator.reset(index)` (synth.ts lines 384-388). -/

def Operator.reset (cfg : Config) (index : ℕ) : Operator :=
  ⟨0, if index ≤ 1 then cfg.operatorAmplitudeMax else 0, if index = 0 then 0 else 1⟩

/-- `HarmonicsWave.reset()` (synth.ts lines 472-480): all zero except control
points 0, 3 and 6 at `harmonicsMax`. -/

def harmonicsReset (cfg : Config) : List (Option ℕ) :=
  (List.range cfg.harmonicsControlPoints).map
    (fun i => if i = 0 ∨ i = 3 ∨ i = 6 then some cfg.harmonicsMax else some 0)

/-- `SpectrumWave.reset(isNoiseChannel)` (synth.ts lines 400-410): the two
precomputed default spectra, supplied by the modelled config because the
source formula rounds irrational expressions in constants held by the
missing `SynthConfig.ts`. -/

def spectrumReset (cfg : Config) (isNoiseChannel : Bool) : List (Option ℕ) :=
  if isNoiseChannel then cfg.defaultSpectrumNoise.map some
  else cfg.defaultSpectrumPitch.map some

/-- The numeric value of an `InstrumentType` enum member (the order is the
one of spec §3 and of the `setTypeAndReset` switch). -/

def InstrumentType.index : InstrumentType → ℕ
  | .chip => 0
  | .fm => 1
  | .noise => 2
  | .spectrum => 3
  | .drumset => 4
  | .harmonics => 5
  | .pwm => 6
  | .guitar => 7

/-- The enum member for a numeric value 0..7 (the decoder validates the
range before converting; other values fall back to `chip`, unreachably). -/

def instrumentTypeOfIndex : ℕ → InstrumentType
  | 0 => .chip
  | 1 => .fm
  | 2 => .noise
  | 3 => .spectrum
  | 4 => .drumset
  | 5 => .harmonics
  | 6 => .pwm
  | 7 => .guitar
  | _ => .chip

/-- The `FilterType` member for a clamped 0..2 value (values ≥ 3 cannot
reach this after the decoder's clamp; they fall back to `peak`). -/

def filterTypeOfIndex : ℤ → FilterType
  | 0 => .lowPass
  | 1 => .highPass
  | 2 => .peak
  | _ => .peak

/-- `new Instrument(isNoiseChannel)` (synth.ts lines 795-836): the field
initializers followed by the constructor body. -/

def Instrument.new (cfg : Config) (isNoiseChannel : Bool) : Instrument where
  type := .chip
  preset := 0
  chipWave := 2
  chipNoise := 1
  filter := []
  distortionFilter := []
  filterEnvelope := 1
  transition := 1
  vibrato := 0
  interval := 0
  effects := 0
  chord := 1
  volume := 0
  pan := cfg.panCenter
  pulseWidth := cfg.pulseWidthRange - 1
  pulseEnvelope := 1
  sustain := 6
  distortion := 0
  bitcrusherFreq := 0
  bitcrusherQuantization := 0
  reverb := 0
  algorithm := 0
  feedbackType := 0
  feedbackAmplitude := 0
  feedbackEnvelope := 1
  operators := (List.range cfg.operatorCount).map (Operator.reset cfg)
  spectrumWave := spectrumReset cfg isNoiseChannel
  harmonicsWave := harmonicsReset cfg
  drumsetEnvelopes := List.replicate cfg.drumCount cfg.envelopeTwang2Index
  drumsetSpectrumWaves := List.replicate cfg.drumCount (spectrumReset cfg true)

/-- `Instrument.setTypeAndReset(type, isNoiseChannel)` (synth.ts lines
838-907). `Math.floor` of the `0.75`/`0.5` products is integer floor
division. -/

def Instrument.setTypeAndReset (cfg : Config) (ins : Instrument)
    (type : InstrumentType) (isNoiseChannel : Bool) : Instrument :=
  let base := { ins with
    type := type
    preset := type.index
    volume := (0 : ℤ)
    reverb := (2 : ℤ)
    distortionFilter := ([] : List FilterControlPoint)
    distortion := Int.fdiv (3 * (cfg.distortionRange - 1)) 4
    bitcrusherFreq := Int.fdiv (cfg.bitcrusherFreqRange - 1) 2
    bitcrusherQuantization := Int.fdiv (cfg.bitcrusherQuantizationRange - 1) 2
    pan := cfg.panCenter
    filter := ([] : List FilterControlPoint)
    vibrato := (0 : ℤ)
    interval := (0 : ℤ)
    transition := cfg.transitionHardIndex
    filterEnvelope := cfg.envelopeSteadyIndex }
  match type with
  | .chip =>
    { base with chipWave := 2, effects := 1, chord := 2 }
  | .fm =>
    { base with
      effects := 1
      chord := 3
      algorithm := 0
      feedbackType := 0
      feedbackAmplitude := 0
      feedbackEnvelope := cfg.envelopeSteadyIndex
      operators := (List.range base.operators.length).map (Operator.reset cfg) }
  | .noise =>
    { base with chipNoise := 1, effects := 0, chord := 2 }
  | .spectrum =>
    { base with
      effects := 1
      chord := 0
      spectrumWave := spectrumReset cfg isNoiseChannel }
  | .drumset =>
    { base with
      effects := 0
      drumsetEnvelopes := List.replicate cfg.drumCount cfg.envelopeTwang2Index
      drumsetSpectrumWaves :=
        List.replicate cfg.drumCount (spectrumReset cfg isNoiseChannel) }
  | .harmonics =>
    { base with effects := 1, chord := 0, harmonicsWave := harmonicsReset cfg }
  | .pwm =>
    { base with
      effects := 1
      chord := 2
      pulseWidth := cfg.pulseWidthRange - 1
      pulseEnvelope := cfg.envelopeTwang2Index }
  | .guitar =>
    { base with
      effects := 1
      chord := 3
      pulseWidth := cfg.pulseWidthRange - 3
      sustain := 6 }

/-- `Song.initToDefault(andResetChannels)` (synth.ts lines 1358-1405). With
channel reset, the four default channels reuse any existing channel objects:
patterns are reset to empty, existing instruments are retyped in place (so
non-reset instrument fields survive, as in the source), bars are rewritten
wholesale. -/

def initToDefault (cfg : Config) (andResetChannels : Bool) (s : Song) : Song :=
  let base := { s with
    scale := some 0
    key := (0 : ℤ)
    loopStart := some 0
    loopLength := some 4
    tempo := (150 : ℤ)
    beatsPerBar := some 8
    barCount := 16
    patternsPerChannel := 8
    rhythm := some 1
    instrumentsPerChannel := 1 }
  if andResetChannels then
    { base with
      pitchChannelCount := 3
      noiseChannelCount := 1
      channels := (List.range 4).map (fun idx =>
        let old := (s.channels.get? idx).getD Channel.default
        let isNoise : Bool := decide (3 ≤ idx)
        { octave := 3 - (idx : ℤ)
          patterns := List.replicate 8 Pattern.default
          instruments := (padTruncate old.instruments 1 (Instrument.new cfg isNoise)).map
            (fun ins => ins.setTypeAndReset cfg (if isNoise then .noise else .chip) isNoise)
          bars := (List.range 16).map (fun bar => if bar < 4 then some 1 else some 0) }) }
  else base

/-! ## Song codec: consuming bit readers for embedded bit payloads

A tag's embedded bit payload is decoded through a `BitFieldReader` built
over a span of characters (synth.ts lines 153-163): each character
contributes six bits, most significant first; a character past the end of
the string or outside the base64 table contributes `(undefined >> k) & 1 =
0` bits. Reads are embedded consuming-style as for `readLongTail` above. -/

/-- The six bits of a 6-bit value, most significant first. -/

def charBits (v : ℕ) : List Bool :=
  [v.testBit 5, v.testBit 4, v.testBit 3, v.testBit 2, v.testBit 1, v.testBit 0]

/-- `new BitFieldReader(compressed, startIndex, stopIndex)`. -/

def bitsFromChars (input : List ℕ) (start stop : ℕ) : List Bool :=
  ((List.range (stop - start)).map
    (fun k => charBits ((charVal input (start + k)).getD 0))).flatten

/-- `bits.read(1) == 1`: one bit, false past the end (`NaN == 1` is false). -/

def readBit1 : List Bool → Bool × List Bool
  | [] => (false, [])
  | b :: bs => (b, bs)

/-- `bits.read(bitCount)` consuming-style: `none` (`NaN`) when any needed
bit lies past the end. -/

def readBitsC : List Bool → ℕ → Option ℕ → Option ℕ × List Bool
  | bs, 0, acc => (acc, bs)
  | [], n+1, _ => readBitsC [] n none
  | b :: bs, n+1, acc => readBitsC bs n (acc.map (fun a => a * 2 + if b then 1 else 0))

/-- `bits.readPitchInterval()` (synth.ts lines 203-209): a sign bit followed
by a long-tail magnitude with `minBits = 3`. -/

def readPitchIntervalC (bs : List Bool) : ℤ × List Bool :=
  match readBit1 bs with
  | (sign, bs2) =>
    match readLongTail 1 3 bs2 with
    | (m, bs3) => (if sign then -(m : ℤ) else (m : ℤ), bs3)

/-- Reads `count` fields of `bitsPer` bits each (the spectrum/harmonics
payload loops, synth.ts lines 2228-2230 and 2251-2253). -/

def readFields (bitsPer : ℕ) : ℕ → List Bool → List (Option ℕ) × List Bool
  | 0, bs => ([], bs)
  | n+1, bs =>
    match readBitsC bs bitsPer (some 0) with
    | (v, bs2) =>
      match readFields bitsPer n bs2 with
      | (vs, bs3) => (v :: vs, bs3)

/-! ## Song codec: tag handlers

One definition per `SongTagCode` case of the `fromBase64String` switch
(synth.ts lines 1738-2454). Each handler receives the index `i` of its first
payload character and returns the updated state and the next character
index; a `none` index is a `NaN` index, on which the source's
`while (charIndex < compressed.length)` loop exits normally. -/

/-- `clamp` applied to a 6-bit symbol read (`NaN` when past the end). -/

def clampJSN (min max : ℤ) (v : Option ℕ) : ℤ :=
  clampJS min max (v.map (fun n => (n : ℤ)))

/-- `validateRange` over a possibly-`NaN` integer. -/

def validateRangeI (min max : ℤ) (val : Option ℤ) : Except DecodeErr ℤ :=
  match val with
  | some v => if min ≤ v ∧ v ≤ max then .ok v
              else .error (.valueNotInRange (some (v : ℚ)) (min : ℚ) (max : ℚ))
  | none => .error (.valueNotInRange none (min : ℚ) (max : ℚ))

/-- Replace the song in the state. -/

def DecState.withSong (st : DecState) (sg : Song) : DecState := { st with song := sg }

/-- The instrument the cursor designates, if any. -/

def DecState.curInstrument (st : DecState) : Option Instrument :=
  (izGet st.song.channels st.instrumentChannelIterator).bind
    (fun ch => izGet ch.instruments st.instrumentIndexIterator)

/-- Update the cursor instrument; dereferencing a missing channel or
instrument is a JavaScript `TypeError`. -/

def DecState.modifyInstrumentE (st : DecState)
    (f : Instrument → Except DecodeErr Instrument) : Except DecodeErr DecState :=
  match izGet st.song.channels st.instrumentChannelIterator with
  | none => .error .typeErr
  | some ch =>
    match izGet ch.instruments st.instrumentIndexIterator with
    | none => .error .typeErr
    | some ins =>
      (f ins).map (fun ins2 => st.withSong { st.song with
        channels := st.song.channels.set st.instrumentChannelIterator.toNat
          { ch with instruments :=
              ch.instruments.set st.instrumentIndexIterator.toNat ins2 } })

/-- Update the cursor instrument with a pure function. -/

def DecState.modifyInstrument (st : DecState) (f : Instrument → Instrument) :
    Except DecodeErr DecState :=
  st.modifyInstrumentE (fun ins => .ok (f ins))

/-- Update channel `ch` (a `TypeError` when the index is `NaN` or out of
range, as dereferencing `undefined` would be). -/

def Song.modifyChannelAt (s : Song) (ch : Option ℕ)
    (f : Channel → Except DecodeErr Channel) : Except DecodeErr Song :=
  match ch with
  | none => .error .typeErr
  | some c =>
    match s.channels.get? c with
    | none => .error .typeErr
    | some chan => (f chan).map (fun chan2 => { s with channels := s.channels.set c chan2 })

/-- Update instrument 0 of channel `ch` (the version < 3 per-channel form). -/

def Song.modifyChannelInstrument0 (s : Song) (ch : Option ℕ)
    (f : Instrument → Except DecodeErr Instrument) : Except DecodeErr Song :=
  s.modifyChannelAt ch (fun chan =>
    match chan.instruments.get? 0 with
    | none => .error .typeErr
    | some ins => (f ins).map (fun ins2 => { chan with instruments := chan.instruments.set 0 ins2 }))

/-- `for (channel = 0; channel < getChannelCount(); channel++)` over the
channels, a `TypeError` if the channel list is shorter than the count. -/

def Song.updateChannelsIdx (s : Song) (f : ℕ → Channel → Channel) :
    Except DecodeErr Song :=
  if s.getChannelCount ≤ s.channels.length then
    .ok { s with channels := (s.channels.mapIdx
      (fun c ch => if c < s.getChannelCount then f c ch else ch)) }
  else .error .typeErr

/-- The nested channel × instrument loops several legacy handlers use; a
`TypeError` if any traversed list is shorter than the loop bound. -/

def Song.updateAllInstruments (s : Song) (f : ℕ → ℕ → Instrument → Instrument) :
    Except DecodeErr Song :=
  if s.getChannelCount ≤ s.channels.length ∧
      ((s.channels.take s.getChannelCount).all
        (fun ch => s.instrumentsPerChannel ≤ ch.instruments.length)) then
    .ok { s with channels := (s.channels.mapIdx (fun c ch =>
      if c < s.getChannelCount then
        { ch with instruments := (ch.instruments.mapIdx (fun j ins =>
            if j < s.instrumentsPerChannel then f c j ins else ins)) }
      else ch)) }
  else .error .typeErr

/-- Tag `s` — scale (synth.ts lines 1755-1758). -/

def tagScale (flags : VersionFlags) (input : List ℕ) (i : ℕ) (st : DecState) :
    Except DecodeErr (DecState × Option ℕ) :=
  let v := charVal input i
  let v2 := if flags.beforeThree ∧ v = some 10 then some 11 else v
  .ok (st.withSong { st.song with scale := v2 }, some (i + 1))

/-- Tag `k` — key (synth.ts lines 1759-1765). -/

def tagKey (cfg : Config) (flags : VersionFlags) (input : List ℕ) (i : ℕ) (st : DecState) :
    Except DecodeErr (DecState × Option ℕ) :=
  let v := charVal input i
  let newKey :=
    if flags.beforeSeven then clampJS 0 (cfg.keysLength : ℤ) (v.map (fun n => 11 - (n : ℤ)))
    else clampJSN 0 (cfg.keysLength : ℤ) v
  .ok (st.withSong { st.song with key := newKey }, some (i + 1))

/-- Tag `l` — loopStart (synth.ts lines 1766-1772). -/

def tagLoopStart (flags : VersionFlags) (input : List ℕ) (i : ℕ) (st : DecState) :
    Except DecodeErr (DecState × Option ℕ) :=
  if flags.beforeFive then
    .ok (st.withSong { st.song with loopStart := charVal input i }, some (i + 1))
  else
    let a := charVal input i
    let b := charVal input (i + 1)
    .ok (st.withSong { st.song with
      loopStart := b.map (fun bv => (a.getD 0) * 64 + bv) }, some (i + 2))

/-- Tag `e` — loopEnd, stored as length − 1 for versions ≥ 5 (synth.ts lines
1773-1779). -/

def tagLoopEnd (flags : VersionFlags) (input : List ℕ) (i : ℕ) (st : DecState) :
    Except DecodeErr (DecState × Option ℕ) :=
  if flags.beforeFive then
    .ok (st.withSong { st.song with loopLength := charVal input i }, some (i + 1))
  else
    let a := charVal input i
    let b := charVal input (i + 1)
    .ok (st.withSong { st.song with
      loopLength := b.map (fun bv => (a.getD 0) * 64 + bv + 1) }, some (i + 2))

/-- Tag `t` — tempo (synth.ts lines 1780-1789). -/

def tagTempo (cfg : Config) (flags : VersionFlags) (input : List ℕ) (i : ℕ) (st : DecState) :
    Except DecodeErr (DecState × Option ℕ) :=
  if flags.beforeFour then
    let v := (charVal input i).bind ([95, 120, 151, 190].get? ·)
    .ok (st.withSong { st.song with
      tempo := clampJSN cfg.tempoMin (cfg.tempoMax + 1) v }, some (i + 1))
  else if flags.beforeSeven then
    let v := (charVal input i).bind
      ([88, 95, 103, 111, 120, 130, 140, 151, 163, 176, 190, 206, 222, 240, 259].get? ·)
    .ok (st.withSong { st.song with
      tempo := clampJSN cfg.tempoMin (cfg.tempoMax + 1) v }, some (i + 1))
  else
    let a := charVal input i
    let b := charVal input (i + 1)
    let raw : ℕ := ((a.getD 0) <<< 6) ||| (b.getD 0)
    .ok (st.withSong { st.song with
      tempo := clampJSN cfg.tempoMin (cfg.tempoMax + 1) (some raw) }, some (i + 2))

/-- Tag `m` — reverb (synth.ts lines 1790-1799): song-global and clamped
through `clamp(0, 4, ·)` before version 9, per-instrument afterwards. -/

def tagReverb (cfg : Config) (flags : VersionFlags) (input : List ℕ) (i : ℕ) (st : DecState) :
    Except DecodeErr (DecState × Option ℕ) :=
  if flags.beforeNine then
    .ok ({ st with legacyGlobalReverb := clampJSN 0 4 (charVal input i) }, some (i + 1))
  else
    (st.modifyInstrument (fun ins =>
      { ins with reverb := clampJSN 0 cfg.reverbRange (charVal input i) })).map
      (fun st2 => (st2, some (i + 1)))

/-- Tag `a` — beatCount (synth.ts lines 1800-1807). -/

def tagBeatCount (cfg : Config) (flags : VersionFlags) (input : List ℕ) (i : ℕ) (st : DecState) :
    Except DecodeErr (DecState × Option ℕ) :=
  let v : Option ℕ :=
    if flags.beforeThree then (charVal input i).bind (([6, 7, 8, 9, 10] : List ℕ).get? ·)
    else (charVal input i).map (· + 1)
  .ok (st.withSong { st.song with
    beatsPerBar := (jsMax cfg.beatsPerBarMin
      (jsMin cfg.beatsPerBarMax (v.map (fun n => (n : ℤ))))) }, some (i + 1))

/-- Tag `g` — barCount (synth.ts lines 1808-1817). -/

def tagBarCount (cfg : Config) (input : List ℕ) (i : ℕ) (st : DecState) :
    Except DecodeErr (DecState × Option ℕ) := do
  let a := charVal input i
  let b := charVal input (i + 1)
  let v := b.map (fun bv => ((a.getD 0) * 64 + bv + 1 : ℤ))
  let bc ← validateRangeI cfg.barCountMin cfg.barCountMax v
  let sg ← st.song.updateChannelsIdx (fun _ ch =>
    { ch with bars := padTruncate ch.bars bc.toNat (some 1) })
  .ok (st.withSong { sg with barCount := bc.toNat }, some (i + 2))

/-- Tag `j` — patternCount (synth.ts lines 1818-1832). -/

def tagPatternCount (cfg : Config) (flags : VersionFlags) (input : List ℕ) (i : ℕ)
    (st : DecState) : Except DecodeErr (DecState × Option ℕ) := do
  let (v, next) :=
    if flags.beforeEight then
      ((charVal input i).map (fun n => ((n : ℤ) + 1)), i + 1)
    else
      let a := charVal input i
      let b := charVal input (i + 1)
      (b.map (fun bv => ((a.getD 0) * 64 + bv + 1 : ℤ)), i + 2)
  let ppc ← validateRangeI 1 cfg.barCountMax v
  let sg ← st.song.updateChannelsIdx (fun _ ch =>
    { ch with patterns := padTruncate ch.patterns ppc.toNat Pattern.default })
  .ok (st.withSong { sg with patternsPerChannel := ppc.toNat }, some next)

/-- Tag `i` — instrumentCount (synth.ts lines 1833-1851). -/

def tagInstrumentCount (cfg : Config) (flags : VersionFlags) (input : List ℕ) (i : ℕ)
    (st : DecState) : Except DecodeErr (DecState × Option ℕ) := do
  let v := (charVal input i).map (fun n => ((n : ℤ) + 1))
  let ipc ← validateRangeI cfg.instrumentsPerChannelMin cfg.instrumentsPerChannelMax v
  let sg ← st.song.updateChannelsIdx (fun c ch =>
    let isNoise : Bool := decide (st.song.pitchChannelCount ≤ c)
    let padded := padTruncate ch.instruments ipc.toNat (Instrument.new cfg isNoise)
    { ch with instruments :=
        (if flags.beforeSix then
          padded.map (fun ins =>
            ins.setTypeAndReset cfg (if isNoise then .noise else .chip) isNoise)
        else padded) })
  let lfs2 :=
    if flags.beforeNine then
      st.legacyFilterSettings.map (fun lfs =>
        lfs.mapIdx (fun c row =>
          if c < sg.getChannelCount then
            row ++ List.replicate (ipc.toNat - row.length) LegacySettings.empty
          else row))
    else st.legacyFilterSettings
  .ok ({ st with
    song := { sg with instrumentsPerChannel := ipc.toNat }
    legacyFilterSettings := lfs2 }, some (i + 1))

/-- Tag `r` — rhythm (synth.ts lines 1852-1854). -/

def tagRhythm (input : List ℕ) (i : ℕ) (st : DecState) :
    Except DecodeErr (DecState × Option ℕ) :=
  .ok (st.withSong { st.song with rhythm := charVal input i }, some (i + 1))

/-- Tag `o` — channelOctave (synth.ts lines 1855-1864). -/

def tagChannelOctave (cfg : Config) (flags : VersionFlags) (input : List ℕ) (i : ℕ)
    (st : DecState) : Except DecodeErr (DecState × Option ℕ) := do
  if flags.beforeThree then
    let ch := charVal input i
    let sg ← st.song.modifyChannelAt ch (fun chan =>
      .ok { chan with octave := clampJSN 0 (cfg.scrollableOctaves + 1) (charVal input (i + 1)) })
    .ok (st.withSong sg, some (i + 2))
  else
    let sg ← st.song.updateChannelsIdx (fun c ch =>
      { ch with octave := clampJSN 0 (cfg.scrollableOctaves + 1) (charVal input (i + c)) })
    .ok (st.withSong sg, some (i + st.song.getChannelCount))

/-- Tag `T` — startInstrument (synth.ts lines 1865-1885): advances the
instrument cursor, resets the designated instrument to the read type, and
for versions < 7 transfers the legacy global reverb into pitched
instruments. `InstrumentType.length` is 8. -/

def tagStartInstrument (cfg : Config) (flags : VersionFlags) (input : List ℕ) (i : ℕ)
    (st : DecState) : Except DecodeErr (DecState × Option ℕ) := do
  let ii := st.instrumentIndexIterator + 1
  let (chIt, iiIt) :=
    if (st.song.instrumentsPerChannel : ℤ) ≤ ii then (st.instrumentChannelIterator + 1, (0 : ℤ))
    else (st.instrumentChannelIterator, ii)
  let _ ← validateRangeI 0 ((st.song.channels.length : ℤ) - 1) (some chIt)
  let st2 := { st with instrumentChannelIterator := chIt, instrumentIndexIterator := iiIt }
  let tn ← validateRangeN 0 (8 - 1) (charVal input i)
  let isNoise := st2.song.getChannelIsNoise chIt.toNat
  let st3 ← st2.modifyInstrument (fun ins =>
    let ins2 := ins.setTypeAndReset cfg (instrumentTypeOfIndex tn) isNoise
    if flags.beforeSeven then
      if 0 < st2.legacyGlobalReverb ∧ ¬ isNoise then
        { ins2 with effects := 1 <<< cfg.effectTypeReverb, reverb := st2.legacyGlobalReverb }
      else
        { ins2 with effects := 0 }
    else ins2)
  .ok (st3, some (i + 1))

/-- Tag `u` — preset (synth.ts lines 1886-1889). -/

def tagPreset (input : List ℕ) (i : ℕ) (st : DecState) :
    Except DecodeErr (DecState × Option ℕ) := do
  let a := charVal input i
  let b := charVal input (i + 1)
  let st2 ← st.modifyInstrument (fun ins =>
    { ins with preset := ((a.getD 0) <<< 6) ||| (b.getD 0) })
  .ok (st2, some (i + 2))

/-- Tag `D` — distortion (synth.ts lines 2049-2052). -/

def tagDistortion (cfg : Config) (input : List ℕ) (i : ℕ) (st : DecState) :
    Except DecodeErr (DecState × Option ℕ) := do
  let st2 ← st.modifyInstrument (fun ins =>
    { ins with distortion := clampJSN 0 cfg.distortionRange (charVal input i) })
  .ok (st2, some (i + 1))

/-- Tag `R` — bitcrusher (synth.ts lines 2053-2057). -/

def tagBitcrusher (cfg : Config) (input : List ℕ) (i : ℕ) (st : DecState) :
    Except DecodeErr (DecState × Option ℕ) := do
  let st2 ← st.modifyInstrument (fun ins =>
    { ins with
      bitcrusherFreq := clampJSN 0 cfg.bitcrusherFreqRange (charVal input i)
      bitcrusherQuantization :=
        clampJSN 0 cfg.bitcrusherQuantizationRange (charVal input (i + 1)) })
  .ok (st2, some (i + 2))

/-- Tag `U` — sustain (synth.ts lines 2058-2061). -/

def tagSustain (cfg : Config) (input : List ℕ) (i : ℕ) (st : DecState) :
    Except DecodeErr (DecState × Option ℕ) := do
  let st2 ← st.modifyInstrument (fun ins =>
    { ins with sustain := clampJSN 0 cfg.sustainRange (charVal input i) })
  .ok (st2, some (i + 1))

/-- Tag `d` — transition (synth.ts lines 2062-2075). -/

def tagTransition (cfg : Config) (flags : VersionFlags) (input : List ℕ) (i : ℕ)
    (st : DecState) : Except DecodeErr (DecState × Option ℕ) := do
  if flags.beforeThree then
    let ch := charVal input i
    let sg ← st.song.modifyChannelInstrument0 ch (fun ins =>
      .ok { ins with transition := clampJSN 0 cfg.transitionsLength (charVal input (i + 1)) })
    .ok (st.withSong sg, some (i + 2))
  else if flags.beforeSix then
    let ipc := st.song.instrumentsPerChannel
    let sg ← st.song.updateAllInstruments (fun c j ins =>
      { ins with transition := clampJSN 0 cfg.transitionsLength (charVal input (i + c * ipc + j)) })
    .ok (st.withSong sg, some (i + st.song.getChannelCount * ipc))
  else
    let st2 ← st.modifyInstrument (fun ins =>
      { ins with transition := clampJSN 0 cfg.transitionsLength (charVal input i) })
    .ok (st2, some (i + 1))

/-- Tag `c` — vibrato, with the legacy effect/envelope remapping (synth.ts
lines 2076-2113). -/

def tagVibrato (cfg : Config) (flags : VersionFlags) (input : List ℕ) (i : ℕ)
    (st : DecState) : Except DecodeErr (DecState × Option ℕ) := do
  if flags.beforeThree then
    let ch := charVal input i
    let effect := clampJSN 0 4 (charVal input (i + 1))
    let sg ← st.song.modifyChannelInstrument0 ch (fun ins =>
      .ok { ins with
        vibrato := ([0, 3, 2, 0].get? effect.toNat).getD 0
        filterEnvelope := if ins.filterEnvelope = 1
          then ([1, 1, 1, 13].get? effect.toNat).getD 0 else ins.filterEnvelope })
    .ok (st.withSong sg, some (i + 2))
  else if flags.beforeSix then
    let ipc := st.song.instrumentsPerChannel
    let sg ← st.song.updateAllInstruments (fun c j ins =>
      let effect := clampJSN 0 6 (charVal input (i + c * ipc + j))
      { ins with
        vibrato := ([0, 1, 2, 3, 0, 0].get? effect.toNat).getD 0
        filterEnvelope := if ins.filterEnvelope = 1
          then ([1, 1, 1, 1, 16, 13].get? effect.toNat).getD 0 else ins.filterEnvelope })
    .ok (st.withSong sg, some (i + st.song.getChannelCount * ipc))
  else if flags.beforeSeven then
    let effect := clampJSN 0 6 (charVal input i)
    let st2 ← st.modifyInstrument (fun ins =>
      { ins with
        vibrato := ([0, 1, 2, 3, 0, 0].get? effect.toNat).getD 0
        filterEnvelope := if ins.filterEnvelope = 1
          then ([1, 1, 1, 1, 16, 13].get? effect.toNat).getD 0 else ins.filterEnvelope })
    .ok (st2, some (i + 1))
  else
    let st2 ← st.modifyInstrument (fun ins =>
      { ins with vibrato := clampJSN 0 cfg.vibratosLength (charVal input i) })
    .ok (st2, some (i + 1))

/-- Tag `h` — interval, with the legacy "custom harmony" remapping (synth.ts
lines 2114-2143). -/

def tagInterval (cfg : Config) (flags : VersionFlags) (input : List ℕ) (i : ℕ)
    (st : DecState) : Except DecodeErr (DecState × Option ℕ) := do
  if flags.beforeThree then
    let ch := charVal input i
    let sg ← st.song.modifyChannelInstrument0 ch (fun ins =>
      .ok { ins with interval := clampJSN 0 cfg.intervalsLength (charVal input (i + 1)) })
    .ok (st.withSong sg, some (i + 2))
  else if flags.beforeSix then
    let ipc := st.song.instrumentsPerChannel
    let sg ← st.song.updateAllInstruments (fun c j ins =>
      let originalValue := charVal input (i + c * ipc + j)
      let itv := clampJSN 0 cfg.intervalsLength originalValue
      if originalValue = some 8 then { ins with interval := 2, chord := 3 }
      else { ins with interval := itv })
    .ok (st.withSong sg, some (i + st.song.getChannelCount * ipc))
  else if flags.beforeSeven then
    let originalValue := charVal input i
    let itv := clampJSN 0 cfg.intervalsLength originalValue
    let st2 ← st.modifyInstrument (fun ins =>
      if originalValue = some 8 then { ins with interval := 2, chord := 3 }
      else { ins with interval := itv })
    .ok (st2, some (i + 1))
  else
    let st2 ← st.modifyInstrument (fun ins =>
      { ins with interval := clampJSN 0 cfg.intervalsLength (charVal input i) })
    .ok (st2, some (i + 1))

/-- Tag `C` — chord (synth.ts lines 2144-2146). -/

def tagChord (cfg : Config) (input : List ℕ) (i : ℕ) (st : DecState) :
    Except DecodeErr (DecState × Option ℕ) := do
  let st2 ← st.modifyInstrument (fun ins =>
    { ins with chord := clampJSN 0 cfg.chordsLength (charVal input i) })
  .ok (st2, some (i + 1))

/-- Tag `v` — volume, with the legacy mute remapping (synth.ts lines
2166-2191). -/

def tagVolume (cfg : Config) (flags : VersionFlags) (input : List ℕ) (i : ℕ)
    (st : DecState) : Except DecodeErr (DecState × Option ℕ) := do
  if flags.beforeThree then
    let ch := charVal input i
    let sg ← st.song.modifyChannelInstrument0 ch (fun ins =>
      let vol := clampJSN 0 cfg.volumeRange (charVal input (i + 1))
      .ok { ins with volume := if vol = 5 then cfg.volumeRange - 1 else vol })
    .ok (st.withSong sg, some (i + 2))
  else if flags.beforeSix then
    let ipc := st.song.instrumentsPerChannel
    let sg ← st.song.updateAllInstruments (fun c j ins =>
      let vol := clampJSN 0 cfg.volumeRange (charVal input (i + c * ipc + j))
      { ins with volume := if vol = 5 then cfg.volumeRange - 1 else vol })
    .ok (st.withSong sg, some (i + st.song.getChannelCount * ipc))
  else if flags.beforeSeven then
    let st2 ← st.modifyInstrument (fun ins =>
      let vol := clampJSN 0 cfg.volumeRange (charVal input i)
      { ins with volume := if vol = 5 then cfg.volumeRange - 1 else vol })
    .ok (st2, some (i + 1))
  else
    let st2 ← st.modifyInstrument (fun ins =>
      { ins with volume := clampJSN 0 cfg.volumeRange (charVal input i) })
    .ok (st2, some (i + 1))

/-- Tag `L` — pan (synth.ts lines 2192-2195). -/

def tagPan (cfg : Config) (input : List ℕ) (i : ℕ) (st : DecState) :
    Except DecodeErr (DecState × Option ℕ) := do
  let st2 ← st.modifyInstrument (fun ins =>
    { ins with pan := clampJSN 0 (cfg.panMax + 1) (charVal input i) })
  .ok (st2, some (i + 1))

/-- Tag `A` — algorithm (synth.ts lines 2196-2198). -/

def tagAlgorithm (cfg : Config) (input : List ℕ) (i : ℕ) (st : DecState) :
    Except DecodeErr (DecState × Option ℕ) := do
  let st2 ← st.modifyInstrument (fun ins =>
    { ins with algorithm := clampJSN 0 cfg.algorithmsLength (charVal input i) })
  .ok (st2, some (i + 1))

/-- Tag `F` — feedbackType (synth.ts lines 2199-2201). -/

def tagFeedbackType (cfg : Config) (input : List ℕ) (i : ℕ) (st : DecState) :
    Except DecodeErr (DecState × Option ℕ) := do
  let st2 ← st.modifyInstrument (fun ins =>
    { ins with feedbackType := clampJSN 0 cfg.feedbacksLength (charVal input i) })
  .ok (st2, some (i + 1))

/-- Tag `B` — feedbackAmplitude (synth.ts lines 2202-2204). -/

def tagFeedbackAmplitude (cfg : Config) (input : List ℕ) (i : ℕ) (st : DecState) :
    Except DecodeErr (DecState × Option ℕ) := do
  let st2 ← st.modifyInstrument (fun ins =>
    { ins with feedbackAmplitude := clampJSN 0 (cfg.operatorAmplitudeMax + 1) (charVal input i) })
  .ok (st2, some (i + 1))

/-- Tag `V` — feedbackEnvelope (synth.ts lines 2205-2207). -/

def tagFeedbackEnvelope (cfg : Config) (input : List ℕ) (i : ℕ) (st : DecState) :
    Except DecodeErr (DecState × Option ℕ) := do
  let st2 ← st.modifyInstrument (fun ins =>
    { ins with feedbackEnvelope := clampJSN 0 cfg.envelopesLength (charVal input i) })
  .ok (st2, some (i + 1))

/-- The shared shape of the three per-operator tags (synth.ts lines
2208-2222): one character per operator; a `TypeError` if the operator list
is shorter than `operatorCount`. -/

def modifyOperators (cfg : Config) (st : DecState) (f : ℕ → Operator → Operator) :
    Except DecodeErr DecState :=
  st.modifyInstrumentE (fun ins =>
    if cfg.operatorCount ≤ ins.operators.length then
      .ok { ins with operators := (ins.operators.mapIdx
        (fun o op => if o < cfg.operatorCount then f o op else op)) }
    else .error .typeErr)

/-- Tag `Q` — operatorFrequencies (synth.ts lines 2208-2212). -/

def tagOperatorFrequencies (cfg : Config) (input : List ℕ) (i : ℕ) (st : DecState) :
    Except DecodeErr (DecState × Option ℕ) := do
  let st2 ← modifyOperators cfg st (fun o op =>
    { op with frequency := clampJSN 0 cfg.operatorFrequenciesLength (charVal input (i + o)) })
  .ok (st2, some (i + cfg.operatorCount))

/-- Tag `P` — operatorAmplitudes (synth.ts lines 2213-2217). -/

def tagOperatorAmplitudes (cfg : Config) (input : List ℕ) (i : ℕ) (st : DecState) :
    Except DecodeErr (DecState × Option ℕ) := do
  let st2 ← modifyOperators cfg st (fun o op =>
    { op with amplitude := clampJSN 0 (cfg.operatorAmplitudeMax + 1) (charVal input (i + o)) })
  .ok (st2, some (i + cfg.operatorCount))

/-- Tag `E` — operatorEnvelopes (synth.ts lines 2218-2222). -/

def tagOperatorEnvelopes (cfg : Config) (input : List ℕ) (i : ℕ) (st : DecState) :
    Except DecodeErr (DecState × Option ℕ) := do
  let st2 ← modifyOperators cfg st (fun o op =>
    { op with envelope := clampJSN 0 cfg.envelopesLength (charVal input (i + o)) })
  .ok (st2, some (i + cfg.operatorCount))

/-- Tag `S` — spectrum (synth.ts lines 2223-2246). -/

def tagSpectrum (cfg : Config) (input : List ℕ) (i : ℕ) (st : DecState) :
    Except DecodeErr (DecState × Option ℕ) := do
  match st.curInstrument with
  | none => .error .typeErr
  | some ins =>
    if ins.type = .spectrum then
      let byteCount := (cfg.spectrumControlPoints * cfg.spectrumControlPointBits + 5) / 6
      let bits := bitsFromChars input i (i + byteCount)
      let vals := (readFields cfg.spectrumControlPointBits cfg.spectrumControlPoints bits).1
      let st2 ← st.modifyInstrument (fun ins2 => { ins2 with spectrumWave := vals })
      .ok (st2, some (i + byteCount))
    else if ins.type = .drumset then
      let byteCount :=
        (cfg.drumCount * cfg.spectrumControlPoints * cfg.spectrumControlPointBits + 5) / 6
      let bits := bitsFromChars input i (i + byteCount)
      let waves := (readFields cfg.spectrumControlPointBits
        (cfg.drumCount * cfg.spectrumControlPoints) bits).1
      let st2 ← st.modifyInstrument (fun ins2 =>
        { ins2 with drumsetSpectrumWaves := ((List.range cfg.drumCount).map
            (fun j => (waves.drop (j * cfg.spectrumControlPoints)).take cfg.spectrumControlPoints)) })
      .ok (st2, some (i + byteCount))
    else
      .error .unhandledSpectrumType

/-- Tag `H` — harmonics (synth.ts lines 2247-2256). -/

def tagHarmonics (cfg : Config) (input : List ℕ) (i : ℕ) (st : DecState) :
    Except DecodeErr (DecState × Option ℕ) := do
  let byteCount := (cfg.harmonicsControlPoints * cfg.harmonicsControlPointBits + 5) / 6
  let bits := bitsFromChars input i (i + byteCount)
  let vals := (readFields cfg.harmonicsControlPointBits cfg.harmonicsControlPoints bits).1
  let st2 ← st.modifyInstrument (fun ins => { ins with harmonicsWave := vals })
  .ok (st2, some (i + byteCount))

/-- Tag `n` — channelCount (synth.ts lines 1739-1754). -/

def tagChannelCount (cfg : Config) (flags : VersionFlags) (input : List ℕ) (i : ℕ)
    (st : DecState) : Except DecodeErr (DecState × Option ℕ) := do
  let pc ← validateRangeN cfg.pitchChannelCountMin cfg.pitchChannelCountMax (charVal input i)
  let nc ← validateRangeN cfg.noiseChannelCountMin cfg.noiseChannelCountMax (charVal input (i + 1))
  let count := pc + nc
  let sg := { st.song with
    pitchChannelCount := pc
    noiseChannelCount := nc
    channels := padTruncate st.song.channels count Channel.default }
  let lfs2 :=
    if flags.beforeNine then
      st.legacyFilterSettings.map (fun lfs =>
        lfs ++ List.replicate (count - lfs.length)
          (List.replicate st.song.instrumentsPerChannel LegacySettings.empty))
    else st.legacyFilterSettings
  .ok ({ st with song := sg, legacyFilterSettings := lfs2 }, some (i + 2))

/-- Tag `q` — effects (synth.ts lines 2147-2165): bitwise coercion makes an
out-of-range read contribute zero bits; before version 9 the legacy global
reverb gates the reverb bit and an off-center pan enables the panning bit. -/

def tagEffects (cfg : Config) (flags : VersionFlags) (input : List ℕ) (i : ℕ)
    (st : DecState) : Except DecodeErr (DecState × Option ℕ) := do
  let mask : ℕ := 2 ^ cfg.effectTypeLength - 1
  if flags.beforeNine then
    let st2 ← st.modifyInstrument (fun ins =>
      let e0 : ℕ := ((charVal input i).getD 0) &&& mask
      let e1 : ℕ :=
        if st.legacyGlobalReverb = 0 then e0 &&& (mask - (1 <<< cfg.effectTypeReverb))
        else e0
      let ins2 :=
        if st.legacyGlobalReverb ≠ 0 ∧ e0 &&& (1 <<< cfg.effectTypeReverb) ≠ 0 then
          { ins with reverb := st.legacyGlobalReverb }
        else ins
      let e2 :=
        if ins2.pan ≠ cfg.panCenter then e1 ||| (1 <<< cfg.effectTypePanning)
        else e1
      { ins2 with effects := e2 &&& mask })
    .ok (st2, some (i + 1))
  else
    let a := charVal input i
    let b := charVal input (i + 1)
    let st2 ← st.modifyInstrument (fun ins =>
      { ins with effects := (((a.getD 0) <<< 6) ||| (b.getD 0)) &&& mask })
    .ok (st2, some (i + 2))

/-- Tag `z` — filterEnvelope (synth.ts lines 2023-2039). -/

def tagFilterEnvelope (cfg : Config) (convert : ConvertFn) (flags : VersionFlags)
    (input : List ℕ) (i : ℕ) (st : DecState) : Except DecodeErr (DecState × Option ℕ) := do
  match st.curInstrument with
  | none => .error .typeErr
  | some ins0 =>
    let next : ℕ := if ins0.type = .drumset then i + cfg.drumCount else i + 1
    let update : Instrument → Instrument := fun ins =>
      if ins0.type = .drumset then
        { ins with drumsetEnvelopes := ((List.range cfg.drumCount).map
            (fun k => clampJSN 0 cfg.envelopesLength (charVal input (i + k)))) }
      else
        { ins with filterEnvelope := clampJSN 0 cfg.envelopesLength (charVal input i) }
    let st2 ← st.modifyInstrumentE (fun ins => do
      let ins2 := update ins
      if flags.beforeNine then
        match st.legacyFilterSettings with
        | none => .error .typeErr
        | some lfs =>
          match izGet lfs st.instrumentChannelIterator with
          | none => .error .typeErr
          | some row =>
            match izGet row st.instrumentIndexIterator with
            | none => .error .typeErr
            | some ls =>
              .ok { ins2 with filter :=
                (convert ls.cutoff ls.resonance ins2.filterEnvelope ins2.type) }
      else .ok ins2)
    .ok (st2, some next)

/-- Tag `W` — pulseWidth (synth.ts lines 2040-2048); the pulse envelope is
packed after it for pwm instruments. -/

def tagPulseWidth (cfg : Config) (input : List ℕ) (i : ℕ) (st : DecState) :
    Except DecodeErr (DecState × Option ℕ) := do
  match st.curInstrument with
  | none => .error .typeErr
  | some ins0 =>
    let st2 ← st.modifyInstrument (fun ins =>
      let ins2 := { ins with pulseWidth := clampJSN 0 cfg.pulseWidthRange (charVal input i) }
      if ins2.type = .pwm then
        { ins2 with pulseEnvelope := clampJSN 0 cfg.envelopesLength (charVal input (i + 1)) }
      else ins2)
    .ok (st2, some (if ins0.type = .pwm then i + 2 else i + 1))

/-- Read access to the legacy filter settings entry at `(ch, idx)`. -/

def DecState.getLFS (st : DecState) (ch idx : ℤ) : Option LegacySettings :=
  st.legacyFilterSettings.bind (fun lfs =>
    (izGet lfs ch).bind (fun row => izGet row idx))

/-- Update the legacy filter settings entry at `(ch, idx)`; a missing table,
row or entry is a dereference of `undefined` (`TypeError`). -/

def DecState.setLFS (st : DecState) (ch idx : ℤ) (f : LegacySettings → LegacySettings) :
    Except DecodeErr DecState :=
  match st.legacyFilterSettings with
  | none => .error .typeErr
  | some lfs =>
    match izGet lfs ch with
    | none => .error .typeErr
    | some row =>
      match izGet row idx with
      | none => .error .typeErr
      | some ls =>
        let lfs2 := lfs.set ch.toNat (row.set idx.toNat (f ls))
        .ok { st with legacyFilterSettings := some lfs2 }

/-- Tag `w` — wave (synth.ts lines 1890-1926): the legacy wave order map is
`[1,2,3,4,5,6,7,8,0]`, with `| 0` coercing an out-of-range lookup to 0. -/

def tagWave (cfg : Config) (convert : ConvertFn) (flags : VersionFlags) (input : List ℕ)
    (i : ℕ) (st : DecState) : Except DecodeErr (DecState × Option ℕ) := do
  if flags.beforeThree then
    let ch := charVal input i
    let value : ℕ := ((charVal input (i + 1)).bind
      (([1, 2, 3, 4, 5, 6, 7, 8, 0] : List ℕ).get? ·)).getD 0
    let sg ← st.song.modifyChannelInstrument0 ch (fun ins =>
      let ins2 := { ins with chipWave := clampJSN 0 cfg.chipWavesLength (some value) }
      .ok { ins2 with filter := (convert none none ins2.filterEnvelope ins2.type) })
    .ok (st.withSong sg, some (i + 2))
  else if flags.beforeSix then
    let ipc := st.song.instrumentsPerChannel
    let pcc := st.song.pitchChannelCount
    let sg ← st.song.updateAllInstruments (fun c j ins =>
      if pcc ≤ c then
        { ins with chipNoise := clampJSN 0 cfg.chipNoisesLength (charVal input (i + c * ipc + j)) }
      else
        let value : ℕ := ((charVal input (i + c * ipc + j)).bind
          (([1, 2, 3, 4, 5, 6, 7, 8, 0] : List ℕ).get? ·)).getD 0
        { ins with chipWave := clampJSN 0 cfg.chipWavesLength (some value) })
    .ok (st.withSong sg, some (i + st.song.getChannelCount * ipc))
  else if flags.beforeSeven then
    let st2 ← st.modifyInstrument (fun ins =>
      if (st.song.pitchChannelCount : ℤ) ≤ st.instrumentChannelIterator then
        { ins with chipNoise := clampJSN 0 cfg.chipNoisesLength (charVal input i) }
      else
        let value : ℕ := ((charVal input i).bind
          (([1, 2, 3, 4, 5, 6, 7, 8, 0] : List ℕ).get? ·)).getD 0
        { ins with chipWave := clampJSN 0 cfg.chipWavesLength (some value) })
    .ok (st2, some (i + 1))
  else
    let st2 ← st.modifyInstrument (fun ins =>
      if (st.song.pitchChannelCount : ℤ) ≤ st.instrumentChannelIterator then
        { ins with chipNoise := clampJSN 0 cfg.chipNoisesLength (charVal input i) }
      else
        { ins with chipWave := clampJSN 0 cfg.chipWavesLength (charVal input i) })
    .ok (st2, some (i + 1))

/-- The modern filter point list read by tags `f` (version ≥ 9) and `G`:
`count` points of three characters each (synth.ts lines 1979-1989). -/

def readFilterPoints (cfg : Config) (input : List ℕ) (i : ℕ) (count : ℕ) :
    List FilterControlPoint :=
  (List.range count).map (fun k =>
    ⟨filterTypeOfIndex (clampJSN 0 3 (charVal input (i + 3 * k))),
      clampJSN 0 cfg.filterFreqRange (charVal input (i + 3 * k + 1)),
      clampJSN 0 cfg.filterGainRange (charVal input (i + 3 * k + 2))⟩)

/-- Characters consumed by a modern filter tag after the count character:
three per kept point plus three per skipped surplus point (synth.ts lines
1990-1992; a `NaN` count runs no skip loop). -/

def filterTagSpan (count : ℕ) (originalCount : Option ℕ) : ℕ :=
  3 * count + (match originalCount with
    | some oc => 3 * (oc - count)
    | none => 0)

/-- Tag `f` — filter (synth.ts lines 1927-1994). -/

def tagFilter (cfg : Config) (convert : ConvertFn) (flags : VersionFlags) (input : List ℕ)
    (i : ℕ) (st : DecState) : Except DecodeErr (DecState × Option ℕ) := do
  if flags.beforeNine then
    if flags.beforeSeven then
      if flags.beforeThree then
        let ch := charVal input i
        let lf : Option ℕ :=
          ([1, 3, 4, 5] : List ℕ).get? (clampJSN 0 7 (charVal input (i + 1))).toNat
        match lf with
        | none =>
          -- An out-of-table legacy filter leaves cutoff and envelope
          -- undefined; dereferencing the undefined envelope in
          -- convertLegacySettings throws.
          .error .typeErr
        | some lfv =>
          let cut : Option ℕ := ([10, 6, 3, 0, 8, 5, 2] : List ℕ).get? lfv
          let env : ℤ := ((([1, 1, 1, 1, 18, 19, 20] : List ℕ).get? lfv).getD 0 : ℕ)
          match ch with
          | none => .error .typeErr
          | some c =>
            let st2 ← st.setLFS (c : ℤ) 0 (fun ls => { ls with cutoff := cut, resonance := some 0 })
            let sg ← st2.song.modifyChannelInstrument0 ch (fun ins =>
              let ins2 := { ins with filterEnvelope := env }
              .ok { ins2 with filter := (convert cut (some 0) env ins2.type) })
            .ok (st2.withSong sg, some (i + 2))
      else if flags.beforeSix then
        let ipc := st.song.instrumentsPerChannel
        let pcc := st.song.pitchChannelCount
        let count := st.song.getChannelCount
        match st.legacyFilterSettings with
        | none => .error .typeErr
        | some lfs =>
          if count ≤ lfs.length ∧ ((lfs.take count).all (fun row => ipc ≤ row.length)) then
            let settingsAt : ℕ → ℕ → ℕ × ℤ := fun c j =>
              if c < pcc then
                let lfv := (clampJSN 0 7 ((charVal input (i + c * ipc + j)).map (· + 1))).toNat
                ((([10, 6, 3, 0, 8, 5, 2] : List ℕ).get? lfv).getD 0,
                  (((([1, 1, 1, 1, 18, 19, 20] : List ℕ).get? lfv).getD 0 : ℕ) : ℤ))
              else (10, 1)
            let sg ← st.song.updateAllInstruments (fun c j ins =>
              let cutEnv := settingsAt c j
              let ins2 := { ins with filterEnvelope := cutEnv.2 }
              { ins2 with filter := (convert (some cutEnv.1) (some 0) cutEnv.2 ins2.type) })
            let lfs2 := lfs.mapIdx (fun c row =>
              if c < count then
                row.mapIdx (fun j ls =>
                  if j < ipc then { ls with cutoff := some (settingsAt c j).1, resonance := some 0 }
                  else ls)
              else row)
            .ok ({ st with song := sg, legacyFilterSettings := some lfs2 },
              some (i + count * ipc))
          else .error .typeErr
      else
        let lfv := (clampJSN 0 7 (charVal input i)).toNat
        let cut : ℕ := (([10, 6, 3, 0, 8, 5, 2] : List ℕ).get? lfv).getD 0
        let env : ℤ := ((([1, 1, 1, 1, 18, 19, 20] : List ℕ).get? lfv).getD 0 : ℕ)
        let st2 ← st.setLFS st.instrumentChannelIterator st.instrumentIndexIterator
          (fun ls => { ls with cutoff := some cut, resonance := some 0 })
        let st3 ← st2.modifyInstrument (fun ins =>
          let ins2 := { ins with filterEnvelope := env }
          { ins2 with filter := (convert (some cut) (some 0) env ins2.type) })
        .ok (st3, some (i + 1))
    else
      -- Version 7 or 8: a plain cutoff setting clamped to 0..10.
      let cut : ℕ := (clampJSN 0 11 (charVal input i)).toNat
      let st2 ← st.setLFS st.instrumentChannelIterator st.instrumentIndexIterator
        (fun ls => { ls with cutoff := some cut })
      match st2.getLFS st.instrumentChannelIterator st.instrumentIndexIterator with
      | none => .error .typeErr
      | some ls =>
        let st3 ← st2.modifyInstrument (fun ins =>
          { ins with filter := (convert ls.cutoff ls.resonance ins.filterEnvelope ins.type) })
        .ok (st3, some (i + 1))
  else
    let originalCount := charVal input i
    let count := (clampJSN 0 (cfg.filterMaxPoints + 1) originalCount).toNat
    let st2 ← st.modifyInstrument (fun ins =>
      { ins with filter := readFilterPoints cfg input (i + 1) count })
    .ok (st2, some (i + 1 + filterTagSpan count originalCount))

/-- Tag `y` — filterResonance, deprecated at version 9 where it consumes
nothing (synth.ts lines 1995-2005). -/

def tagFilterResonance (convert : ConvertFn) (flags : VersionFlags) (input : List ℕ)
    (i : ℕ) (st : DecState) : Except DecodeErr (DecState × Option ℕ) := do
  if flags.beforeNine then
    let res : ℕ := (clampJSN 0 8 (charVal input i)).toNat
    let st2 ← st.setLFS st.instrumentChannelIterator st.instrumentIndexIterator
      (fun ls => { ls with resonance := some res })
    match st2.getLFS st.instrumentChannelIterator st.instrumentIndexIterator with
    | none => .error .typeErr
    | some ls =>
      let st3 ← st2.modifyInstrument (fun ins =>
        { ins with filter := (convert ls.cutoff ls.resonance ins.filterEnvelope ins.type) })
      .ok (st3, some (i + 1))
  else
    .ok (st, some i)

/-- Tag `G` — distortionFilter (synth.ts lines 2006-2022). -/

def tagDistortionFilter (cfg : Config) (input : List ℕ) (i : ℕ) (st : DecState) :
    Except DecodeErr (DecState × Option ℕ) := do
  let originalCount := charVal input i
  let count := (clampJSN 0 (cfg.filterMaxPoints + 1) originalCount).toNat
  let st2 ← st.modifyInstrument (fun ins =>
    { ins with distortionFilter := readFilterPoints cfg input (i + 1) count })
  .ok (st2, some (i + 1 + filterTagSpan count originalCount))

/-- Reads and assigns `barCount` bar indices for each of the first `n`
channels, threading the bit stream (synth.ts lines 2264-2287). -/

def barsAssignLoop (nb barCount : ℕ) (addOne : Bool) :
    ℕ → List Channel → List Bool → List Channel × List Bool
  | 0, chs, bits => (chs, bits)
  | _+1, [], bits => ([], bits)
  | n+1, ch :: chs, bits =>
    let rf := readFields nb barCount bits
    let vals := if addOne then rf.1.map (Option.map (· + 1)) else rf.1
    let rest := barsAssignLoop nb barCount addOne n chs rf.2
    ({ ch with bars := vals ++ ch.bars.drop barCount } :: rest.1, rest.2)

/-- Tag `b` — bars (synth.ts lines 2257-2289). -/

def tagBars (flags : VersionFlags) (input : List ℕ) (i : ℕ) (st : DecState) :
    Except DecodeErr (DecState × Option ℕ) := do
  if flags.beforeThree then
    let ch := charVal input i
    let bc := charVal input (i + 1)
    let subLen : Option ℕ := bc.map (fun n => (n + 1) / 2)
    let bits := bitsFromChars input (i + 2) (i + 2 + subLen.getD 0)
    let vals := ((readFields 3 (bc.getD 0) bits).1).map (Option.map (· + 1))
    let sg ← st.song.modifyChannelAt ch (fun chan =>
      .ok { chan with bars := vals ++ chan.bars.drop (bc.getD 0) })
    .ok (st.withSong sg, subLen.map (fun L => i + 2 + L))
  else
    let count := st.song.getChannelCount
    let barCount := st.song.barCount
    let nb :=
      if flags.beforeFive then neededBitCount st.song.patternsPerChannel
      else neededBitCount (st.song.patternsPerChannel + 1)
    let subLen := (count * barCount * nb + 5) / 6
    let bits := bitsFromChars input i (i + subLen)
    if count ≤ st.song.channels.length then
      let updated := barsAssignLoop nb barCount flags.beforeFive count
        (st.song.channels.take count) bits
      .ok (st.withSong { st.song with
        channels := updated.1 ++ st.song.channels.drop count }, some (i + subLen))
    else .error .typeErr

/-! ### The patterns tag

The decoding of the `p` tag's bit stream (synth.ts lines 2290-2450). -/

/-- A pin of a note shape as read from the bit stream (synth.ts lines
2373-2383): its bend flag, cumulative time and expression. -/

structure ShapePin where
  pitchBend : Bool
  time : Option ℚ
  expression : Option ℕ
deriving DecidableEq

/-- A note shape (synth.ts lines 2362-2384). -/

structure DecShape where
  pitchCount : ℕ
  pins : List ShapePin
  length : Option ℚ
  bendCount : ℕ
  initialExpression : Option ℕ
deriving DecidableEq

/-- A legacy part duration scaled by `partsPerBeat / stepsPerBeat` (synth.ts
lines 2350-2351 and 2377-2378). An out-of-range or `NaN` rhythm index makes
`Config.rhythms[this.rhythm]` `undefined`, so reading `.stepsPerBeat` throws
a `TypeError`; a zero steps-per-beat gives `Infinity`, which (like `NaN`)
fails every enclosing `validateRange` and exits every enclosing rest
comparison, so it is embedded as `none`. -/

def scaledLegacyDuration (cfg : Config) (rhythm : Option ℕ) (d : ℕ) :
    Except DecodeErr (Option ℚ) :=
  match rhythm.bind (cfg.rhythms.get? ·) with
  | none => .error .typeErr
  | some spb =>
    .ok (if spb = 0 then none else some ((d : ℚ) * (cfg.partsPerBeat : ℚ) / spb))

/-- One part duration read: legacy long-tail `(1,2)` scaled, or modern
long-tail `(1,3)`. -/

def readDuration (cfg : Config) (flags : VersionFlags) (rhythm : Option ℕ)
    (bits : List Bool) : Except DecodeErr (Option ℚ × List Bool) :=
  if flags.beforeSeven then
    match readLongTail 1 2 bits with
    | (d, bits2) => (scaledLegacyDuration cfg rhythm d).map (fun q => (q, bits2))
  else
    match readLongTail 1 3 bits with
    | (d, bits2) => .ok (some ((d : ℚ)), bits2)

/-- `while (pitchCount < maxChordSize && bits.read(1) == 1) pitchCount++`
(synth.ts line 2365); the fuel is the chord-size bound itself. -/

def pitchCountLoop (maxChord : ℕ) : ℕ → ℕ → List Bool → ℕ × List Bool
  | 0, cur, bits => (cur, bits)
  | fuel+1, cur, bits =>
    if cur < maxChord then
      match readBit1 bits with
      | (true, bits2) => pitchCountLoop maxChord fuel (cur + 1) bits2
      | (false, bits2) => (cur, bits2)
    else (cur, bits)

/-- The pin-reading loop of a new shape (synth.ts lines 2373-2383),
accumulating the running length and bend count. -/

def readPinsLoop (cfg : Config) (flags : VersionFlags) (rhythm : Option ℕ) :
    ℕ → Option ℚ → ℕ → List Bool →
    Except DecodeErr (List ShapePin × Option ℚ × ℕ × List Bool)
  | 0, len, bends, bits => .ok ([], len, bends, bits)
  | n+1, len, bends, bits => do
    let (pb, bits1) := readBit1 bits
    let r ← readDuration cfg flags rhythm bits1
    match r with
    | (d, bits2) =>
      let len2 := optAddQ len d
      let (expr, bits3) := readBitsC bits2 2 (some 0)
      let rest ← readPinsLoop cfg flags rhythm n len2 (bends + if pb then 1 else 0) bits3
      match rest with
      | (pins, lenF, bendsF, bits4) => .ok (⟨pb, len2, expr⟩ :: pins, lenF, bendsF, bits4)

/-- Reading a fresh shape (synth.ts lines 2362-2384). -/

def readNewShape (cfg : Config) (flags : VersionFlags) (rhythm : Option ℕ)
    (bits : List Bool) : Except DecodeErr (DecShape × List Bool) :=
  match pitchCountLoop cfg.maxChordSize cfg.maxChordSize 1 bits with
  | (pc, bits1) =>
    match readLongTail 1 0 bits1 with
    | (pinCount, bits2) =>
      match readBitsC bits2 2 (some 0) with
      | (ie, bits3) =>
        (readPinsLoop cfg flags rhythm pinCount (some 0) 0 bits3).map
          (fun r => (⟨pc, r.1, r.2.1, r.2.2.1, ie⟩, r.2.2.2))

/-- `pitch++; while (recentPitches.indexOf(pitch) != -1) pitch++;` — the
inner membership-skipping walk; `recent.length + 1` fuel always suffices
because at most `recent.length` consecutive integers can be members. -/

def skipUpFuel : ℕ → List ℤ → ℤ → ℤ
  | 0, _, p => p
  | f+1, recent, p => if p ∈ recent then skipUpFuel f recent (p + 1) else p

/-- The downward twin of `skipUpFuel`. -/

def skipDownFuel : ℕ → List ℤ → ℤ → ℤ
  | 0, _, p => p
  | f+1, recent, p => if p ∈ recent then skipDownFuel f recent (p - 1) else p

/-- `while (intervalIter > 0) { pitch++; skip members; intervalIter--; }`
(synth.ts lines 2398-2402). -/

def stepUpN : ℕ → List ℤ → ℤ → ℤ
  | 0, _, p => p
  | n+1, recent, p => stepUpN n recent (skipUpFuel (recent.length + 1) recent (p + 1))

/-- `while (intervalIter < 0) { pitch--; skip members; intervalIter++; }`
(synth.ts lines 2403-2407). -/

def stepDownN : ℕ → List ℤ → ℤ → ℤ
  | 0, _, p => p
  | n+1, recent, p => stepDownN n recent (skipDownFuel (recent.length + 1) recent (p - 1))

/-- The pitch-reading loop of a note (synth.ts lines 2392-2428): `remaining`
counts down from `pitchCount + bendCount` while `j` counts up. Returns the
pitches, the pitch bends, and the updated `lastPitch`, recent-pitch list and
bit stream. -/

def readPitchesLoop (pitchCount : ℕ) :
    ℕ → ℕ → ℤ → List ℤ → List Bool → List ℤ → List ℤ →
    Except DecodeErr (List ℤ × List ℤ × ℤ × List ℤ × List Bool)
  | 0, _, lastPitch, recent, bits, pitches, bends =>
    .ok (pitches, bends, lastPitch, recent, bits)
  | remaining+1, j, lastPitch, recent, bits, pitches, bends => do
    let (useOldPitch, bits1) := readBit1 bits
    let (pitch, recent2, bits2) ←
      if useOldPitch then do
        let r := readBitsC bits1 3 (some 0)
        let idx ← validateRangeI 0 ((recent.length : ℤ) - 1) (r.1.map (fun n => (n : ℤ)))
        match recent.get? idx.toNat with
        | none => .error .typeErr
        | some p => .ok (p, recent.eraseIdx idx.toNat, r.2)
      else
        match readPitchIntervalC bits1 with
        | (interval, bits2) =>
          let p :=
            if 0 < interval then stepUpN interval.toNat recent lastPitch
            else if interval < 0 then stepDownN (-interval).toNat recent lastPitch
            else lastPitch
          .ok (p, recent, bits2)
    let recent3 := (pitch :: recent2).take 8
    let pitches2 := if j < pitchCount then pitches ++ [pitch] else pitches
    let bends2 := if j < pitchCount then bends else bends ++ [pitch]
    let lastPitch2 :=
      if j = pitchCount - 1 then (pitches2.get? 0).getD 0 else pitch
    readPitchesLoop pitchCount remaining (j + 1) lastPitch2 recent3 bits2 pitches2 bends2

/-- The pin-building fold over a shape's pins (synth.ts lines 2430-2436):
`pitchBends` starts with the base pitch prepended; a bend flag shifts it. -/

def buildPins (base : ℤ) : List ShapePin → List ℤ → List NotePin
  | [], _ => []
  | sp :: rest, bendList =>
    let bendList2 := if sp.pitchBend then bendList.drop 1 else bendList
    ⟨(bendList2.get? 0).getD 0 - base, sp.time, sp.expression⟩ :: buildPins base rest bendList2

/-- `validateRange(0, beatsPerBar * partsPerBeat, note.end)` where either
side may be `NaN` (synth.ts line 2437); any `NaN` comparison throws. -/

def validateRangeQOpt (min : ℚ) (max : Option ℚ) (val : Option ℚ) : Except DecodeErr ℚ :=
  match val, max with
  | some v, some m =>
    if min ≤ v ∧ v ≤ m then .ok v else .error (.valueNotInRange (some v) min m)
  | _, _ => .error (.valueNotInRange val min (max.getD 0))

/-- The note-building tail of one iteration of the note loop (synth.ts lines
2385-2439): move the shape to the front of the recent list, read the
pitches, assemble the note and validate its end. Returns the validated new
`curPart` with the updated channel-parsing state and the note. -/

def noteStep (B : Option ℚ) (curPart : Option ℚ) (lastPitch : ℤ) (recent : List ℤ)
    (removedShapes : List DecShape) (bits : List Bool) (shape : DecShape) :
    Except DecodeErr (ℚ × ℤ × List ℤ × List DecShape × List Bool × Note) := do
  let recentShapes2 := (shape :: removedShapes).take 10
  let r ← readPitchesLoop shape.pitchCount (shape.pitchCount + shape.bendCount) 0
    lastPitch recent bits [] []
  match r with
  | (pitches, pitchBends, lastPitch2, recent2, bits2) =>
    let base := (pitches.get? 0).getD 0
    let note : Note :=
      { pitches := pitches
        pins := ⟨0, some 0, shape.initialExpression⟩ :: buildPins base shape.pins (base :: pitchBends)
        start := curPart
        stop := optAddQ curPart shape.length }
    let cp ← validateRangeQOpt 0 B note.stop
    .ok (cp, lastPitch2, recent2, recentShapes2, bits2, note)

/-- The per-pattern note-reading `while (curPart < beatsPerBar *
partsPerBeat)` loop (synth.ts lines 2338-2440), with explicit fuel (the
caller supplies enough for the bits present plus the trailing implicit
rests; JavaScript only fails to terminate when a rest step is not positive,
on which the embedding reports `fuelExhausted` instead of hanging). -/

def notesLoop (cfg : Config) (flags : VersionFlags) (rhythm : Option ℕ) (B : Option ℚ) :
    ℕ → Option ℚ → ℤ → List ℤ → List DecShape → List Bool → List Note →
    Except DecodeErr (List Note × ℤ × List ℤ × List DecShape × List Bool)
  | 0, curPart, lastPitch, recent, recentShapes, bits, notes =>
    match curPart, B with
    | some c, some b =>
      if c < b then .error .fuelExhausted
      else .ok (notes, lastPitch, recent, recentShapes, bits)
    | _, _ => .ok (notes, lastPitch, recent, recentShapes, bits)
  | fuel+1, curPart, lastPitch, recent, recentShapes, bits, notes =>
    match curPart, B with
    | some c, some b =>
      if c < b then
        do
          let (useOldShape, bits1) := readBit1 bits
          if useOldShape then
            let (si, bits2) := readLongTail 0 0 bits1
            let idx ← validateRangeI 0 ((recentShapes.length : ℤ) - 1) (some (si : ℤ))
            match recentShapes.get? idx.toNat with
            | none => .error .typeErr
            | some shape =>
              match noteStep B curPart lastPitch recent
                (recentShapes.eraseIdx idx.toNat) bits2 shape with
              | .error e => .error e
              | .ok (cp, lp2, rec2, rs2, bits3, note) =>
                notesLoop cfg flags rhythm B fuel (some cp) lp2 rec2 rs2 bits3
                  (notes ++ [note])
          else
            let (newNote, bits2) := readBit1 bits1
            if newNote then
              match readNewShape cfg flags rhythm bits2 with
              | .error e => .error e
              | .ok (shape, bits3) =>
                match noteStep B curPart lastPitch recent recentShapes bits3 shape with
                | .error e => .error e
                | .ok (cp, lp2, rec2, rs2, bits4, note) =>
                  notesLoop cfg flags rhythm B fuel (some cp) lp2 rec2 rs2 bits4
                    (notes ++ [note])
            else
              match readDuration cfg flags rhythm bits2 with
              | .error e => .error e
              | .ok (restLength, bits3) =>
                notesLoop cfg flags rhythm B fuel (optAddQ curPart restLength)
                  lastPitch recent recentShapes bits3 notes
      else .ok (notes, lastPitch, recent, recentShapes, bits)
    | _, _ => .ok (notes, lastPitch, recent, recentShapes, bits)

/-- The per-channel pattern loop (synth.ts lines 2329-2441): each of the
`remaining` patterns is reset, given its instrument from the bit stream and —
unless a version ≥ 3 presence bit is 0 — filled by the note loop. The
channel's pitch-parsing state threads across its patterns. A pattern index
past the channel's pattern array dereferences `undefined` (`TypeError`). -/

def patternsOfChannel (cfg : Config) (flags : VersionFlags) (rhythm : Option ℕ)
    (B : Option ℚ) (nib fuelN : ℕ) :
    ℕ → List Pattern → ℤ → List ℤ → List DecShape → List Bool →
    Except DecodeErr (List Pattern × ℤ × List ℤ × List DecShape × List Bool)
  | 0, pats, lp, rec, rs, bits => .ok (pats, lp, rec, rs, bits)
  | _+1, [], _, _, _, _ => .error .typeErr
  | n+1, _ :: ps, lp, rec, rs, bits =>
    let (instOpt, bits1) := readBitsC bits nib (some 0)
    let gate : Bool × List Bool :=
      if flags.beforeThree then (true, bits1)
      else readBit1 bits1
    match (if gate.1 then notesLoop cfg flags rhythm B fuelN (some 0) lp rec rs gate.2 []
        else .ok ([], lp, rec, rs, gate.2)) with
    | .error e => .error e
    | .ok (notes, lp2, rec2, rs2, bits3) =>
      match patternsOfChannel cfg flags rhythm B nib fuelN n ps lp2 rec2 rs2 bits3 with
      | .error e => .error e
      | .ok (pats2, lpF, recF, rsF, bitsF) =>
        .ok (({ notes := notes, instrument := instOpt } : Pattern) :: pats2,
          lpF, recF, rsF, bitsF)

/-- The per-channel pitch-parsing initial state (synth.ts lines 2319-2328):
octave offset 0 and the noise pitch table for noise channels, twelve times
the channel octave and the pitch table otherwise; a pitch channel outside
the channel list dereferences `undefined`. -/

def channelPitchState (isNoise : Bool) (chanOpt : Option Channel) :
    Except DecodeErr (ℤ × List ℤ) :=
  match (if isNoise then .ok 0
      else match chanOpt with
        | none => Except.error DecodeErr.typeErr
        | some chan => .ok (chan.octave * 12)) with
  | .error e => .error e
  | .ok oct =>
    .ok ((if isNoise then 4 else 12) + oct,
      ((if isNoise then ([4, 6, 7, 2, 3, 8, 0, 10] : List ℤ)
        else [12, 19, 24, 31, 36, 7, 0]).map (· + oct)))

/-- One channel's worth of the patterns tag: run the pattern loop over the
channel's patterns (synth.ts lines 2329-2441); an existing channel is
rewritten in place, and a channel index past the list survives only when
there are no patterns to touch. -/

def channelStep (cfg : Config) (flags : VersionFlags) (rhythm : Option ℕ)
    (B : Option ℚ) (ppc nib fuelN : ℕ) (c : Option ℕ) (chs : List Channel)
    (bits : List Bool) (lp : ℤ) (rec : List ℤ) :
    Except DecodeErr (List Channel × List Bool) :=
  match c.bind (chs.get? ·), c with
  | some chan, some cv =>
    match patternsOfChannel cfg flags rhythm B nib fuelN ppc chan.patterns lp rec [] bits with
    | .error e => .error e
    | .ok (pats, _, _, _, bits2) => .ok (chs.set cv { chan with patterns := pats }, bits2)
  | _, _ => if ppc = 0 then .ok (chs, bits) else .error .typeErr

/-- The `while (true)` channel loop of the patterns tag (synth.ts lines
2317-2448): fresh pitch state per channel, the initial recent pitches offset
by twelve times the channel octave for pitch channels. A version < 3 header
names the single channel (a `NaN` or out-of-range name dereferences
`undefined` unless there are no patterns to touch); otherwise channels run
from 0 to `getChannelCount() - 1`. -/

def patternsChannelsLoop (cfg : Config) (flags : VersionFlags) (rhythm : Option ℕ)
    (B : Option ℚ) (ppc nib fuelN count pcount : ℕ) :
    ℕ → Option ℕ → List Channel → List Bool → Except DecodeErr (List Channel × List Bool)
  | 0, _, _, _ => .error .fuelExhausted
  | fuel+1, c, chs, bits =>
    match channelPitchState (match c with | some cv => pcount ≤ cv | none => false)
        (c.bind (chs.get? ·)) with
    | .error e => .error e
    | .ok lr =>
      match channelStep cfg flags rhythm B ppc nib fuelN c chs bits lr.1 lr.2 with
      | .error e => .error e
      | .ok r =>
        if flags.beforeThree then .ok r
        else
          if count ≤ c.getD 0 + 1 then .ok r
          else
            patternsChannelsLoop cfg flags rhythm B ppc nib fuelN count pcount fuel
              (some (c.getD 0 + 1)) r.1 r.2

/-- The big-endian base64 accumulation of the bit-string length (synth.ts
lines 2299-2301 and 2305-2309): each step shifts then adds, and a shift of
`NaN` yields 0 while adding an undefined table entry yields `NaN`. -/

def bitLenFold (input : List ℕ) : ℕ → ℕ → Option ℕ → Option ℕ
  | _, 0, acc => acc
  | j, n+1, acc =>
    bitLenFold input (j + 1) n ((charVal input j).map (fun cv => (acc.getD 0) * 64 + cv))

/-- Enough note-loop fuel for `bits` plus the trailing run of implicit
minimum-length rests read past the end of the bit stream. -/

def notesFuel (cfg : Config) (flags : VersionFlags) (rhythm : Option ℕ) (B : Option ℚ)
    (bits : List Bool) : ℕ :=
  let emptyStep : Option ℚ :=
    if flags.beforeSeven then
      match rhythm.bind (cfg.rhythms.get? ·) with
      | none => none
      | some spb => if spb = 0 then none else some ((cfg.partsPerBeat : ℚ) / spb)
    else some 1
  bits.length + (match B, emptyStep with
    | some b, some s => if 0 < s then (⌈b / s⌉).toNat + 4 else 4
    | _, _ => 4)

/-- Tag `p` — patterns (synth.ts lines 2290-2450). -/

def tagPatterns (cfg : Config) (flags : VersionFlags) (input : List ℕ) (i : ℕ)
    (st : DecState) : Except DecodeErr (DecState × Option ℕ) := do
  let hdr : Except DecodeErr (Option ℕ × Option ℕ × ℕ) :=
    if flags.beforeThree then
      let ch := charVal input i
      let a := charVal input (i + 2)
      let b := charVal input (i + 3)
      .ok (ch, b.map (fun bv => (a.getD 0) * 64 + bv), i + 4)
    else do
      let ll ← validateRangeI 1 4 ((charVal input i).map (fun n => (n : ℤ)))
      .ok (some 0, bitLenFold input (i + 1) ll.toNat (some 0), i + 1 + ll.toNat)
  let h ← hdr
  match h with
  | (chStart, bitLen, pStart) =>
    let bits := bitsFromChars input pStart (pStart + bitLen.getD 0)
    let nextIdx : Option ℕ := bitLen.map (fun L => pStart + L)
    let nib := neededBitCount st.song.instrumentsPerChannel
    let B : Option ℚ := st.song.beatsPerBar.map (fun b => (b : ℚ) * (cfg.partsPerBeat : ℚ))
    let fuelN := notesFuel cfg flags st.song.rhythm B bits
    let count := st.song.getChannelCount
    let r ← patternsChannelsLoop cfg flags st.song.rhythm B st.song.patternsPerChannel
      nib fuelN count st.song.pitchChannelCount (count + 1) chStart st.song.channels bits
    match r with
    | (chs2, _) =>
      .ok (st.withSong { st.song with channels := chs2 }, nextIdx)

/-! ## Song codec: the tag dispatch and the decode loop -/

/-- The `switch (command = compressed.charCodeAt(charIndex++))` dispatch of
`fromBase64String` (synth.ts lines 1738-2453): `cmd` is the tag's character
code and `i` the index of its first payload character. An unlisted code hits
the `default` case and throws `"Unrecognized song tag code"` naming the
character and `charIndex - 1`, the tag's own position. -/

def applyTag (cfg : Config) (convert : ConvertFn) (flags : VersionFlags) (input : List ℕ)
    (cmd i : ℕ) (st : DecState) : Except DecodeErr (DecState × Option ℕ) :=
  if cmd = 97 then tagBeatCount cfg flags input i st
  else if cmd = 98 then tagBars flags input i st
  else if cmd = 99 then tagVibrato cfg flags input i st
  else if cmd = 100 then tagTransition cfg flags input i st
  else if cmd = 101 then tagLoopEnd flags input i st
  else if cmd = 102 then tagFilter cfg convert flags input i st
  else if cmd = 103 then tagBarCount cfg input i st
  else if cmd = 104 then tagInterval cfg flags input i st
  else if cmd = 105 then tagInstrumentCount cfg flags input i st
  else if cmd = 106 then tagPatternCount cfg flags input i st
  else if cmd = 107 then tagKey cfg flags input i st
  else if cmd = 108 then tagLoopStart flags input i st
  else if cmd = 109 then tagReverb cfg flags input i st
  else if cmd = 110 then tagChannelCount cfg flags input i st
  else if cmd = 111 then tagChannelOctave cfg flags input i st
  else if cmd = 112 then tagPatterns cfg flags input i st
  else if cmd = 113 then tagEffects cfg flags input i st
  else if cmd = 114 then tagRhythm input i st
  else if cmd = 115 then tagScale flags input i st
  else if cmd = 116 then tagTempo cfg flags input i st
  else if cmd = 117 then tagPreset input i st
  else if cmd = 118 then tagVolume cfg flags input i st
  else if cmd = 119 then tagWave cfg convert flags input i st
  else if cmd = 121 then tagFilterResonance convert flags input i st
  else if cmd = 122 then tagFilterEnvelope cfg convert flags input i st
  else if cmd = 65 then tagAlgorithm cfg input i st
  else if cmd = 66 then tagFeedbackAmplitude cfg input i st
  else if cmd = 67 then tagChord cfg input i st
  else if cmd = 68 then tagDistortion cfg input i st
  else if cmd = 69 then tagOperatorEnvelopes cfg input i st
  else if cmd = 70 then tagFeedbackType cfg input i st
  else if cmd = 71 then tagDistortionFilter cfg input i st
  else if cmd = 72 then tagHarmonics cfg input i st
  else if cmd = 76 then tagPan cfg input i st
  else if cmd = 80 then tagOperatorAmplitudes cfg input i st
  else if cmd = 81 then tagOperatorFrequencies cfg input i st
  else if cmd = 82 then tagBitcrusher cfg input i st
  else if cmd = 83 then tagSpectrum cfg input i st
  else if cmd = 84 then tagStartInstrument cfg flags input i st
  else if cmd = 85 then tagSustain cfg input i st
  else if cmd = 86 then tagFeedbackEnvelope cfg input i st
  else if cmd = 87 then tagPulseWidth cfg input i st
  else .error (.unrecognizedTag cmd (i - 1))

/-- `while (charIndex < compressed.length) switch(...)` (synth.ts line 1738).
Every handler advances `charIndex` past the tag character, so `input.length`
iterations always suffice; the fuel only discharges termination. A `none`
(`NaN`) next index makes `charIndex < compressed.length` false and ends the
loop normally. -/

def decodeLoop (cfg : Config) (convert : ConvertFn) (flags : VersionFlags)
    (input : List ℕ) : ℕ → ℕ → DecState → Except DecodeErr DecState
  | 0, i, st => if i < input.length then .error .fuelExhausted else .ok st
  | fuel+1, i, st =>
    match input.get? i with
    | none => .ok st
    | some cmd =>
      match applyTag cfg convert flags input cmd (i + 1) st with
      | .error e => .error e
      | .ok (st2, none) => .ok st2
      | .ok (st2, some j) => decodeLoop cfg convert flags input fuel j st2

/-- The outcome of `fromBase64String`: the resulting song, a deferral to the
JSON parser for input whose first meaningful character is `{`, or a thrown
error. -/

inductive DecodeResult where
  | ok (s : Song)
  | jsonPath (fromIndex : ℕ)
  | error (e : DecodeErr)
deriving DecidableEq

/-- `while (compressed.charCodeAt(charIndex) <= CharCode.SPACE) charIndex++`
(synth.ts line 1691): past the end `charCodeAt` is `NaN` and the comparison
is false. -/

def skipWS (input : List ℕ) : ℕ → ℕ → ℕ
  | 0, i => i
  | fuel+1, i =>
    match input.get? i with
    | some c => if c ≤ 32 then skipWS input fuel (i + 1) else i
    | none => i

/-- The version < 3 channel fix-ups (synth.ts lines 1711-1715): transition 0
on every channel's first instrument and chipNoise 0 on channel 3's; a missing
channel or instrument would dereference `undefined`. -/

def beforeThreeInits (s : Song) : Except DecodeErr Song := do
  let chans ← s.channels.mapM (fun ch =>
    match ch.instruments with
    | [] => .error DecodeErr.typeErr
    | ins :: rest => .ok { ch with instruments := { ins with transition := 0 } :: rest })
  match chans.get? 3 with
  | none => .error .typeErr
  | some ch3 =>
    match ch3.instruments with
    | [] => .error .typeErr
    | ins :: rest =>
      let chans2 := chans.set 3 { ch3 with instruments := { ins with chipNoise := 0 } :: rest }
      .ok { s with channels := chans2 }

/-- The body of `fromBase64String` after the version symbol has been
resolved to `flags` and consumed at `i` (synth.ts lines 1709-1738):
`initToDefault(beforeSix)`, the version < 3 fix-ups, the legacy filter
settings table for versions < 9, then the tag loop from state
`(legacyGlobalReverb, instrumentChannelIterator, instrumentIndexIterator) =
(0, 0, -1)`. -/

def decodeBody (cfg : Config) (convert : ConvertFn) (flags : VersionFlags)
    (input : List ℕ) (i : ℕ) (s : Song) : DecodeResult :=
  let s1 := initToDefault cfg flags.beforeSix s
  let s2e : Except DecodeErr Song :=
    if flags.beforeThree then beforeThreeInits s1 else .ok s1
  match s2e with
  | .error e => .error e
  | .ok s2 =>
    let lfs : Option (List (List LegacySettings)) :=
      if flags.beforeNine then
        some ((List.range s2.getChannelCount).map
          (fun _ => List.replicate s2.instrumentsPerChannel LegacySettings.empty))
      else none
    match decodeLoop cfg convert flags input (input.length + 1) i ⟨s2, lfs, 0, 0, -1⟩ with
    | .error e => .error e
    | .ok st => .ok st.song

/-- `Song.fromBase64String(compressed)` (synth.ts lines 1684-2455) on a song
`s`: empty input resets to the default song; after skipping whitespace and a
hash mark, a `{` defers to the JSON parser; a version symbol outside 2..9
returns with the song untouched; an undefined version symbol (out-of-table
character or end of string) fails every `< k` comparison and proceeds with
all version flags false. -/

def fromBase64String (cfg : Config) (convert : ConvertFn) (input : List ℕ)
    (s : Song) : DecodeResult :=
  if input = [] then .ok (initToDefault cfg true s)
  else
    let i0 := skipWS input (input.length + 1) 0
    let i1 := if input.get? i0 = some 35 then i0 + 1 else i0
    if input.get? i1 = some 123 then .jsonPath i1
    else
      match charVal input i1 with
      | none => decodeBody cfg convert flagsUndefined input (i1 + 1) s
      | some ver =>
        if ver < 2 ∨ 9 < ver then .ok s
        else decodeBody cfg convert (flagsOf ver) input (i1 + 1) s

/-! ## Concrete instances for witnesses -/

/-- A concrete configuration with the spec's published constants (partsPerBeat
24, four rhythms, maximum chord size 4), used to instantiate witnesses. -/

def cfgStd : Config where
  partsPerBeat := 24
  maxChordSize := 4
  rhythms := [3, 4, 6, 24]
  keysLength := 12
  tempoMin := 30
  tempoMax := 300
  reverbRange := 4
  beatsPerBarMin := 3
  beatsPerBarMax := 16
  barCountMin := 1
  barCountMax := 128
  pitchChannelCountMin := 1
  pitchChannelCountMax := 6
  noiseChannelCountMin := 0
  noiseChannelCountMax := 3
  instrumentsPerChannelMin := 1
  instrumentsPerChannelMax := 4
  scrollableOctaves := 5
  chipWavesLength := 9
  chipNoisesLength := 9
  transitionsLength := 8
  vibratosLength := 4
  intervalsLength := 8
  chordsLength := 4
  volumeRange := 8
  panMax := 8
  panCenter := 4
  pulseWidthRange := 8
  sustainRange := 8
  distortionRange := 8
  bitcrusherFreqRange := 14
  bitcrusherQuantizationRange := 8
  algorithmsLength := 13
  feedbacksLength := 18
  operatorFrequenciesLength := 34
  operatorAmplitudeMax := 15
  operatorCount := 4
  envelopesLength := 26
  spectrumControlPoints := 30
  spectrumControlPointBits := 3
  harmonicsControlPoints := 28
  harmonicsControlPointBits := 3
  harmonicsMax := 7
  drumCount := 12
  filterMaxPoints := 8
  filterFreqRange := 34
  filterGainRange := 15
  effectTypeLength := 2
  effectTypeReverb := 0
  effectTypePanning := 1
  transitionHardIndex := 1
  envelopeSteadyIndex := 1
  envelopeTwang2Index := 9
  defaultSpectrumPitch := List.replicate 30 0
  defaultSpectrumNoise := List.replicate 30 0

/-- A trivial legacy-filter translation for instantiating witnesses (the
decoder theorems quantify over the translation). -/

def convert0 : ConvertFn := fun _ _ _ _ => []

/-- A concrete song with no channels, used to instantiate witnesses. -/

def songZero : Song :=
  ⟨some 0, 0, 150, some 8, 16, 8, some 1, 1, some 0, some 4, 0, 0, []⟩

/-- A concrete decoder state over `songZero`. -/

def stZero : DecState := ⟨songZero, none, 0, 0, -1⟩

/-- The tag codes the `fromBase64String` switch lists (the `SongTagCode`
enum, synth.ts lines 98-143). -/

def knownTagCodes : List ℕ :=
  [97, 98, 99, 100, 101, 102, 103, 104, 105, 106, 107, 108, 109, 110, 111, 112,
   113, 114, 115, 116, 117, 118, 119, 121, 122, 65, 66, 67, 68, 69, 70, 71, 72,
   76, 80, 81, 82, 83, 84, 85, 86, 87]

/-! ## C8: the decoded-note invariant checker -/

/-- Pin times are all present (`NaN`-free) and strictly increasing. -/

def pinsTimesIncreasing : List NotePin → Bool
  | [] => true
  | [p] => p.time.isSome
  | p :: q :: rest =>
    (match p.time, q.time with
     | some a, some b => decide (a < b)
     | _, _ => false) && pinsTimesIncreasing (q :: rest)

/-- The claim's note invariants: first pin at time 0 with interval 0, pin
times strictly increasing, last pin's time equal to `end - start`, at most
`maxChordSize` pitches, and `end > start`. -/

def noteInv (mc : ℕ) (n : Note) : Bool :=
  match n.start, n.stop with
  | some s, some e =>
    decide (s < e) &&
    (match n.pins with
     | p0 :: _ => decide (p0.interval = 0) && decide (p0.time = some 0)
     | [] => false) &&
    pinsTimesIncreasing n.pins &&
    (match n.pins.getLast? with
     | some pl => decide (pl.time = some (e - s))
     | none => false) &&
    decide (n.pitches.length ≤ mc)
  | _, _ => false

/-- Every note of every pattern of a channel passes `noteInv`. -/

def chInv (mc : ℕ) (ch : Channel) : Bool :=
  ch.patterns.all (fun p => p.notes.all (noteInv mc))

/-- `chInv` across a channel list. -/

def channelsInv (mc : ℕ) (chs : List Channel) : Bool := chs.all (chInv mc)

/-- Every note of every pattern of every channel of the song passes
`noteInv`. -/

def songNotesInv (mc : ℕ) (sg : Song) : Bool := channelsInv mc sg.channels

/-! ## C8: invariants of the patterns-tag machinery -/

/-- The invariant of a shape held in `recentShapes`: a bounded pitch count
and positive, strictly increasing pin times ending exactly at the shape's
(positive) length. -/

def shapeInv (mc : ℕ) (sh : DecShape) : Prop :=
  sh.pitchCount ≤ mc ∧
  ∃ l : ℚ, sh.length = some l ∧ 0 < l ∧
    ∃ ts : List ℚ, sh.pins.map ShapePin.time = ts.map some ∧
      List.Chain' (· < ·) ts ∧ (∀ t ∈ ts, 0 < t) ∧ ts.getLast? = some l

/-! ## Theorems -/

/-! ### Round-trip proof for the long-tail integer code (claim C2) -/

theorem writeUnaryPart_remainder_lt (v numBits : Nat) :
    (writeUnaryPart v numBits).2.1 < 2 ^ (writeUnaryPart v numBits).2.2 := by
  unfold writeUnaryPart
  split
  case isTrue h => exact writeUnaryPart_remainder_lt (v - 2 ^ numBits) (numBits + 1)
  case isFalse h => simpa using Nat.lt_of_not_le h
termination_by v
decreasing_by
  have : 0 < 2 ^ numBits := Nat.pos_pow_of_pos _ (by omega)
  omega

theorem writeUnaryPart_remainder_le (v numBits : Nat) :
    (writeUnaryPart v numBits).2.1 ≤ v := by
  unfold writeUnaryPart
  split
  case isTrue h =>
    exact le_trans (writeUnaryPart_remainder_le (v - 2 ^ numBits) (numBits + 1))
      (Nat.sub_le v _)
  case isFalse h => simp
termination_by v
decreasing_by
  have : 0 < 2 ^ numBits := Nat.pos_pow_of_pos _ (by omega)
  omega

/-- The reader's unary loop inverts the writer's unary loop: it recovers
exactly the amount the writer subtracted, lands at the writer's final bit
width, and leaves the bits after the terminating `0` untouched. -/

theorem readUnaryPart_writeUnaryPart (v numBits r : Nat) (rest : List Bool) :
    readUnaryPart ((writeUnaryPart v numBits).1 ++ false :: rest) r numBits =
      (r + (v - (writeUnaryPart v numBits).2.1), (writeUnaryPart v numBits).2.2, rest) := by
  unfold writeUnaryPart
  split
  case isTrue h =>
    have hle := writeUnaryPart_remainder_le (v - 2 ^ numBits) (numBits + 1)
    have ih := readUnaryPart_writeUnaryPart (v - 2 ^ numBits) (numBits + 1)
      (r + 2 ^ numBits) rest
    simp only [List.cons_append, readUnaryPart, List.append_eq] at ih ⊢
    rw [ih]
    simp only [Prod.mk.injEq, and_true]
    have key : ∀ P Y : ℕ, P ≤ v → Y ≤ v - P → r + P + (v - P - Y) = r + (v - Y) := by
      intro P Y hP hY
      omega
    exact key _ _ h hle
  case isFalse h =>
    simp [readUnaryPart]
termination_by v
decreasing_by
  have : 0 < 2 ^ numBits := Nat.pos_pow_of_pos _ (by omega)
  omega

theorem writeBits_mod (n v : Nat) : writeBits n (v % 2 ^ n) = writeBits n v := by
  induction n generalizing v with
  | zero => rfl
  | succ n ih =>
    simp only [writeBits]
    congr 1
    · simp [Nat.testBit_mod_two_pow]
    · have hdvd : v % 2 ^ (n + 1) % 2 ^ n = v % 2 ^ n := by
        rw [Nat.mod_mod_of_dvd]
        exact pow_dvd_pow 2 (by omega)
      calc writeBits n (v % 2 ^ (n + 1))
          = writeBits n (v % 2 ^ (n + 1) % 2 ^ n) := (ih _).symm
        _ = writeBits n (v % 2 ^ n) := by rw [hdvd]
        _ = writeBits n v := ih v

/-- The reader's second loop inverts `write`: reading back `n` bits of a value
`v < 2^n` adds exactly `v` to the accumulator and consumes exactly those bits. -/

theorem readBitsAcc_writeBits (n v acc : Nat) (rest : List Bool) (hv : v < 2 ^ n) :
    readBitsAcc (writeBits n v ++ rest) n acc = (acc + v, rest) := by
  induction n generalizing v acc with
  | zero =>
    interval_cases v
    simp [writeBits, readBitsAcc]
  | succ n ih =>
    have step : ∀ (b : Bool) (bs : List Bool) (a : Nat),
        readBitsAcc (b :: bs) (n+1) a = readBitsAcc bs n (a + if b then 2 ^ n else 0) :=
      fun b bs a => rfl
    have hmod : v % 2 ^ n < 2 ^ n := Nat.mod_lt _ (Nat.pos_pow_of_pos _ (by omega))
    have hbit : v.testBit n = decide (v / 2 ^ n % 2 = 1) := Nat.testBit_to_div_mod
    have hpow : v < 2 ^ n * 2 := by
      have : (2:Nat) ^ (n + 1) = 2 ^ n * 2 := by ring
      omega
    have hdiv : v / 2 ^ n < 2 := Nat.div_lt_of_lt_mul hpow
    have hdm := Nat.div_add_mod v (2 ^ n)
    have hcase : v / 2 ^ n = 0 ∨ v / 2 ^ n = 1 :=
      Nat.le_one_iff_eq_zero_or_eq_one.mp (Nat.lt_succ_iff.mp hdiv)
    have key : (if v.testBit n then 2 ^ n else 0) + v % 2 ^ n = v := by
      rcases hcase with hc | hc
      · rw [hc] at hdm
        rw [hbit, hc]
        norm_num at hdm ⊢
        exact hdm
      · rw [hc] at hdm
        rw [hbit, hc]
        norm_num at hdm ⊢
        exact hdm
    rw [writeBits, List.cons_append, step, ← writeBits_mod n v, ih (v % 2 ^ n) _ hmod]
    simp only [Prod.mk.injEq, and_true]
    by_cases hb : v.testBit n <;>
      simp only [hb, if_true, if_false, add_zero] at key ⊢ <;> omega

/-- **C2. Long-tail integer round-trip.** For every `minValue`, `minBits` and
`value ≥ minValue`, reading a long-tail integer with parameters
`(minValue, minBits)` from the bits emitted by
`writeLongTail(minValue, minBits, value)` (followed by any further bits)
returns `value`, and consumes exactly the emitted bits — i.e. the reader's
read position after the call equals the number of bits the writer wrote. -/

theorem readLongTail_writeLongTail (minValue minBits value : Nat)
    (rest : List Bool) (h : minValue ≤ value) :
    readLongTail minValue minBits (writeLongTail minValue minBits value ++ rest) =
      (value, rest) := by
  unfold writeLongTail readLongTail
  have hlt := writeUnaryPart_remainder_lt (value - minValue) minBits
  have hle := writeUnaryPart_remainder_le (value - minValue) minBits
  rw [List.append_assoc, List.cons_append, readUnaryPart_writeUnaryPart]
  simp only []
  rw [readBitsAcc_writeBits _ _ _ _ hlt]
  simp only [Prod.mk.injEq, and_true]
  omega

/-- Witness for C2 at `(minValue, minBits, value) = (1, 3, 5)` with one extra
trailing bit. -/

theorem readLongTail_writeLongTail_witness :
    1 ≤ 5 ∧ readLongTail 1 3 (writeLongTail 1 3 5 ++ [true]) = (5, [true]) :=
  ⟨by decide, readLongTail_writeLongTail 1 3 5 [true] (by decide)⟩

/-- **C10. The clamp helper treats `max` as exclusive.** For all integers with
`min ≤ max - 1`, `clamp min max val` lies in `[min, max - 1]`, and equals `val`
exactly when `val` is already in that interval; hence `max - 1`, not `max`, is
the largest value this helper can store. -/

theorem clamp_max_exclusive (min max val : Int) (h : min ≤ max - 1) :
    (min ≤ clamp min max val ∧ clamp min max val ≤ max - 1) ∧
      (clamp min max val = val ↔ (min ≤ val ∧ val ≤ max - 1)) := by
  unfold clamp
  constructor
  · split_ifs <;> omega
  · constructor
    · intro heq
      split_ifs at heq <;> omega
    · intro hin
      split_ifs <;> omega

/-- Witness for C10 at `min = 0`, `max = 4`, `val = 4` (the result is `3`). -/

theorem clamp_max_exclusive_witness :
    (0 : Int) ≤ 4 - 1 ∧
      ((0 ≤ clamp 0 4 4 ∧ clamp 0 4 4 ≤ 4 - 1) ∧
        (clamp 0 4 4 = 4 ↔ (0 ≤ (4:Int) ∧ (4:Int) ≤ 4 - 1))) :=
  ⟨by decide, clamp_max_exclusive 0 4 4 (by decide)⟩

/-- **C7. Envelope boundary values.** For every positive envelope speed `s`:
twang at time 0 is 1; swell tends to 1 as time tends to infinity; punch at
time 0 is 2; flare at its attack time `0.25/√s` is 1; decay at time 0 is 1;
tremolo at beats 0 is 0; tremolo2 at beats 0 is 0.5; steady is 1 always. -/

theorem computeEnvelope_boundary_values (s beats noteExpression : ℝ) (hs : 0 < s) :
    computeEnvelope ⟨.twang, s⟩ 0 beats noteExpression = 1 ∧
    Filter.Tendsto (fun time => computeEnvelope ⟨.swell, s⟩ time beats noteExpression)
      Filter.atTop (nhds 1) ∧
    computeEnvelope ⟨.punch, s⟩ 0 beats noteExpression = 2 ∧
    computeEnvelope ⟨.flare, s⟩ (0.25 / Real.sqrt s) beats noteExpression = 1 ∧
    computeEnvelope ⟨.decay, s⟩ 0 beats noteExpression = 1 ∧
    (∀ time, computeEnvelope ⟨.tremolo, s⟩ time 0 noteExpression = 0) ∧
    (∀ time, computeEnvelope ⟨.tremolo2, s⟩ time 0 noteExpression = 0.5) ∧
    (∀ time, computeEnvelope ⟨.steady, s⟩ time beats noteExpression = 1) := by
  refine ⟨?_, ?_, ?_, ?_, ?_, ?_, ?_, ?_⟩
  · simp [computeEnvelope]
  · have h1 : Filter.Tendsto (fun time : ℝ => 1 + time * s) Filter.atTop Filter.atTop := by
      apply Filter.tendsto_atTop_add_const_left
      exact Filter.Tendsto.atTop_mul_const hs Filter.tendsto_id
    have h2 : Filter.Tendsto (fun time : ℝ => (1 + time * s)⁻¹) Filter.atTop (nhds 0) :=
      h1.inv_tendsto_atTop
    have h3 := Filter.Tendsto.sub (tendsto_const_nhds (x := (1:ℝ))) h2
    simp only [sub_zero] at h3
    simpa [computeEnvelope, one_div] using h3
  · norm_num [computeEnvelope]
  · simp [computeEnvelope]
  · simp [computeEnvelope, Real.rpow_zero]
  · intro time
    norm_num [computeEnvelope]
  · intro time
    norm_num [computeEnvelope]
  · intro time
    simp [computeEnvelope]

/-- Witness for C7 at speed `s = 1`, `beats = 0`, `noteExpression = 0`. -/

theorem computeEnvelope_boundary_values_witness :
    (0 : ℝ) < 1 ∧ computeEnvelope ⟨.twang, 1⟩ 0 0 0 = 1 :=
  ⟨one_pos, (computeEnvelope_boundary_values 1 0 0 one_pos).1⟩

/-- **C6. Master compressor per-sample law.** Each compressor step updates the
limiter state by the claimed leaky-peak formula applied to
`abs = max(|L|, |R|)` and scales both channels by the claimed volume factor
computed from the updated limit; and the post-run guard resets any limit of
magnitude below `1e-24` to 0 (the non-finite half of the guard is vacuous over
`ℝ`). -/

theorem compressorStep_law (limitRise limitDecay volume limit sampleL sampleR : ℝ) :
    compressorStep limitRise limitDecay volume limit sampleL sampleR =
      (claimLimitUpdate limitRise limitDecay limit (max |sampleL| |sampleR|),
        sampleL * claimVolumeScale volume
          (claimLimitUpdate limitRise limitDecay limit (max |sampleL| |sampleR|)),
        sampleR * claimVolumeScale volume
          (claimLimitUpdate limitRise limitDecay limit (max |sampleL| |sampleR|))) ∧
      (∀ x : ℝ, |x| < 1.0e-24 → sanitizeLimit x = 0) := by
  constructor
  · unfold compressorStep claimLimitUpdate claimVolumeScale
    simp only [apply_ite (fun d : ℝ => volume / d)]
  · intro x hx
    unfold sanitizeLimit
    rw [if_pos hx]

/-- Witness for C6: the guard at `x = 0`. -/

theorem compressorStep_law_witness :
    |(0:ℝ)| < 1.0e-24 ∧ sanitizeLimit 0 = 0 :=
  ⟨by norm_num, (compressorStep_law 0 0 0 0 0 0).2 0 (by norm_num)⟩

/-- **C5. Legacy filter translator point count.** For every legacy cutoff
setting in 0..10 or undefined, legacy resonance setting in 0..7 or undefined,
envelope and instrument type, the translator leaves at most one control point;
and it leaves exactly zero control points precisely when the envelope is not a
decaying type, the (defaulted) legacy resonance setting is at most 1, and the
(defaulted) legacy cutoff setting equals its maximum value 10. -/

theorem convertLegacySettings_point_count (fc : FilterConfig) (kit : FilteringKit)
    (legacyCutoffSetting legacyResonanceSetting : Option ℕ)
    (legacyEnv : Envelope) (instrumentType : InstrumentType)
    (hc : ∀ c ∈ legacyCutoffSetting, c ≤ 10)
    (hr : ∀ r ∈ legacyResonanceSetting, r ≤ 7) :
    (convertLegacySettings fc kit legacyCutoffSetting legacyResonanceSetting
        legacyEnv instrumentType).length ≤ 1 ∧
      ((convertLegacySettings fc kit legacyCutoffSetting legacyResonanceSetting
          legacyEnv instrumentType).length = 0 ↔
        (envelopeDecays legacyEnv.type = false ∧
          legacyResonanceSetting.getD 0 ≤ 1 ∧
          legacyCutoffSetting.getD (if instrumentType = .chip then 6 else 10) = 10)) := by
  clear hc hr
  unfold convertLegacySettings
  set cdef := legacyCutoffSetting.getD (if instrumentType = .chip then 6 else 10) with hcdef
  by_cases hA : (!envelopeDecays legacyEnv.type &&
      !decide (1 < legacyResonanceSetting.getD 0) && decide (cdef = 11 - 1)) = true
  · rw [if_pos hA]
    simp only [Bool.and_eq_true, Bool.not_eq_true', decide_eq_true_eq,
      decide_eq_false_iff_not] at hA
    obtain ⟨⟨ha, hb⟩, hcx⟩ := hA
    refine ⟨by simp, ?_⟩
    constructor
    · intro _
      exact ⟨ha, by omega, by omega⟩
    · intro _
      rfl
  · rw [if_neg hA]
    have hmpr : ¬ (envelopeDecays legacyEnv.type = false ∧
        legacyResonanceSetting.getD 0 ≤ 1 ∧ cdef = 10) := by
      intro ⟨ha, hb, hcx⟩
      apply hA
      simp only [Bool.and_eq_true, Bool.not_eq_true', decide_eq_true_eq,
        decide_eq_false_iff_not]
      exact ⟨⟨ha, by omega⟩, by omega⟩
    split_ifs with hB
    · refine ⟨by simp, ?_⟩
      simp only [List.length_cons, List.length_nil]
      constructor
      · intro habs
        exact absurd habs one_ne_zero
      · intro hrhs
        exact absurd hrhs hmpr
    · refine ⟨by simp, ?_⟩
      simp only [List.length_cons, List.length_nil]
      constructor
      · intro habs
        exact absurd habs one_ne_zero
      · intro hrhs
        exact absurd hrhs hmpr

/-- Witness for C5: a steady envelope, default (undefined) cutoff and
resonance on a non-chip instrument (cutoff defaults to 10, so no point is
emitted), at an arbitrary concrete filter config and kit. -/

theorem convertLegacySettings_point_count_witness :
    (∀ c ∈ (none : Option ℕ), c ≤ 10) ∧ (∀ r ∈ (none : Option ℕ), r ≤ 7) ∧
      ((convertLegacySettings ⟨8000, 34, 0.25, 15, 0.5, 7⟩ ⟨fun _ _ => 0, fun _ _ _ => 0⟩
          none none ⟨.steady, 1⟩ .fm).length ≤ 1 ∧
        ((convertLegacySettings ⟨8000, 34, 0.25, 15, 0.5, 7⟩ ⟨fun _ _ => 0, fun _ _ _ => 0⟩
            none none ⟨.steady, 1⟩ .fm).length = 0 ↔
          (envelopeDecays EnvelopeType.steady = false ∧
            (none : Option ℕ).getD 0 ≤ 1 ∧
            (none : Option ℕ).getD (if InstrumentType.fm = .chip then 6 else 10) = 10))) :=
  ⟨by simp, by simp,
    convertLegacySettings_point_count ⟨8000, 34, 0.25, 15, 0.5, 7⟩
      ⟨fun _ _ => 0, fun _ _ _ => 0⟩ none none ⟨.steady, 1⟩ .fm
      (by simp) (by simp)⟩

/-- **C3. Unknown tags are fatal.** If the decode loop of
`Song.fromBase64String` reads a tag character that is not one of the known
tag codes, it throws `"Unrecognized song tag code"` naming that character
and its position, rather than skipping it or returning normally (synth.ts
lines 2451-2453). -/

theorem decodeLoop_unknown_tag (cfg : Config) (convert : ConvertFn)
    (flags : VersionFlags) (input : List ℕ) (fuel i : ℕ) (st : DecState) (cmd : ℕ)
    (hget : input.get? i = some cmd) (hunk : cmd ∉ knownTagCodes) :
    decodeLoop cfg convert flags input (fuel + 1) i st =
      .error (.unrecognizedTag cmd i) := by
  simp only [knownTagCodes, List.mem_cons, List.not_mem_nil, or_false, not_or] at hunk
  obtain ⟨h1, h2, h3, h4, h5, h6, h7, h8, h9, h10, h11, h12, h13, h14, h15, h16,
    h17, h18, h19, h20, h21, h22, h23, h24, h25, h26, h27, h28, h29, h30, h31,
    h32, h33, h34, h35, h36, h37, h38, h39, h40, h41, h42⟩ := hunk
  simp only [decodeLoop, hget, applyTag, if_neg h1, if_neg h2, if_neg h3, if_neg h4,
    if_neg h5, if_neg h6, if_neg h7, if_neg h8, if_neg h9, if_neg h10, if_neg h11,
    if_neg h12, if_neg h13, if_neg h14, if_neg h15, if_neg h16, if_neg h17,
    if_neg h18, if_neg h19, if_neg h20, if_neg h21, if_neg h22, if_neg h23,
    if_neg h24, if_neg h25, if_neg h26, if_neg h27, if_neg h28, if_neg h29,
    if_neg h30, if_neg h31, if_neg h32, if_neg h33, if_neg h34, if_neg h35,
    if_neg h36, if_neg h37, if_neg h38, if_neg h39, if_neg h40, if_neg h41,
    if_neg h42, Nat.add_sub_cancel]

/-- Witness for C3: the character `!` (code 33) at position 0 is fatal. -/

theorem decodeLoop_unknown_tag_witness :
    ([33] : List ℕ).get? 0 = some 33 ∧ (33 : ℕ) ∉ knownTagCodes ∧
    decodeLoop cfgStd convert0 (flagsOf 9) [33] 1 0 stZero =
      .error (.unrecognizedTag 33 0) :=
  ⟨rfl, by decide,
    decodeLoop_unknown_tag cfgStd convert0 (flagsOf 9) [33] 0 0 stZero 33 rfl (by decide)⟩

/-- **C4 (amended). Legacy global reverb clamp is max-exclusive.** For a
reverb tag in a version < 9 URL the read value goes through `clamp(0, 4, ·)`
(synth.ts line 1795), whose `max` is exclusive: the stored legacy global
reverb always lies in 0..3, a read value at most 3 is stored as read, and any
larger (or `NaN`) read value is stored as 3 — not 4 as the claim stated. -/

theorem legacyGlobalReverb_clamped (cfg : Config) (flags : VersionFlags)
    (input : List ℕ) (i : ℕ) (st : DecState) (h9 : flags.beforeNine = true) :
    ∃ st2 : DecState,
      tagReverb cfg flags input i st = .ok (st2, some (i + 1)) ∧
      st2.legacyGlobalReverb = clampJSN 0 4 (charVal input i) ∧
      0 ≤ st2.legacyGlobalReverb ∧ st2.legacyGlobalReverb ≤ 3 ∧
      ∀ v : ℕ, charVal input i = some v →
        st2.legacyGlobalReverb = if (v : ℤ) ≤ 3 then (v : ℤ) else 3 := by
  refine ⟨{ st with legacyGlobalReverb := clampJSN 0 4 (charVal input i) },
    by simp only [tagReverb, h9, if_true], rfl, ?_, ?_, ?_⟩
  · show (0 : ℤ) ≤ clampJSN 0 4 (charVal input i)
    cases hv : charVal input i with
    | none => simp [clampJSN, clampJS]
    | some v =>
      simp only [clampJSN, clampJS, Option.map_some, clamp]
      split
      · split
        · omega
        · omega
      · omega
  · show clampJSN 0 4 (charVal input i) ≤ 3
    cases hv : charVal input i with
    | none => simp [clampJSN, clampJS]
    | some v =>
      simp only [clampJSN, clampJS, Option.map_some, clamp]
      split
      · split
        · omega
        · omega
      · omega
  · intro v hv
    show clampJSN 0 4 (charVal input i) = _
    rw [hv]
    show clampJS 0 4 (some ((v : ℤ))) = _
    simp only [clampJS, clamp]
    by_cases h3 : (v : ℤ) ≤ 3
    · rw [if_pos (show (v : ℤ) ≤ 4 - 1 by omega), if_pos (show (v : ℤ) ≥ 0 by omega),
        if_pos h3]
    · rw [if_neg (show ¬ (v : ℤ) ≤ 4 - 1 by omega), if_neg h3]
      norm_num

/-- Counterexample for C4 as stated: a version 6 reverb tag carrying the
value 4 (`'4'`, code 52) stores 3, so 4 is not attainable. -/

theorem legacyGlobalReverb_clamped_counterexample :
    charVal [52] 0 = some 4 ∧
    ∃ st2 : DecState, tagReverb cfgStd (flagsOf 6) [52] 0 stZero = .ok (st2, some 1) ∧
      st2.legacyGlobalReverb = 3 :=
  ⟨rfl, ⟨_, rfl, rfl⟩⟩

/-- Witness for C4: the amended theorem at version 6 on the same input. -/

theorem legacyGlobalReverb_clamped_witness :
    (flagsOf 6).beforeNine = true ∧
    ∃ st2 : DecState,
      tagReverb cfgStd (flagsOf 6) [52] 0 stZero = .ok (st2, some 1) ∧
      st2.legacyGlobalReverb = clampJSN 0 4 (charVal [52] 0) ∧
      0 ≤ st2.legacyGlobalReverb ∧ st2.legacyGlobalReverb ≤ 3 ∧
      ∀ v : ℕ, charVal [52] 0 = some v →
        st2.legacyGlobalReverb = if (v : ℤ) ≤ 3 then (v : ℤ) else 3 :=
  ⟨rfl, legacyGlobalReverb_clamped cfgStd (flagsOf 6) [52] 0 stZero rfl⟩

/-- **C9 (amended). Trivial inputs of `fromBase64String`.** A null or empty
string resets the song to the default-initialized state and returns; a
non-empty non-JSON string whose version symbol decodes to a value outside
2..9 returns normally before `initToDefault` runs, leaving the song exactly
as it was — not default-initialized (synth.ts lines 1685-1701). In both
cases no tag records are processed. -/

theorem fromBase64String_trivial_inputs (cfg : Config) (convert : ConvertFn)
    (s : Song) (input : List ℕ) (i0 i1 ver : ℕ)
    (hne : input ≠ [])
    (hi0 : skipWS input (input.length + 1) 0 = i0)
    (hi1 : (if input.get? i0 = some 35 then i0 + 1 else i0) = i1)
    (hnj : input.get? i1 ≠ some 123)
    (hver : charVal input i1 = some ver)
    (hbad : ver < 2 ∨ 9 < ver) :
    fromBase64String cfg convert [] s = .ok (initToDefault cfg true s) ∧
    fromBase64String cfg convert input s = .ok s := by
  constructor
  · simp [fromBase64String]
  · rw [fromBase64String, if_neg hne]
    simp only [hi0, hi1, hver]
    rw [if_neg hnj, if_pos hbad]

/-- Counterexample for C9 as stated: decoding `"0"` (version symbol 0) into
a song with no channels returns that song unchanged, which differs from the
default-initialized song. -/

theorem fromBase64String_trivial_inputs_counterexample :
    fromBase64String cfgStd convert0 [48] songZero = .ok songZero ∧
    songZero ≠ initToDefault cfgStd true songZero := by
  constructor
  · rfl
  · decide

/-- Witness for C9: empty input and the version-0 input `"0"`. -/

theorem fromBase64String_trivial_inputs_witness :
    fromBase64String cfgStd convert0 [] songZero = .ok (initToDefault cfgStd true songZero) ∧
    fromBase64String cfgStd convert0 [48] songZero = .ok songZero :=
  fromBase64String_trivial_inputs cfgStd convert0 songZero [48] 0 0 0 (by decide)
    (by decide) (by decide) (by decide) (by decide) (by decide)

theorem chInv_congr (mc : ℕ) (ch ch' : Channel) (h : ch'.patterns = ch.patterns) :
    chInv mc ch' = chInv mc ch := by
  simp only [chInv, h]

theorem channelsInv_iff (mc : ℕ) (chs : List Channel) :
    channelsInv mc chs = true ↔ ∀ ch ∈ chs, chInv mc ch = true :=
  List.all_eq_true

theorem channelsInv_set (mc : ℕ) (chs : List Channel) (k : ℕ) (ch' : Channel)
    (h : channelsInv mc chs = true) (hch : chInv mc ch' = true) :
    channelsInv mc (chs.set k ch') = true := by
  rw [channelsInv_iff] at h ⊢
  intro x hx
  rcases List.mem_or_eq_of_mem_set hx with hx' | rfl
  · exact h x hx'
  · exact hch

theorem channelsInv_padTruncate (mc : ℕ) (chs : List Channel) (n : ℕ) (d : Channel)
    (h : channelsInv mc chs = true) (hd : chInv mc d = true) :
    channelsInv mc (padTruncate chs n d) = true := by
  rw [channelsInv_iff] at h ⊢
  intro x hx
  unfold padTruncate at hx
  have hx2 := List.mem_of_mem_take hx
  rcases List.mem_append.mp hx2 with hx3 | hx3
  · exact h x hx3
  · rw [List.eq_of_mem_replicate hx3]
    exact hd

theorem channelsInv_mapIdx (mc : ℕ) (f : ℕ → Channel → Channel)
    (hf : ∀ c ch, (f c ch).patterns = ch.patterns) (chs : List Channel)
    (h : channelsInv mc chs = true) : channelsInv mc (chs.mapIdx f) = true := by
  induction chs generalizing f with
  | nil => rfl
  | cons ch rest ih =>
    rw [List.mapIdx_cons]
    simp only [channelsInv, List.all_cons, Bool.and_eq_true] at h ⊢
    refine ⟨?_, ih (fun i => f (i + 1)) (fun c ch2 => hf (c + 1) ch2) h.2⟩
    rw [chInv_congr mc ch _ (hf 0 ch)]
    exact h.1

theorem izGet_mem {α : Type} (l : List α) (i : ℤ) (a : α) (h : izGet l i = some a) :
    a ∈ l := by
  unfold izGet at h
  split at h
  · exact List.get?_mem h
  · exact absurd h (by simp)

/-- `modifyInstrumentE` only rewrites an instrument list, so the channel
invariant survives it. -/

theorem channelsInv_modifyInstrumentE (mc : ℕ) (st : DecState)
    (f : Instrument → Except DecodeErr Instrument) (st2 : DecState)
    (h : st.modifyInstrumentE f = .ok st2)
    (hinv : channelsInv mc st.song.channels = true) :
    channelsInv mc st2.song.channels = true := by
  unfold DecState.modifyInstrumentE at h
  split at h
  next => exact absurd h (by simp)
  next ch hch =>
    split at h
    next => exact absurd h (by simp)
    next ins hins =>
      rcases hfi : f ins with e | ins2
      · rw [hfi] at h
        exact absurd h (by simp [Except.map])
      · rw [hfi] at h
        simp only [Except.map, Except.ok.injEq] at h
        subst h
        refine channelsInv_set mc _ _ _ hinv ?_
        exact (channelsInv_iff mc _).mp hinv ch (izGet_mem _ _ _ hch)

/-- `modifyInstrument` specializes `modifyInstrumentE`. -/

theorem channelsInv_modifyInstrument (mc : ℕ) (st : DecState)
    (f : Instrument → Instrument) (st2 : DecState)
    (h : st.modifyInstrument f = .ok st2)
    (hinv : channelsInv mc st.song.channels = true) :
    channelsInv mc st2.song.channels = true :=
  channelsInv_modifyInstrumentE mc st _ st2 h hinv

/-- `modifyChannelAt` with a patterns-preserving update. -/

theorem channelsInv_modifyChannelAt (mc : ℕ) (s : Song) (c : Option ℕ)
    (f : Channel → Except DecodeErr Channel) (sg : Song)
    (hf : ∀ ch ch2, f ch = .ok ch2 → ch2.patterns = ch.patterns)
    (h : s.modifyChannelAt c f = .ok sg)
    (hinv : channelsInv mc s.channels = true) :
    channelsInv mc sg.channels = true := by
  unfold Song.modifyChannelAt at h
  split at h
  next => exact absurd h (by simp)
  next cv =>
    split at h
    next => exact absurd h (by simp)
    next chan hch =>
      rcases hfc : f chan with e | chan2
      · rw [hfc] at h
        exact absurd h (by simp [Except.map])
      · rw [hfc] at h
        simp only [Except.map, Except.ok.injEq] at h
        subst h
        refine channelsInv_set mc _ _ _ hinv ?_
        rw [chInv_congr mc chan _ (hf chan chan2 hfc)]
        exact (channelsInv_iff mc _).mp hinv chan (List.get?_mem hch)

/-- `modifyChannelInstrument0` only rewrites an instrument. -/

theorem channelsInv_modifyChannelInstrument0 (mc : ℕ) (s : Song) (c : Option ℕ)
    (f : Instrument → Except DecodeErr Instrument) (sg : Song)
    (h : s.modifyChannelInstrument0 c f = .ok sg)
    (hinv : channelsInv mc s.channels = true) :
    channelsInv mc sg.channels = true := by
  refine channelsInv_modifyChannelAt mc s c _ sg ?_ h hinv
  intro ch ch2 hok
  split at hok
  next => exact absurd hok (by simp)
  next ins hg =>
    rcases hfi : f ins with e | ins2
    · rw [hfi] at hok
      exact absurd hok (by simp [Except.map])
    · rw [hfi] at hok
      simp only [Except.map, Except.ok.injEq] at hok
      subst hok
      rfl

/-- `updateChannelsIdx` with a patterns-preserving update. -/

theorem channelsInv_updateChannelsIdx (mc : ℕ) (s : Song) (f : ℕ → Channel → Channel)
    (sg : Song) (hf : ∀ c ch, (f c ch).patterns = ch.patterns)
    (h : s.updateChannelsIdx f = .ok sg)
    (hinv : channelsInv mc s.channels = true) :
    channelsInv mc sg.channels = true := by
  unfold Song.updateChannelsIdx at h
  split at h
  · simp only [Except.ok.injEq] at h
    subst h
    refine channelsInv_mapIdx mc _ ?_ _ hinv
    intro c ch
    by_cases hc : c < s.getChannelCount
    · simp only [hc, if_true]
      exact hf c ch
    · simp only [hc, if_false]
  · exact absurd h (by simp)

/-- `updateAllInstruments` only rewrites instrument lists. -/

theorem channelsInv_updateAllInstruments (mc : ℕ) (s : Song)
    (f : ℕ → ℕ → Instrument → Instrument) (sg : Song)
    (h : s.updateAllInstruments f = .ok sg)
    (hinv : channelsInv mc s.channels = true) :
    channelsInv mc sg.channels = true := by
  unfold Song.updateAllInstruments at h
  split at h
  · simp only [Except.ok.injEq] at h
    subst h
    refine channelsInv_mapIdx mc _ ?_ _ hinv
    intro c ch
    by_cases hc : c < s.getChannelCount
    · simp only [hc, if_true]
    · simp only [hc, if_false]
  · exact absurd h (by simp)

/-- `setLFS` does not touch the song. -/

theorem setLFS_song (st : DecState) (c k : ℤ) (f : LegacySettings → LegacySettings)
    (st2 : DecState) (h : st.setLFS c k f = .ok st2) : st2.song = st.song := by
  unfold DecState.setLFS at h
  split at h
  next => exact absurd h (by simp)
  next lfs hl =>
    split at h
    next => exact absurd h (by simp)
    next row hr =>
      split at h
      next => exact absurd h (by simp)
      next ls he =>
        simp only [Except.ok.injEq] at h
        subst h
        rfl

theorem readUnaryPart_fst_ge (bs : List Bool) : ∀ r n : ℕ, r ≤ (readUnaryPart bs r n).1 := by
  induction bs with
  | nil => intro r n; simp [readUnaryPart]
  | cons b bs ih =>
    intro r n
    cases b
    · simp [readUnaryPart]
    · calc r ≤ r + 2 ^ n := Nat.le_add_right _ _
        _ ≤ (readUnaryPart bs (r + 2 ^ n) (n + 1)).1 := ih _ _
        _ = (readUnaryPart (true :: bs) r n).1 := rfl

theorem readBitsAcc_fst_ge : ∀ (n : ℕ) (bs : List Bool) (acc : ℕ),
    acc ≤ (readBitsAcc bs n acc).1 := by
  intro n
  induction n with
  | zero => intro bs acc; cases bs <;> simp [readBitsAcc]
  | succ n ih =>
    intro bs acc
    cases bs with
    | nil => exact ih [] acc
    | cons b bs =>
      calc acc ≤ acc + (if b then 2 ^ n else 0) := Nat.le_add_right _ _
        _ ≤ (readBitsAcc bs n (acc + if b then 2 ^ n else 0)).1 := ih _ _
        _ = (readBitsAcc (b :: bs) (n + 1) acc).1 := rfl

/-- A long-tail read never goes below `minValue`, even past the end of the
bit stream. -/

theorem readLongTail_fst_ge (minValue minBits : ℕ) (bs : List Bool) :
    minValue ≤ (readLongTail minValue minBits bs).1 :=
  le_trans (readUnaryPart_fst_ge bs minValue minBits) (readBitsAcc_fst_ge _ _ _)

/-- Under a positive `partsPerBeat` and positive rhythms, every part
duration read is a defined positive rational. -/

theorem readDuration_pos (cfg : Config) (flags : VersionFlags) (rhythm : Option ℕ)
    (bits : List Bool) (d : Option ℚ) (bits' : List Bool)
    (hppb : 0 < cfg.partsPerBeat) (hrh : ∀ r ∈ cfg.rhythms, 0 < r)
    (h : readDuration cfg flags rhythm bits = .ok (d, bits')) :
    ∃ q : ℚ, d = some q ∧ 0 < q := by
  unfold readDuration at h
  split at h
  · split at h
    next dd bits2 hlt =>
      have hdd : 1 ≤ dd := by
        have h0 := readLongTail_fst_ge 1 2 bits
        rw [hlt] at h0
        exact h0
      unfold scaledLegacyDuration at h
      split at h
      · exact absurd h (by simp [Except.map])
      next spb hspb =>
        have hmem : spb ∈ cfg.rhythms := by
          rcases Option.bind_eq_some.mp hspb with ⟨a, _, hget⟩
          exact List.get?_mem hget
        have hpos : 0 < spb := hrh spb hmem
        have hne : ¬ spb = 0 := ne_of_gt hpos
        simp only [Except.map, hne, if_false, Except.ok.injEq, Prod.mk.injEq] at h
        refine ⟨(dd : ℚ) * (cfg.partsPerBeat : ℚ) / spb, h.1.symm, ?_⟩
        apply div_pos _ hpos
        apply mul_pos
        · exact_mod_cast Nat.lt_of_lt_of_le Nat.zero_lt_one hdd
        · exact_mod_cast hppb
  · split at h
    next dd bits2 hlt =>
      have hdd : 1 ≤ dd := by
        have h0 := readLongTail_fst_ge 1 3 bits
        rw [hlt] at h0
        exact h0
      simp only [Except.ok.injEq, Prod.mk.injEq] at h
      exact ⟨(dd : ℚ), h.1.symm, by exact_mod_cast Nat.lt_of_lt_of_le Nat.zero_lt_one hdd⟩

/-- The pitch-count loop never exceeds the chord-size bound it tests. -/

theorem pitchCountLoop_le (maxChord : ℕ) : ∀ (fuel cur : ℕ) (bits : List Bool),
    cur ≤ maxChord → (pitchCountLoop maxChord fuel cur bits).1 ≤ maxChord := by
  intro fuel
  induction fuel with
  | zero => intro cur bits hc; exact hc
  | succ f ih =>
    intro cur bits hc
    unfold pitchCountLoop
    split
    next hlt =>
      rcases hb : readBit1 bits with ⟨b, bits2⟩
      cases b
      · exact hc
      · exact ih (cur + 1) bits2 hlt
    next => exact hc

/-- `buildPins` copies the shape pins' times verbatim. -/

theorem buildPins_times (base : ℤ) : ∀ (pins : List ShapePin) (bl : List ℤ),
    (buildPins base pins bl).map NotePin.time = pins.map ShapePin.time := by
  intro pins
  induction pins with
  | nil => intro bl; rfl
  | cons sp rest ih =>
    intro bl
    simp only [buildPins, List.map_cons]
    rw [ih]

/-- A pin list whose times are exactly a strictly increasing rational list
passes the executable time check. -/

theorem pinsTimesIncreasing_of : ∀ (ps : List NotePin) (ts : List ℚ),
    ps.map NotePin.time = ts.map some → List.Chain' (· < ·) ts →
    pinsTimesIncreasing ps = true := by
  intro ps
  induction ps with
  | nil => intro ts _ _; rfl
  | cons p rest ih =>
    intro ts hmap hch
    cases ts with
    | nil => exact absurd hmap (by simp)
    | cons a ts' =>
      simp only [List.map_cons, List.cons.injEq] at hmap
      cases rest with
      | nil =>
        simp only [pinsTimesIncreasing, hmap.1, Option.isSome_some]
      | cons q rest' =>
        cases ts' with
        | nil => exact absurd hmap.2 (by simp)
        | cons b ts2 =>
          simp only [List.map_cons, List.cons.injEq] at hmap
          have hq : q.time = some b := hmap.2.1
          have hab : a < b := (List.chain'_cons.mp hch).1
          have hrest : pinsTimesIncreasing (q :: rest') = true := by
            refine ih (b :: ts2) ?_ (List.chain'_cons.mp hch).2
            simp only [List.map_cons, List.cons.injEq]
            exact ⟨hq, hmap.2.2⟩
          simp only [pinsTimesIncreasing, hmap.1, hq, hrest, Bool.and_true]
          exact decide_eq_true hab

theorem mem_of_getLastQ {α : Type} (l : List α) (a : α) (h : l.getLast? = some a) :
    a ∈ l := by
  induction l with
  | nil => exact absurd h (by simp)
  | cons x xs ih =>
    cases xs with
    | nil =>
      simp only [List.getLast?_singleton, Option.some.injEq] at h
      subst h
      exact List.mem_singleton_self x
    | cons y ys =>
      rw [List.getLast?_cons_cons] at h
      exact List.mem_cons_of_mem x (ih h)

theorem getLast_exists_of_ne_nil {α : Type} (l : List α) (h : l ≠ []) :
    ∃ a, l.getLast? = some a := by
  induction l with
  | nil => exact absurd rfl h
  | cons x xs ih =>
    cases xs with
    | nil => exact ⟨x, List.getLast?_singleton x⟩
    | cons y ys =>
      rcases ih (by simp) with ⟨a, ha⟩
      exact ⟨a, by rw [List.getLast?_cons_cons]; exact ha⟩

/-- The pin-reading loop from a defined running length `l0`: the pin times
are a strictly increasing rational list, all above `l0`, one per pin, and
the returned running length is the last of them (or `l0` for no pins). -/

theorem readPinsLoop_spec (cfg : Config) (flags : VersionFlags) (rhythm : Option ℕ)
    (hppb : 0 < cfg.partsPerBeat) (hrh : ∀ r ∈ cfg.rhythms, 0 < r) :
    ∀ (n : ℕ) (l0 : ℚ) (bends : ℕ) (bits : List Bool)
      (out : List ShapePin × Option ℚ × ℕ × List Bool),
    readPinsLoop cfg flags rhythm n (some l0) bends bits = .ok out →
    ∃ ts : List ℚ, out.1.map ShapePin.time = ts.map some ∧
      ts.length = n ∧ List.Chain' (· < ·) ts ∧ (∀ t ∈ ts, l0 < t) ∧
      out.2.1 = some (ts.getLastD l0) := by
  intro n
  induction n with
  | zero =>
    intro l0 bends bits out h
    simp only [readPinsLoop, Except.ok.injEq] at h
    subst h
    exact ⟨[], rfl, rfl, List.chain'_nil, by simp, rfl⟩
  | succ n ih =>
    intro l0 bends bits out h
    simp only [readPinsLoop] at h
    rcases hd : readDuration cfg flags rhythm (readBit1 bits).2 with e | rp
    · rw [hd] at h
      simp [bind, Except.bind] at h
    · rw [hd] at h
      simp only [bind, Except.bind] at h
      obtain ⟨q, hq, hqpos⟩ := readDuration_pos cfg flags rhythm (readBit1 bits).2
        rp.1 rp.2 hppb hrh (by rw [hd])
      rw [hq] at h
      simp only [optAddQ] at h
      rcases hrec : readPinsLoop cfg flags rhythm n (some (l0 + q))
          (bends + if (readBit1 bits).1 = true then 1 else 0)
          (readBitsC rp.2 2 (some 0)).2 with e | rest
      · rw [hrec] at h
        simp [bind, Except.bind] at h
      · rw [hrec] at h
        simp only [bind, Except.bind, Except.ok.injEq] at h
        subst h
        rcases ih (l0 + q) (bends + if (readBit1 bits).1 = true then 1 else 0)
            ((readBitsC rp.2 2 (some 0)).2) rest hrec with
          ⟨ts2, hmap, hlen, hch, hgt, hlenF⟩
        refine ⟨(l0 + q) :: ts2, ?_, by simp [hlen], ?_, ?_, ?_⟩
        · simp only [List.map_cons, hmap]
        · rw [List.chain'_cons']
          refine ⟨?_, hch⟩
          intro b hb2
          exact hgt b (List.mem_of_mem_head? hb2)
        · intro t ht
          rcases List.mem_cons.mp ht with rfl | ht2
          · linarith
          · linarith [hgt t ht2]
        · rw [List.getLastD_cons]
          exact hlenF

/-- The pitch loop accumulates at most `pitchCount` pitches. -/

theorem readPitchesLoop_len (pc : ℕ) : ∀ (rem j : ℕ) (lp : ℤ) (rec : List ℤ)
    (bits : List Bool) (accP accB : List ℤ)
    (out : List ℤ × List ℤ × ℤ × List ℤ × List Bool),
    readPitchesLoop pc rem j lp rec bits accP accB = .ok out →
    accP.length ≤ j → accP.length ≤ pc → out.1.length ≤ pc := by
  intro rem
  induction rem with
  | zero =>
    intro j lp rec bits accP accB out h hj hpc
    simp only [readPitchesLoop, Except.ok.injEq] at h
    subst h
    exact hpc
  | succ rem ih =>
    intro j lp rec bits accP accB out h hj hpc
    simp only [readPitchesLoop] at h
    have step : ∀ (pitch : ℤ) (rec2 : List ℤ) (bits2 : List Bool),
        readPitchesLoop pc rem (j + 1)
          (if j = pc - 1 then (((if j < pc then accP ++ [pitch] else accP).get? 0).getD 0)
            else pitch)
          ((pitch :: rec2).take 8) bits2
          (if j < pc then accP ++ [pitch] else accP)
          (if j < pc then accB else accB ++ [pitch]) = .ok out →
        out.1.length ≤ pc := by
      intro pitch rec2 bits2 hcall
      by_cases hjpc : j < pc
      · simp only [hjpc, if_true] at hcall
        exact ih (j + 1) _ _ bits2 (accP ++ [pitch]) accB out hcall
          (by simp; omega) (by simp; omega)
      · simp only [hjpc, if_false] at hcall
        exact ih (j + 1) _ _ bits2 accP (accB ++ [pitch]) out hcall (by omega) hpc
    split at h
    · rcases hv : validateRangeI 0 ((rec.length : ℤ) - 1)
          (((readBitsC (readBit1 bits).2 3 (some 0)).1).map (fun n => (n : ℤ)))
          with e | idx
      · rw [hv] at h
        simp [bind, Except.bind] at h
      · rw [hv] at h
        simp only [bind, Except.bind] at h
        split at h
        · exact absurd h (by simp)
        next p hp =>
          exact step _ _ _ h
    · simp only [bind, Except.bind] at h
      exact step _ _ _ h

/-- A freshly read shape satisfies the shape invariant. -/

theorem readNewShape_inv (cfg : Config) (flags : VersionFlags) (rhythm : Option ℕ)
    (bits : List Bool) (out : DecShape × List Bool)
    (hppb : 0 < cfg.partsPerBeat) (hrh : ∀ r ∈ cfg.rhythms, 0 < r)
    (hmc : 1 ≤ cfg.maxChordSize)
    (h : readNewShape cfg flags rhythm bits = .ok out) :
    shapeInv cfg.maxChordSize out.1 := by
  unfold readNewShape at h
  split at h
  next pc bits1 hpc =>
    split at h
    next pinCount bits2 hpin =>
      split at h
      next ie bits3 hie =>
        rcases hr : readPinsLoop cfg flags rhythm pinCount (some 0) 0 bits3 with e | r
        · rw [hr] at h
          simp [Except.map] at h
        · rw [hr] at h
          simp only [Except.map, Except.ok.injEq] at h
          subst h
          rcases readPinsLoop_spec cfg flags rhythm hppb hrh pinCount 0 0 bits3 r hr with
            ⟨ts, hmap, hlen, hch, hgt, hlenF⟩
          have hpin1 : 1 ≤ pinCount := by
            have h0 := readLongTail_fst_ge 1 0 bits1
            rw [hpin] at h0
            exact h0
          have htne : ts ≠ [] := by
            intro hnil
            rw [hnil] at hlen
            simp at hlen
            omega
          rcases getLast_exists_of_ne_nil ts htne with ⟨l, hl⟩
          have hlmem : l ∈ ts := mem_of_getLastQ ts l hl
          refine ⟨?_, l, ?_, hgt l hlmem, ts, hmap, hch, hgt, hl⟩
          · have h0 := pitchCountLoop_le cfg.maxChordSize cfg.maxChordSize 1 bits hmc
            rw [hpc] at h0
            exact h0
          · show r.2.1 = some l
            rw [hlenF, List.getLastD_eq_getLast?, hl]
            rfl

/-- One note step from a shape satisfying the invariant yields a note
passing `noteInv` and keeps every recent shape invariant. -/

theorem noteStep_inv (mc : ℕ) (B : Option ℚ) (c : ℚ) (lp : ℤ) (rec : List ℤ)
    (removed : List DecShape) (bits : List Bool) (shape : DecShape)
    (out : ℚ × ℤ × List ℤ × List DecShape × List Bool × Note)
    (hsh : shapeInv mc shape)
    (hrem : ∀ sh ∈ removed, shapeInv mc sh)
    (h : noteStep B (some c) lp rec removed bits shape = .ok out) :
    noteInv mc out.2.2.2.2.2 = true ∧ ∀ sh ∈ out.2.2.2.1, shapeInv mc sh := by
  obtain ⟨hpcle, l, hlen, hlpos, ts, hmap, hch, hts, hlast⟩ := hsh
  unfold noteStep at h
  rcases hp : readPitchesLoop shape.pitchCount (shape.pitchCount + shape.bendCount) 0
      lp rec bits [] [] with e | r
  · rw [hp] at h
    simp [bind, Except.bind] at h
  · rw [hp] at h
    simp only [bind, Except.bind] at h
    split at h
    next err heq => exact absurd h (by simp)
    next cp heq =>
      simp only [Except.ok.injEq] at h
      subst h
      have hpl : r.1.length ≤ mc := by
        have hlenp := readPitchesLoop_len shape.pitchCount
          (shape.pitchCount + shape.bendCount) 0 lp rec bits [] [] r hp
          (by simp) (by simp)
        exact le_trans hlenp hpcle
      constructor
      · -- the note invariant
        have htsne : ts ≠ [] := by
          intro hnil
          rw [hnil] at hlast
          simp at hlast
        have hbt : (buildPins ((r.1.get? 0).getD 0) shape.pins
            (((r.1.get? 0).getD 0) :: r.2.1)).map NotePin.time = ts.map some := by
          rw [buildPins_times, hmap]
        have hbpsne : buildPins ((r.1.get? 0).getD 0) shape.pins
            (((r.1.get? 0).getD 0) :: r.2.1) ≠ [] := by
          intro hnil
          rw [hnil] at hbt
          rcases ts with _ | ⟨a2, ts2⟩
          · exact htsne rfl
          · simp at hbt
        have hblast : (buildPins ((r.1.get? 0).getD 0) shape.pins
            (((r.1.get? 0).getD 0) :: r.2.1)).getLast?.map NotePin.time = some (some l) := by
          rw [← List.getLast?_map, hbt, List.getLast?_map, hlast]
          rfl
        rcases Option.map_eq_some'.mp hblast with ⟨pl, hpl2, hplt⟩
        have hconsLast : ((⟨0, some 0, shape.initialExpression⟩ : NotePin) ::
            buildPins ((r.1.get? 0).getD 0) shape.pins
              (((r.1.get? 0).getD 0) :: r.2.1)).getLast? = some pl := by
          rcases hbb : buildPins ((r.1.get? 0).getD 0) shape.pins
              (((r.1.get? 0).getD 0) :: r.2.1) with _ | ⟨b0, brest⟩
          · exact absurd hbb hbpsne
          · rw [List.getLast?_cons_cons, ← hbb, hpl2]
        have hinc : pinsTimesIncreasing
            ((⟨0, some 0, shape.initialExpression⟩ : NotePin) ::
              buildPins ((r.1.get? 0).getD 0) shape.pins
                (((r.1.get? 0).getD 0) :: r.2.1)) = true := by
          refine pinsTimesIncreasing_of _ ((0 : ℚ) :: ts) ?_ ?_
          · simp only [List.map_cons, hbt]
          · rw [List.chain'_cons']
            exact ⟨fun b2 hb2 => hts b2 (List.mem_of_mem_head? hb2), hch⟩
        rw [hlen]
        have hEq : c + l - c = l := by ring
        simp only [List.get?_eq_getElem?] at hconsLast hinc
        simp [noteInv, optAddQ, hconsLast, hinc, hplt, hEq, hpl, hlpos]
      · intro sh hmem
        rcases List.mem_cons.mp (List.mem_of_mem_take hmem) with rfl | hmem2
        · exact ⟨hpcle, l, hlen, hlpos, ts, hmap, hch, hts, hlast⟩
        · exact hrem sh hmem2

theorem notesLoop_inv (cfg : Config) (flags : VersionFlags) (rhythm : Option ℕ)
    (B : Option ℚ)
    (hppb : 0 < cfg.partsPerBeat) (hrh : ∀ r ∈ cfg.rhythms, 0 < r)
    (hmc : 1 ≤ cfg.maxChordSize) :
    ∀ (fuel : ℕ) (curPart : Option ℚ) (lp : ℤ) (rec : List ℤ) (rs : List DecShape)
      (bits : List Bool) (notes : List Note)
      (out : List Note × ℤ × List ℤ × List DecShape × List Bool),
    (∀ sh ∈ rs, shapeInv cfg.maxChordSize sh) →
    (∀ n ∈ notes, noteInv cfg.maxChordSize n = true) →
    notesLoop cfg flags rhythm B fuel curPart lp rec rs bits notes = .ok out →
    (∀ n ∈ out.1, noteInv cfg.maxChordSize n = true) ∧
    (∀ sh ∈ out.2.2.2.1, shapeInv cfg.maxChordSize sh) := by
  intro fuel
  induction fuel with
  | zero =>
    intro curPart lp rec rs bits notes out hrs hnotes h
    have hexit : (Except.ok (notes, lp, rec, rs, bits) :
        Except DecodeErr (List Note × ℤ × List ℤ × List DecShape × List Bool)) = .ok out →
        (∀ n ∈ out.1, noteInv cfg.maxChordSize n = true) ∧
        (∀ sh ∈ out.2.2.2.1, shapeInv cfg.maxChordSize sh) := by
      intro hh
      simp only [Except.ok.injEq] at hh
      subst hh
      exact ⟨hnotes, hrs⟩
    cases curPart with
    | none => exact hexit h
    | some c =>
      cases B with
      | none => exact hexit h
      | some b =>
        by_cases hcb : c < b
        · rw [notesLoop] at h
          rw [if_pos hcb] at h
          exact absurd h (by simp)
        · rw [notesLoop] at h
          rw [if_neg hcb] at h
          exact hexit h
  | succ fuel ih =>
    intro curPart lp rec rs bits notes out hrs hnotes h
    have hexit : (Except.ok (notes, lp, rec, rs, bits) :
        Except DecodeErr (List Note × ℤ × List ℤ × List DecShape × List Bool)) = .ok out →
        (∀ n ∈ out.1, noteInv cfg.maxChordSize n = true) ∧
        (∀ sh ∈ out.2.2.2.1, shapeInv cfg.maxChordSize sh) := by
      intro hh
      simp only [Except.ok.injEq] at hh
      subst hh
      exact ⟨hnotes, hrs⟩
    cases curPart with
    | none => exact hexit h
    | some c =>
      cases B with
      | none => exact hexit h
      | some b =>
        rcases Decidable.em (c < b) with hcb | hcb
        case inr =>
          rw [notesLoop] at h
          rw [if_neg hcb] at h
          exact hexit h
        case inl =>
        rw [notesLoop] at h
        rw [if_pos hcb] at h
        split at h
        next useOld bits1 hb1 =>
          split at h
          · -- an old shape is reused
            split at h
            next si bits2 hsi =>
              rcases hv : validateRangeI 0 ((rs.length : ℤ) - 1) (some ((si : ℤ)))
                  with e | idx
              · rw [hv] at h
                simp [bind, Except.bind] at h
              · rw [hv] at h
                simp only [bind, Except.bind] at h
                split at h
                · exact absurd h (by simp)
                next shape hshape =>
                  split at h
                  · exact absurd h (by simp)
                  next cp lp2 rec2 rs2 bits3 note hns =>
                    have hstep := noteStep_inv cfg.maxChordSize (some b) c lp rec
                      (rs.eraseIdx idx.toNat) bits2 shape
                      (cp, lp2, rec2, rs2, bits3, note)
                      (hrs shape (List.get?_mem hshape))
                      (fun sh hm => hrs sh (List.eraseIdx_subset _ _ hm)) hns
                    refine ih (some cp) lp2 rec2 rs2 bits3
                      (notes ++ [note]) out hstep.2 ?_ h
                    intro n hn
                    rcases List.mem_append.mp hn with hn2 | hn2
                    · exact hnotes n hn2
                    · rw [List.mem_singleton.mp hn2]
                      exact hstep.1
          · -- a fresh shape or a rest
            split at h
            next newNote bits2 hb2 =>
              split at h
              · -- fresh shape
                split at h
                · exact absurd h (by simp)
                next shape bits3 hsp =>
                  split at h
                  · exact absurd h (by simp)
                  next cp lp2 rec2 rs2 bits4 note hns =>
                    have hshi := readNewShape_inv cfg flags rhythm _ (shape, bits3)
                      hppb hrh hmc hsp
                    have hstep := noteStep_inv cfg.maxChordSize (some b) c lp rec rs
                      bits3 shape (cp, lp2, rec2, rs2, bits4, note) hshi hrs hns
                    refine ih (some cp) lp2 rec2 rs2 bits4
                      (notes ++ [note]) out hstep.2 ?_ h
                    intro n hn
                    rcases List.mem_append.mp hn with hn2 | hn2
                    · exact hnotes n hn2
                    · rw [List.mem_singleton.mp hn2]
                      exact hstep.1
              · -- rest
                split at h
                · exact absurd h (by simp)
                next rl bits3 hrl =>
                  exact ih _ lp rec rs bits3 notes out hrs hnotes h

/-- Every pattern the per-channel loop writes holds only invariant notes. -/

theorem patternsOfChannel_inv (cfg : Config) (flags : VersionFlags) (rhythm : Option ℕ)
    (B : Option ℚ) (nib fuelN : ℕ)
    (hppb : 0 < cfg.partsPerBeat) (hrh : ∀ r ∈ cfg.rhythms, 0 < r)
    (hmc : 1 ≤ cfg.maxChordSize) :
    ∀ (n : ℕ) (pats : List Pattern) (lp : ℤ) (rec : List ℤ) (rs : List DecShape)
      (bits : List Bool) (out : List Pattern × ℤ × List ℤ × List DecShape × List Bool),
    (∀ sh ∈ rs, shapeInv cfg.maxChordSize sh) →
    (∀ p ∈ pats, (p.notes.all (noteInv cfg.maxChordSize)) = true) →
    patternsOfChannel cfg flags rhythm B nib fuelN n pats lp rec rs bits = .ok out →
    ∀ p ∈ out.1, (p.notes.all (noteInv cfg.maxChordSize)) = true := by
  intro n
  induction n with
  | zero =>
    intro pats lp rec rs bits out hrs hpats h
    simp only [patternsOfChannel, Except.ok.injEq] at h
    subst h
    exact hpats
  | succ n ih =>
    intro pats lp rec rs bits out hrs hpats h
    cases pats with
    | nil =>
      simp only [patternsOfChannel] at h
      exact absurd h (by simp)
    | cons p0 ps =>
      simp only [patternsOfChannel] at h
      split at h
      · exact absurd h (by simp)
      next notes lp2 rec2 rs2 bits3 heqN =>
        split at h
        · exact absurd h (by simp)
        next pats2 lpF recF rsF bitsF hrec2 =>
          simp only [Except.ok.injEq] at h
          subst h
          have hkey : (∀ x ∈ notes, noteInv cfg.maxChordSize x = true) ∧
              (∀ sh ∈ rs2, shapeInv cfg.maxChordSize sh) := by
            split at heqN
            · exact notesLoop_inv cfg flags rhythm B hppb hrh hmc fuelN (some 0)
                lp rec rs _ [] (notes, lp2, rec2, rs2, bits3) hrs (by simp) heqN
            · split at heqN
              · exact notesLoop_inv cfg flags rhythm B hppb hrh hmc fuelN (some 0)
                  lp rec rs _ [] (notes, lp2, rec2, rs2, bits3) hrs (by simp) heqN
              · simp only [Except.ok.injEq, Prod.mk.injEq] at heqN
                obtain ⟨h1, h2, h3, h4, h5⟩ := heqN
                subst h1
                subst h4
                exact ⟨by simp, hrs⟩
          intro p hp
          rcases List.mem_cons.mp hp with rfl | hp2
          · rw [List.all_eq_true]
            intro x hx
            exact hkey.1 x hx
          · exact ih ps lp2 rec2 rs2 bits3 (pats2, lpF, recF, rsF, bitsF) hkey.2
              (fun p2 h2 => hpats p2 (List.mem_cons_of_mem _ h2)) hrec2 p hp2

/-- `channelStep` preserves the channel-list invariant. -/

theorem channelStep_inv (cfg : Config) (flags : VersionFlags) (rhythm : Option ℕ)
    (B : Option ℚ) (ppc nib fuelN : ℕ) (c : Option ℕ) (chs : List Channel)
    (bits : List Bool) (lp : ℤ) (rec : List ℤ) (r : List Channel × List Bool)
    (hppb : 0 < cfg.partsPerBeat) (hrh : ∀ q ∈ cfg.rhythms, 0 < q)
    (hmc : 1 ≤ cfg.maxChordSize)
    (hinv : channelsInv cfg.maxChordSize chs = true)
    (h : channelStep cfg flags rhythm B ppc nib fuelN c chs bits lp rec = .ok r) :
    channelsInv cfg.maxChordSize r.1 = true := by
  unfold channelStep at h
  split at h
  next chan cv h1 h2 =>
    split at h
    · exact absurd h (by simp)
    next pats lp2 rec2 rs2 bits2 heq3 =>
      simp only [Except.ok.injEq] at h
      subst h
      refine channelsInv_set _ _ _ _ hinv ?_
      rw [chInv, List.all_eq_true]
      refine patternsOfChannel_inv cfg flags rhythm B nib fuelN hppb hrh hmc
        ppc cv.patterns _ _ [] bits (pats, lp2, rec2, rs2, bits2) (by simp)
        ?_ heq3
      intro p hp
      have hchan : cv ∈ chs := by
        simp only [Option.some_bind] at h2
        exact List.get?_mem h2
      have hchi := (channelsInv_iff _ _).mp hinv cv hchan
      rw [chInv, List.all_eq_true] at hchi
      exact hchi p hp
  next =>
    split at h
    · simp only [Except.ok.injEq] at h
      subst h
      exact hinv
    · exact absurd h (by simp)

/-- The channel loop of the patterns tag preserves the song-wide note
invariant. -/

theorem patternsChannelsLoop_inv (cfg : Config) (flags : VersionFlags)
    (rhythm : Option ℕ) (B : Option ℚ) (ppc nib fuelN count pcount : ℕ)
    (hppb : 0 < cfg.partsPerBeat) (hrh : ∀ r ∈ cfg.rhythms, 0 < r)
    (hmc : 1 ≤ cfg.maxChordSize) :
    ∀ (fuel : ℕ) (c : Option ℕ) (chs : List Channel) (bits : List Bool)
      (out : List Channel × List Bool),
    channelsInv cfg.maxChordSize chs = true →
    patternsChannelsLoop cfg flags rhythm B ppc nib fuelN count pcount fuel c chs bits
      = .ok out →
    channelsInv cfg.maxChordSize out.1 = true := by
  intro fuel
  induction fuel with
  | zero =>
    intro c chs bits out hinv h
    simp only [patternsChannelsLoop] at h
    exact absurd h (by simp)
  | succ fuel ih =>
    intro c chs bits out hinv h
    simp only [patternsChannelsLoop] at h
    split at h
    · exact absurd h (by simp)
    next lr heq =>
      split at h
      · exact absurd h (by simp)
      next r heq2 =>
        have hr := channelStep_inv cfg flags rhythm B ppc nib fuelN c chs bits
          lr.1 lr.2 r hppb hrh hmc hinv heq2
        split at h
        · simp only [Except.ok.injEq] at h
          subst h
          exact hr
        · split at h
          · simp only [Except.ok.injEq] at h
            subst h
            exact hr
          · exact ih _ _ _ out hr h

/-- The patterns tag preserves the song-wide note invariant. -/

theorem tagPatterns_inv (cfg : Config) (flags : VersionFlags) (input : List ℕ) (i : ℕ)
    (st : DecState) (st2 : DecState) (ni : Option ℕ)
    (hppb : 0 < cfg.partsPerBeat) (hrh : ∀ r ∈ cfg.rhythms, 0 < r)
    (hmc : 1 ≤ cfg.maxChordSize)
    (h : tagPatterns cfg flags input i st = .ok (st2, ni))
    (hinv : channelsInv cfg.maxChordSize st.song.channels = true) :
    channelsInv cfg.maxChordSize st2.song.channels = true := by
  unfold tagPatterns at h
  simp only [bind] at h
  unfold Except.bind at h
  split at h
  next e heq => exact absurd h (by simp)
  next trip heq =>
    simp only [] at h
    split at h
    next e heq2 => exact absurd h (by simp)
    next v heq2 =>
      simp only [Except.ok.injEq, Prod.mk.injEq] at h
      have hst2 : st2.song.channels = v.1 := by
        rw [← h.1]
        rfl
      rw [hst2]
      exact patternsChannelsLoop_inv cfg flags st.song.rhythm _
        st.song.patternsPerChannel _ _ _ st.song.pitchChannelCount hppb hrh hmc
        _ trip.1 st.song.channels _ v hinv heq2

/-! ## C8: invariant preservation across the remaining tag handlers -/

/-- Inversion of a successful `Except` bind. -/

theorem bind_ok_inv {α β : Type} (x : Except DecodeErr α) (g : α → Except DecodeErr β)
    (b : β) (h : bind x g = .ok b) : ∃ a, x = .ok a ∧ g a = .ok b := by
  cases x with
  | error e =>
    have he : bind (Except.error e : Except DecodeErr α) g = Except.error e := rfl
    rw [he] at h
    exact absurd h (by simp)
  | ok a =>
    have ho : bind (Except.ok a : Except DecodeErr α) g = g a := rfl
    rw [ho] at h
    exact ⟨a, rfl, h⟩

theorem tagScale_inv (mc : ℕ) (flags : VersionFlags) (input : List ℕ) (i : ℕ)
    (st st2 : DecState) (ni : Option ℕ)
    (h : tagScale flags input i st = .ok (st2, ni))
    (hinv : channelsInv mc st.song.channels = true) :
    channelsInv mc st2.song.channels = true := by
  simp only [tagScale, Except.ok.injEq, Prod.mk.injEq] at h
  rw [← h.1]
  exact hinv

theorem tagKey_inv (mc : ℕ) (cfg : Config) (flags : VersionFlags) (input : List ℕ)
    (i : ℕ) (st st2 : DecState) (ni : Option ℕ)
    (h : tagKey cfg flags input i st = .ok (st2, ni))
    (hinv : channelsInv mc st.song.channels = true) :
    channelsInv mc st2.song.channels = true := by
  simp only [tagKey, Except.ok.injEq, Prod.mk.injEq] at h
  rw [← h.1]
  exact hinv

theorem tagRhythm_inv (mc : ℕ) (input : List ℕ) (i : ℕ) (st st2 : DecState)
    (ni : Option ℕ) (h : tagRhythm input i st = .ok (st2, ni))
    (hinv : channelsInv mc st.song.channels = true) :
    channelsInv mc st2.song.channels = true := by
  simp only [tagRhythm, Except.ok.injEq, Prod.mk.injEq] at h
  rw [← h.1]
  exact hinv

theorem tagLoopStart_inv (mc : ℕ) (flags : VersionFlags) (input : List ℕ) (i : ℕ)
    (st st2 : DecState) (ni : Option ℕ)
    (h : tagLoopStart flags input i st = .ok (st2, ni))
    (hinv : channelsInv mc st.song.channels = true) :
    channelsInv mc st2.song.channels = true := by
  unfold tagLoopStart at h
  split at h
  all_goals
    simp only [Except.ok.injEq, Prod.mk.injEq] at h
    rw [← h.1]
    exact hinv

theorem tagLoopEnd_inv (mc : ℕ) (flags : VersionFlags) (input : List ℕ) (i : ℕ)
    (st st2 : DecState) (ni : Option ℕ)
    (h : tagLoopEnd flags input i st = .ok (st2, ni))
    (hinv : channelsInv mc st.song.channels = true) :
    channelsInv mc st2.song.channels = true := by
  unfold tagLoopEnd at h
  split at h
  all_goals
    simp only [Except.ok.injEq, Prod.mk.injEq] at h
    rw [← h.1]
    exact hinv

theorem tagTempo_inv (mc : ℕ) (cfg : Config) (flags : VersionFlags) (input : List ℕ)
    (i : ℕ) (st st2 : DecState) (ni : Option ℕ)
    (h : tagTempo cfg flags input i st = .ok (st2, ni))
    (hinv : channelsInv mc st.song.channels = true) :
    channelsInv mc st2.song.channels = true := by
  unfold tagTempo at h
  repeat' split at h
  all_goals
    simp only [Except.ok.injEq, Prod.mk.injEq] at h
    rw [← h.1]
    exact hinv

theorem tagBeatCount_inv (mc : ℕ) (cfg : Config) (flags : VersionFlags) (input : List ℕ)
    (i : ℕ) (st st2 : DecState) (ni : Option ℕ)
    (h : tagBeatCount cfg flags input i st = .ok (st2, ni))
    (hinv : channelsInv mc st.song.channels = true) :
    channelsInv mc st2.song.channels = true := by
  simp only [tagBeatCount, Except.ok.injEq, Prod.mk.injEq] at h
  rw [← h.1]
  exact hinv

theorem tagReverb_inv (mc : ℕ) (cfg : Config) (flags : VersionFlags) (input : List ℕ)
    (i : ℕ) (st st2 : DecState) (ni : Option ℕ)
    (h : tagReverb cfg flags input i st = .ok (st2, ni))
    (hinv : channelsInv mc st.song.channels = true) :
    channelsInv mc st2.song.channels = true := by
  unfold tagReverb at h
  split at h
  · simp only [Except.ok.injEq, Prod.mk.injEq] at h
    rw [← h.1]
    exact hinv
  · rcases hm : st.modifyInstrument (fun ins =>
      { ins with reverb := clampJSN 0 cfg.reverbRange (charVal input i) }) with e | s2
    · rw [hm] at h
      exact absurd h (by simp [Except.map])
    · rw [hm] at h
      simp only [Except.map, Except.ok.injEq, Prod.mk.injEq] at h
      rw [← h.1]
      exact channelsInv_modifyInstrument mc st _ s2 hm hinv

theorem tagPreset_inv (mc : ℕ) (input : List ℕ) (i : ℕ) (st st2 : DecState)
    (ni : Option ℕ) (h : tagPreset input i st = .ok (st2, ni))
    (hinv : channelsInv mc st.song.channels = true) :
    channelsInv mc st2.song.channels = true := by
  unfold tagPreset at h
  obtain ⟨s2, hs2, h⟩ := bind_ok_inv _ _ _ h
  simp only [Except.ok.injEq, Prod.mk.injEq] at h
  rw [← h.1]
  exact channelsInv_modifyInstrument mc st _ s2 hs2 hinv

theorem tagDistortion_inv (mc : ℕ) (cfg : Config) (input : List ℕ) (i : ℕ)
    (st st2 : DecState) (ni : Option ℕ)
    (h : tagDistortion cfg input i st = .ok (st2, ni))
    (hinv : channelsInv mc st.song.channels = true) :
    channelsInv mc st2.song.channels = true := by
  unfold tagDistortion at h
  obtain ⟨s2, hs2, h⟩ := bind_ok_inv _ _ _ h
  simp only [Except.ok.injEq, Prod.mk.injEq] at h
  rw [← h.1]
  exact channelsInv_modifyInstrument mc st _ s2 hs2 hinv

theorem tagBitcrusher_inv (mc : ℕ) (cfg : Config) (input : List ℕ) (i : ℕ)
    (st st2 : DecState) (ni : Option ℕ)
    (h : tagBitcrusher cfg input i st = .ok (st2, ni))
    (hinv : channelsInv mc st.song.channels = true) :
    channelsInv mc st2.song.channels = true := by
  unfold tagBitcrusher at h
  obtain ⟨s2, hs2, h⟩ := bind_ok_inv _ _ _ h
  simp only [Except.ok.injEq, Prod.mk.injEq] at h
  rw [← h.1]
  exact channelsInv_modifyInstrument mc st _ s2 hs2 hinv

theorem tagSustain_inv (mc : ℕ) (cfg : Config) (input : List ℕ) (i : ℕ)
    (st st2 : DecState) (ni : Option ℕ)
    (h : tagSustain cfg input i st = .ok (st2, ni))
    (hinv : channelsInv mc st.song.channels = true) :
    channelsInv mc st2.song.channels = true := by
  unfold tagSustain at h
  obtain ⟨s2, hs2, h⟩ := bind_ok_inv _ _ _ h
  simp only [Except.ok.injEq, Prod.mk.injEq] at h
  rw [← h.1]
  exact channelsInv_modifyInstrument mc st _ s2 hs2 hinv

theorem tagChord_inv (mc : ℕ) (cfg : Config) (input : List ℕ) (i : ℕ)
    (st st2 : DecState) (ni : Option ℕ)
    (h : tagChord cfg input i st = .ok (st2, ni))
    (hinv : channelsInv mc st.song.channels = true) :
    channelsInv mc st2.song.channels = true := by
  unfold tagChord at h
  obtain ⟨s2, hs2, h⟩ := bind_ok_inv _ _ _ h
  simp only [Except.ok.injEq, Prod.mk.injEq] at h
  rw [← h.1]
  exact channelsInv_modifyInstrument mc st _ s2 hs2 hinv

theorem tagPan_inv (mc : ℕ) (cfg : Config) (input : List ℕ) (i : ℕ)
    (st st2 : DecState) (ni : Option ℕ)
    (h : tagPan cfg input i st = .ok (st2, ni))
    (hinv : channelsInv mc st.song.channels = true) :
    channelsInv mc st2.song.channels = true := by
  unfold tagPan at h
  obtain ⟨s2, hs2, h⟩ := bind_ok_inv _ _ _ h
  simp only [Except.ok.injEq, Prod.mk.injEq] at h
  rw [← h.1]
  exact channelsInv_modifyInstrument mc st _ s2 hs2 hinv

theorem tagAlgorithm_inv (mc : ℕ) (cfg : Config) (input : List ℕ) (i : ℕ)
    (st st2 : DecState) (ni : Option ℕ)
    (h : tagAlgorithm cfg input i st = .ok (st2, ni))
    (hinv : channelsInv mc st.song.channels = true) :
    channelsInv mc st2.song.channels = true := by
  unfold tagAlgorithm at h
  obtain ⟨s2, hs2, h⟩ := bind_ok_inv _ _ _ h
  simp only [Except.ok.injEq, Prod.mk.injEq] at h
  rw [← h.1]
  exact channelsInv_modifyInstrument mc st _ s2 hs2 hinv

theorem tagFeedbackType_inv (mc : ℕ) (cfg : Config) (input : List ℕ) (i : ℕ)
    (st st2 : DecState) (ni : Option ℕ)
    (h : tagFeedbackType cfg input i st = .ok (st2, ni))
    (hinv : channelsInv mc st.song.channels = true) :
    channelsInv mc st2.song.channels = true := by
  unfold tagFeedbackType at h
  obtain ⟨s2, hs2, h⟩ := bind_ok_inv _ _ _ h
  simp only [Except.ok.injEq, Prod.mk.injEq] at h
  rw [← h.1]
  exact channelsInv_modifyInstrument mc st _ s2 hs2 hinv

theorem tagFeedbackAmplitude_inv (mc : ℕ) (cfg : Config) (input : List ℕ) (i : ℕ)
    (st st2 : DecState) (ni : Option ℕ)
    (h : tagFeedbackAmplitude cfg input i st = .ok (st2, ni))
    (hinv : channelsInv mc st.song.channels = true) :
    channelsInv mc st2.song.channels = true := by
  unfold tagFeedbackAmplitude at h
  obtain ⟨s2, hs2, h⟩ := bind_ok_inv _ _ _ h
  simp only [Except.ok.injEq, Prod.mk.injEq] at h
  rw [← h.1]
  exact channelsInv_modifyInstrument mc st _ s2 hs2 hinv

theorem tagFeedbackEnvelope_inv (mc : ℕ) (cfg : Config) (input : List ℕ) (i : ℕ)
    (st st2 : DecState) (ni : Option ℕ)
    (h : tagFeedbackEnvelope cfg input i st = .ok (st2, ni))
    (hinv : channelsInv mc st.song.channels = true) :
    channelsInv mc st2.song.channels = true := by
  unfold tagFeedbackEnvelope at h
  obtain ⟨s2, hs2, h⟩ := bind_ok_inv _ _ _ h
  simp only [Except.ok.injEq, Prod.mk.injEq] at h
  rw [← h.1]
  exact channelsInv_modifyInstrument mc st _ s2 hs2 hinv

theorem tagOperatorFrequencies_inv (mc : ℕ) (cfg : Config) (input : List ℕ) (i : ℕ)
    (st st2 : DecState) (ni : Option ℕ)
    (h : tagOperatorFrequencies cfg input i st = .ok (st2, ni))
    (hinv : channelsInv mc st.song.channels = true) :
    channelsInv mc st2.song.channels = true := by
  unfold tagOperatorFrequencies at h
  obtain ⟨s2, hs2, h⟩ := bind_ok_inv _ _ _ h
  simp only [Except.ok.injEq, Prod.mk.injEq] at h
  rw [← h.1]
  exact channelsInv_modifyInstrumentE mc st _ s2 hs2 hinv

theorem tagOperatorAmplitudes_inv (mc : ℕ) (cfg : Config) (input : List ℕ) (i : ℕ)
    (st st2 : DecState) (ni : Option ℕ)
    (h : tagOperatorAmplitudes cfg input i st = .ok (st2, ni))
    (hinv : channelsInv mc st.song.channels = true) :
    channelsInv mc st2.song.channels = true := by
  unfold tagOperatorAmplitudes at h
  obtain ⟨s2, hs2, h⟩ := bind_ok_inv _ _ _ h
  simp only [Except.ok.injEq, Prod.mk.injEq] at h
  rw [← h.1]
  exact channelsInv_modifyInstrumentE mc st _ s2 hs2 hinv

theorem tagOperatorEnvelopes_inv (mc : ℕ) (cfg : Config) (input : List ℕ) (i : ℕ)
    (st st2 : DecState) (ni : Option ℕ)
    (h : tagOperatorEnvelopes cfg input i st = .ok (st2, ni))
    (hinv : channelsInv mc st.song.channels = true) :
    channelsInv mc st2.song.channels = true := by
  unfold tagOperatorEnvelopes at h
  obtain ⟨s2, hs2, h⟩ := bind_ok_inv _ _ _ h
  simp only [Except.ok.injEq, Prod.mk.injEq] at h
  rw [← h.1]
  exact channelsInv_modifyInstrumentE mc st _ s2 hs2 hinv

theorem tagHarmonics_inv (mc : ℕ) (cfg : Config) (input : List ℕ) (i : ℕ)
    (st st2 : DecState) (ni : Option ℕ)
    (h : tagHarmonics cfg input i st = .ok (st2, ni))
    (hinv : channelsInv mc st.song.channels = true) :
    channelsInv mc st2.song.channels = true := by
  unfold tagHarmonics at h
  obtain ⟨s2, hs2, h⟩ := bind_ok_inv _ _ _ h
  simp only [Except.ok.injEq, Prod.mk.injEq] at h
  rw [← h.1]
  exact channelsInv_modifyInstrument mc st _ s2 hs2 hinv

theorem tagSpectrum_inv (mc : ℕ) (cfg : Config) (input : List ℕ) (i : ℕ)
    (st st2 : DecState) (ni : Option ℕ)
    (h : tagSpectrum cfg input i st = .ok (st2, ni))
    (hinv : channelsInv mc st.song.channels = true) :
    channelsInv mc st2.song.channels = true := by
  unfold tagSpectrum at h
  repeat' split at h
  all_goals first
    | (obtain ⟨s2, hs2, h⟩ := bind_ok_inv _ _ _ h
       simp only [Except.ok.injEq, Prod.mk.injEq] at h
       rw [← h.1]
       exact channelsInv_modifyInstrument mc st _ s2 hs2 hinv)
    | exact absurd h (by simp)

theorem tagPulseWidth_inv (mc : ℕ) (cfg : Config) (input : List ℕ) (i : ℕ)
    (st st2 : DecState) (ni : Option ℕ)
    (h : tagPulseWidth cfg input i st = .ok (st2, ni))
    (hinv : channelsInv mc st.song.channels = true) :
    channelsInv mc st2.song.channels = true := by
  unfold tagPulseWidth at h
  repeat' split at h
  all_goals first
    | (obtain ⟨s2, hs2, h⟩ := bind_ok_inv _ _ _ h
       simp only [Except.ok.injEq, Prod.mk.injEq] at h
       rw [← h.1]
       exact channelsInv_modifyInstrument mc st _ s2 hs2 hinv)
    | exact absurd h (by simp)

theorem tagEffects_inv (mc : ℕ) (cfg : Config) (flags : VersionFlags) (input : List ℕ)
    (i : ℕ) (st st2 : DecState) (ni : Option ℕ)
    (h : tagEffects cfg flags input i st = .ok (st2, ni))
    (hinv : channelsInv mc st.song.channels = true) :
    channelsInv mc st2.song.channels = true := by
  unfold tagEffects at h
  repeat' split at h
  all_goals
    obtain ⟨s2, hs2, h⟩ := bind_ok_inv _ _ _ h
    simp only [Except.ok.injEq, Prod.mk.injEq] at h
    rw [← h.1]
    exact channelsInv_modifyInstrument mc st _ s2 hs2 hinv

theorem tagFilterEnvelope_inv (mc : ℕ) (cfg : Config) (convert : ConvertFn)
    (flags : VersionFlags) (input : List ℕ) (i : ℕ) (st st2 : DecState) (ni : Option ℕ)
    (h : tagFilterEnvelope cfg convert flags input i st = .ok (st2, ni))
    (hinv : channelsInv mc st.song.channels = true) :
    channelsInv mc st2.song.channels = true := by
  unfold tagFilterEnvelope at h
  repeat' split at h
  all_goals first
    | (obtain ⟨s2, hs2, h⟩ := bind_ok_inv _ _ _ h
       simp only [Except.ok.injEq, Prod.mk.injEq] at h
       rw [← h.1]
       exact channelsInv_modifyInstrumentE mc st _ s2 hs2 hinv)
    | exact absurd h (by simp)

theorem tagStartInstrument_inv (mc : ℕ) (cfg : Config) (flags : VersionFlags)
    (input : List ℕ) (i : ℕ) (st st2 : DecState) (ni : Option ℕ)
    (h : tagStartInstrument cfg flags input i st = .ok (st2, ni))
    (hinv : channelsInv mc st.song.channels = true) :
    channelsInv mc st2.song.channels = true := by
  unfold tagStartInstrument at h
  repeat' split at h
  all_goals
    obtain ⟨x1, hx1, h⟩ := bind_ok_inv _ _ _ h
    obtain ⟨tn, htn, h⟩ := bind_ok_inv _ _ _ h
    obtain ⟨s3, hs3, h⟩ := bind_ok_inv _ _ _ h
    simp only [Except.ok.injEq, Prod.mk.injEq] at h
    rw [← h.1]
    exact channelsInv_modifyInstrument mc _ _ s3 hs3 hinv

/-- A channel whose patterns all pass the pattern check passes `chInv`. -/

theorem chInv_patterns (mc : ℕ) (ch : Channel) (ps : List Pattern)
    (h : ∀ p ∈ ps, p.notes.all (noteInv mc) = true) :
    chInv mc { ch with patterns := ps } = true := by
  rw [chInv, List.all_eq_true]
  intro p hp
  exact h p hp

/-- Padding or truncating the pattern list with `Pattern.default` keeps
`chInv`. -/

theorem chInv_padTruncatePatterns (mc : ℕ) (ch : Channel) (n : ℕ)
    (h : chInv mc ch = true) :
    chInv mc { ch with patterns := padTruncate ch.patterns n Pattern.default } = true := by
  refine chInv_patterns mc ch _ ?_
  intro p hp
  rw [chInv, List.all_eq_true] at h
  unfold padTruncate at hp
  have hp2 := List.mem_of_mem_take hp
  rcases List.mem_append.mp hp2 with h3 | h3
  · exact h p h3
  · rw [List.eq_of_mem_replicate h3]
    rfl

/-- `mapIdx` with a `chInv`-preserving update. -/

theorem channelsInv_mapIdxChInv (mc : ℕ) (f : ℕ → Channel → Channel)
    (hf : ∀ c ch, chInv mc ch = true → chInv mc (f c ch) = true) (chs : List Channel)
    (h : channelsInv mc chs = true) : channelsInv mc (chs.mapIdx f) = true := by
  induction chs generalizing f with
  | nil => rfl
  | cons ch rest ih =>
    rw [List.mapIdx_cons]
    simp only [channelsInv, List.all_cons, Bool.and_eq_true] at h ⊢
    exact ⟨hf 0 ch h.1, ih (fun j => f (j + 1)) (fun c ch2 => hf (c + 1) ch2) h.2⟩

/-- `updateChannelsIdx` with a `chInv`-preserving update. -/

theorem channelsInv_updateChannelsIdxChInv (mc : ℕ) (s : Song)
    (f : ℕ → Channel → Channel) (sg : Song)
    (hf : ∀ c ch, chInv mc ch = true → chInv mc (f c ch) = true)
    (h : s.updateChannelsIdx f = .ok sg)
    (hinv : channelsInv mc s.channels = true) :
    channelsInv mc sg.channels = true := by
  unfold Song.updateChannelsIdx at h
  split at h
  · simp only [Except.ok.injEq] at h
    subst h
    refine channelsInv_mapIdxChInv mc _ ?_ _ hinv
    intro c ch hch
    by_cases hc : c < s.getChannelCount
    · simp only [hc, if_true]
      exact hf c ch hch
    · simp only [hc, if_false]
      exact hch
  · exact absurd h (by simp)

theorem tagBarCount_inv (mc : ℕ) (cfg : Config) (input : List ℕ) (i : ℕ)
    (st st2 : DecState) (ni : Option ℕ)
    (h : tagBarCount cfg input i st = .ok (st2, ni))
    (hinv : channelsInv mc st.song.channels = true) :
    channelsInv mc st2.song.channels = true := by
  unfold tagBarCount at h
  obtain ⟨bc, hbc, h⟩ := bind_ok_inv _ _ _ h
  obtain ⟨sg, hsg, h⟩ := bind_ok_inv _ _ _ h
  simp only [Except.ok.injEq, Prod.mk.injEq] at h
  rw [← h.1]
  refine channelsInv_updateChannelsIdx mc st.song _ sg ?_ hsg hinv
  intro c ch
  rfl

theorem tagPatternCount_inv (mc : ℕ) (cfg : Config) (flags : VersionFlags)
    (input : List ℕ) (i : ℕ) (st st2 : DecState) (ni : Option ℕ)
    (h : tagPatternCount cfg flags input i st = .ok (st2, ni))
    (hinv : channelsInv mc st.song.channels = true) :
    channelsInv mc st2.song.channels = true := by
  unfold tagPatternCount at h
  repeat' split at h
  all_goals
    obtain ⟨ppc, hppc, h⟩ := bind_ok_inv _ _ _ h
    obtain ⟨sg, hsg, h⟩ := bind_ok_inv _ _ _ h
    simp only [Except.ok.injEq, Prod.mk.injEq] at h
    rw [← h.1]
    refine channelsInv_updateChannelsIdxChInv mc st.song _ sg ?_ hsg hinv
    intro c ch hch
    exact chInv_padTruncatePatterns mc ch _ hch

theorem tagInstrumentCount_inv (mc : ℕ) (cfg : Config) (flags : VersionFlags)
    (input : List ℕ) (i : ℕ) (st st2 : DecState) (ni : Option ℕ)
    (h : tagInstrumentCount cfg flags input i st = .ok (st2, ni))
    (hinv : channelsInv mc st.song.channels = true) :
    channelsInv mc st2.song.channels = true := by
  unfold tagInstrumentCount at h
  obtain ⟨ipc, hipc, h⟩ := bind_ok_inv _ _ _ h
  obtain ⟨sg, hsg, h⟩ := bind_ok_inv _ _ _ h
  simp only [Except.ok.injEq, Prod.mk.injEq] at h
  rw [← h.1]
  refine channelsInv_updateChannelsIdx mc st.song _ sg ?_ hsg hinv
  intro c ch
  rfl

theorem tagChannelOctave_inv (mc : ℕ) (cfg : Config) (flags : VersionFlags)
    (input : List ℕ) (i : ℕ) (st st2 : DecState) (ni : Option ℕ)
    (h : tagChannelOctave cfg flags input i st = .ok (st2, ni))
    (hinv : channelsInv mc st.song.channels = true) :
    channelsInv mc st2.song.channels = true := by
  unfold tagChannelOctave at h
  split at h
  · obtain ⟨sg, hsg, h⟩ := bind_ok_inv _ _ _ h
    simp only [Except.ok.injEq, Prod.mk.injEq] at h
    rw [← h.1]
    refine channelsInv_modifyChannelAt mc st.song _ _ sg ?_ hsg hinv
    intro ch ch2 hok
    simp only [Except.ok.injEq] at hok
    subst hok
    rfl
  · obtain ⟨sg, hsg, h⟩ := bind_ok_inv _ _ _ h
    simp only [Except.ok.injEq, Prod.mk.injEq] at h
    rw [← h.1]
    refine channelsInv_updateChannelsIdx mc st.song _ sg ?_ hsg hinv
    intro c ch
    rfl

theorem tagChannelCount_inv (mc : ℕ) (cfg : Config) (flags : VersionFlags)
    (input : List ℕ) (i : ℕ) (st st2 : DecState) (ni : Option ℕ)
    (h : tagChannelCount cfg flags input i st = .ok (st2, ni))
    (hinv : channelsInv mc st.song.channels = true) :
    channelsInv mc st2.song.channels = true := by
  unfold tagChannelCount at h
  obtain ⟨pc, hpc, h⟩ := bind_ok_inv _ _ _ h
  obtain ⟨nc, hnc, h⟩ := bind_ok_inv _ _ _ h
  simp only [Except.ok.injEq, Prod.mk.injEq] at h
  rw [← h.1]
  exact channelsInv_padTruncate mc st.song.channels _ Channel.default hinv rfl

theorem tagTransition_inv (mc : ℕ) (cfg : Config) (flags : VersionFlags)
    (input : List ℕ) (i : ℕ) (st st2 : DecState) (ni : Option ℕ)
    (h : tagTransition cfg flags input i st = .ok (st2, ni))
    (hinv : channelsInv mc st.song.channels = true) :
    channelsInv mc st2.song.channels = true := by
  unfold tagTransition at h
  repeat' split at h
  all_goals
    obtain ⟨s2, hs2, h⟩ := bind_ok_inv _ _ _ h
    simp only [Except.ok.injEq, Prod.mk.injEq] at h
    rw [← h.1]
    first
      | exact channelsInv_modifyChannelInstrument0 mc st.song _ _ s2 hs2 hinv
      | exact channelsInv_updateAllInstruments mc st.song _ s2 hs2 hinv
      | exact channelsInv_modifyInstrument mc st _ s2 hs2 hinv

theorem tagVibrato_inv (mc : ℕ) (cfg : Config) (flags : VersionFlags)
    (input : List ℕ) (i : ℕ) (st st2 : DecState) (ni : Option ℕ)
    (h : tagVibrato cfg flags input i st = .ok (st2, ni))
    (hinv : channelsInv mc st.song.channels = true) :
    channelsInv mc st2.song.channels = true := by
  unfold tagVibrato at h
  repeat' split at h
  all_goals
    obtain ⟨s2, hs2, h⟩ := bind_ok_inv _ _ _ h
    simp only [Except.ok.injEq, Prod.mk.injEq] at h
    rw [← h.1]
    first
      | exact channelsInv_modifyChannelInstrument0 mc st.song _ _ s2 hs2 hinv
      | exact channelsInv_updateAllInstruments mc st.song _ s2 hs2 hinv
      | exact channelsInv_modifyInstrument mc st _ s2 hs2 hinv

theorem tagInterval_inv (mc : ℕ) (cfg : Config) (flags : VersionFlags)
    (input : List ℕ) (i : ℕ) (st st2 : DecState) (ni : Option ℕ)
    (h : tagInterval cfg flags input i st = .ok (st2, ni))
    (hinv : channelsInv mc st.song.channels = true) :
    channelsInv mc st2.song.channels = true := by
  unfold tagInterval at h
  repeat' split at h
  all_goals
    obtain ⟨s2, hs2, h⟩ := bind_ok_inv _ _ _ h
    simp only [Except.ok.injEq, Prod.mk.injEq] at h
    rw [← h.1]
    first
      | exact channelsInv_modifyChannelInstrument0 mc st.song _ _ s2 hs2 hinv
      | exact channelsInv_updateAllInstruments mc st.song _ s2 hs2 hinv
      | exact channelsInv_modifyInstrument mc st _ s2 hs2 hinv

theorem tagVolume_inv (mc : ℕ) (cfg : Config) (flags : VersionFlags)
    (input : List ℕ) (i : ℕ) (st st2 : DecState) (ni : Option ℕ)
    (h : tagVolume cfg flags input i st = .ok (st2, ni))
    (hinv : channelsInv mc st.song.channels = true) :
    channelsInv mc st2.song.channels = true := by
  unfold tagVolume at h
  repeat' split at h
  all_goals
    obtain ⟨s2, hs2, h⟩ := bind_ok_inv _ _ _ h
    simp only [Except.ok.injEq, Prod.mk.injEq] at h
    rw [← h.1]
    first
      | exact channelsInv_modifyChannelInstrument0 mc st.song _ _ s2 hs2 hinv
      | exact channelsInv_updateAllInstruments mc st.song _ s2 hs2 hinv
      | exact channelsInv_modifyInstrument mc st _ s2 hs2 hinv

theorem tagWave_inv (mc : ℕ) (cfg : Config) (convert : ConvertFn) (flags : VersionFlags)
    (input : List ℕ) (i : ℕ) (st st2 : DecState) (ni : Option ℕ)
    (h : tagWave cfg convert flags input i st = .ok (st2, ni))
    (hinv : channelsInv mc st.song.channels = true) :
    channelsInv mc st2.song.channels = true := by
  unfold tagWave at h
  repeat' split at h
  all_goals
    obtain ⟨s2, hs2, h⟩ := bind_ok_inv _ _ _ h
    simp only [Except.ok.injEq, Prod.mk.injEq] at h
    rw [← h.1]
    first
      | exact channelsInv_modifyChannelInstrument0 mc st.song _ _ s2 hs2 hinv
      | exact channelsInv_updateAllInstruments mc st.song _ s2 hs2 hinv
      | exact channelsInv_modifyInstrument mc st _ s2 hs2 hinv

theorem tagDistortionFilter_inv (mc : ℕ) (cfg : Config) (input : List ℕ) (i : ℕ)
    (st st2 : DecState) (ni : Option ℕ)
    (h : tagDistortionFilter cfg input i st = .ok (st2, ni))
    (hinv : channelsInv mc st.song.channels = true) :
    channelsInv mc st2.song.channels = true := by
  unfold tagDistortionFilter at h
  obtain ⟨s2, hs2, h⟩ := bind_ok_inv _ _ _ h
  simp only [Except.ok.injEq, Prod.mk.injEq] at h
  rw [← h.1]
  exact channelsInv_modifyInstrument mc st _ s2 hs2 hinv

theorem tagFilterResonance_inv (mc : ℕ) (convert : ConvertFn) (flags : VersionFlags)
    (input : List ℕ) (i : ℕ) (st st2 : DecState) (ni : Option ℕ)
    (h : tagFilterResonance convert flags input i st = .ok (st2, ni))
    (hinv : channelsInv mc st.song.channels = true) :
    channelsInv mc st2.song.channels = true := by
  unfold tagFilterResonance at h
  split at h
  · obtain ⟨s2, hs2, h⟩ := bind_ok_inv _ _ _ h
    split at h
    · exact absurd h (by simp)
    next ls hls =>
      obtain ⟨s3, hs3, h⟩ := bind_ok_inv _ _ _ h
      simp only [Except.ok.injEq, Prod.mk.injEq] at h
      rw [← h.1]
      refine channelsInv_modifyInstrument mc s2 _ s3 hs3 ?_
      rw [setLFS_song st _ _ _ s2 hs2]
      exact hinv
  · simp only [Except.ok.injEq, Prod.mk.injEq] at h
    rw [← h.1]
    exact hinv

theorem tagFilter_inv (mc : ℕ) (cfg : Config) (convert : ConvertFn) (flags : VersionFlags)
    (input : List ℕ) (i : ℕ) (st st2 : DecState) (ni : Option ℕ)
    (h : tagFilter cfg convert flags input i st = .ok (st2, ni))
    (hinv : channelsInv mc st.song.channels = true) :
    channelsInv mc st2.song.channels = true := by
  unfold tagFilter at h
  simp only [] at h
  split at h
  · split at h
    · split at h
      · -- version < 3
        split at h
        · exact absurd h (by simp)
        · split at h
          · exact absurd h (by simp)
          next c hc =>
            obtain ⟨s2, hs2, h⟩ := bind_ok_inv _ _ _ h
            obtain ⟨sg, hsg, h⟩ := bind_ok_inv _ _ _ h
            simp only [Except.ok.injEq, Prod.mk.injEq] at h
            rw [← h.1]
            refine channelsInv_modifyChannelInstrument0 mc s2.song _ _ sg hsg ?_
            rw [setLFS_song st _ _ _ s2 hs2]
            exact hinv
      · split at h
        · -- version < 6
          split at h
          · exact absurd h (by simp)
          next lfs hlfs =>
            split at h
            · obtain ⟨sg, hsg, h⟩ := bind_ok_inv _ _ _ h
              simp only [Except.ok.injEq, Prod.mk.injEq] at h
              rw [← h.1]
              exact channelsInv_updateAllInstruments mc st.song _ sg hsg hinv
            · exact absurd h (by simp)
        · -- version 6
          obtain ⟨s2, hs2, h⟩ := bind_ok_inv _ _ _ h
          obtain ⟨s3, hs3, h⟩ := bind_ok_inv _ _ _ h
          simp only [Except.ok.injEq, Prod.mk.injEq] at h
          rw [← h.1]
          refine channelsInv_modifyInstrument mc s2 _ s3 hs3 ?_
          rw [setLFS_song st _ _ _ s2 hs2]
          exact hinv
    · -- versions 7 and 8
      obtain ⟨s2, hs2, h⟩ := bind_ok_inv _ _ _ h
      split at h
      · exact absurd h (by simp)
      next ls hls =>
        obtain ⟨s3, hs3, h⟩ := bind_ok_inv _ _ _ h
        simp only [Except.ok.injEq, Prod.mk.injEq] at h
        rw [← h.1]
        refine channelsInv_modifyInstrument mc s2 _ s3 hs3 ?_
        rw [setLFS_song st _ _ _ s2 hs2]
        exact hinv
  · -- version 9
    obtain ⟨s2, hs2, h⟩ := bind_ok_inv _ _ _ h
    simp only [Except.ok.injEq, Prod.mk.injEq] at h
    rw [← h.1]
    exact channelsInv_modifyInstrument mc st _ s2 hs2 hinv

/-- The bars-assignment loop only rewrites `bars`, so it keeps each
channel's `chInv`. -/

theorem barsAssignLoop_chInv (mc : ℕ) (nb bc : ℕ) (a : Bool) :
    ∀ (n : ℕ) (chs : List Channel) (bits : List Bool),
    (∀ ch ∈ chs, chInv mc ch = true) →
    ∀ ch ∈ (barsAssignLoop nb bc a n chs bits).1, chInv mc ch = true := by
  intro n
  induction n with
  | zero =>
    intro chs bits hchs
    simpa [barsAssignLoop] using hchs
  | succ n ih =>
    intro chs bits hchs
    cases chs with
    | nil =>
      intro ch hch
      simp [barsAssignLoop] at hch
    | cons c0 cs =>
      have heq : barsAssignLoop nb bc a (n+1) (c0 :: cs) bits =
          ({ c0 with bars := (if a then ((readFields nb bc bits).1).map (Option.map (· + 1)) else (readFields nb bc bits).1) ++ c0.bars.drop bc } :: (barsAssignLoop nb bc a n cs ((readFields nb bc bits).2)).1, (barsAssignLoop nb bc a n cs ((readFields nb bc bits).2)).2) := by
        rw [barsAssignLoop]
      intro ch hch
      rw [heq] at hch
      rcases List.mem_cons.mp hch with rfl | hm
      · have hc0 := hchs c0 (List.mem_cons_self c0 cs)
        rw [chInv] at hc0 ⊢
        exact hc0
      · exact ih cs _ (fun x hx => hchs x (List.mem_cons_of_mem _ hx)) ch hm

theorem tagBars_inv (mc : ℕ) (flags : VersionFlags) (input : List ℕ) (i : ℕ)
    (st st2 : DecState) (ni : Option ℕ)
    (h : tagBars flags input i st = .ok (st2, ni))
    (hinv : channelsInv mc st.song.channels = true) :
    channelsInv mc st2.song.channels = true := by
  unfold tagBars at h
  split at h
  · obtain ⟨sg, hsg, h⟩ := bind_ok_inv _ _ _ h
    simp only [Except.ok.injEq, Prod.mk.injEq] at h
    rw [← h.1]
    refine channelsInv_modifyChannelAt mc st.song _ _ sg ?_ hsg hinv
    intro ch ch2 hok
    simp only [Except.ok.injEq] at hok
    subst hok
    rfl
  · simp only [] at h
    repeat' split at h
    all_goals first
      | (simp only [Except.ok.injEq, Prod.mk.injEq] at h
         rw [← h.1, channelsInv_iff]
         intro ch hch
         rcases List.mem_append.mp hch with h1 | h1
         · refine barsAssignLoop_chInv mc _ _ _ _ _ _ ?_ ch h1
           intro x hx
           exact (channelsInv_iff mc _).mp hinv x (List.mem_of_mem_take hx)
         · exact (channelsInv_iff mc _).mp hinv ch (List.mem_of_mem_drop h1))
      | exact absurd h (by simp)

/-- Every tag handler preserves the channel-list note invariant. -/

theorem applyTag_inv (cfg : Config) (convert : ConvertFn) (flags : VersionFlags)
    (input : List ℕ) (cmd i : ℕ) (st st2 : DecState) (ni : Option ℕ)
    (hppb : 0 < cfg.partsPerBeat) (hrh : ∀ r ∈ cfg.rhythms, 0 < r)
    (hmc : 1 ≤ cfg.maxChordSize)
    (h : applyTag cfg convert flags input cmd i st = .ok (st2, ni))
    (hinv : channelsInv cfg.maxChordSize st.song.channels = true) :
    channelsInv cfg.maxChordSize st2.song.channels = true := by
  unfold applyTag at h
  by_cases hc97 : cmd = 97
  · rw [if_pos hc97] at h
    exact tagBeatCount_inv cfg.maxChordSize cfg flags input i st st2 ni h hinv
  rw [if_neg hc97] at h
  by_cases hc98 : cmd = 98
  · rw [if_pos hc98] at h
    exact tagBars_inv cfg.maxChordSize flags input i st st2 ni h hinv
  rw [if_neg hc98] at h
  by_cases hc99 : cmd = 99
  · rw [if_pos hc99] at h
    exact tagVibrato_inv cfg.maxChordSize cfg flags input i st st2 ni h hinv
  rw [if_neg hc99] at h
  by_cases hc100 : cmd = 100
  · rw [if_pos hc100] at h
    exact tagTransition_inv cfg.maxChordSize cfg flags input i st st2 ni h hinv
  rw [if_neg hc100] at h
  by_cases hc101 : cmd = 101
  · rw [if_pos hc101] at h
    exact tagLoopEnd_inv cfg.maxChordSize flags input i st st2 ni h hinv
  rw [if_neg hc101] at h
  by_cases hc102 : cmd = 102
  · rw [if_pos hc102] at h
    exact tagFilter_inv cfg.maxChordSize cfg convert flags input i st st2 ni h hinv
  rw [if_neg hc102] at h
  by_cases hc103 : cmd = 103
  · rw [if_pos hc103] at h
    exact tagBarCount_inv cfg.maxChordSize cfg input i st st2 ni h hinv
  rw [if_neg hc103] at h
  by_cases hc104 : cmd = 104
  · rw [if_pos hc104] at h
    exact tagInterval_inv cfg.maxChordSize cfg flags input i st st2 ni h hinv
  rw [if_neg hc104] at h
  by_cases hc105 : cmd = 105
  · rw [if_pos hc105] at h
    exact tagInstrumentCount_inv cfg.maxChordSize cfg flags input i st st2 ni h hinv
  rw [if_neg hc105] at h
  by_cases hc106 : cmd = 106
  · rw [if_pos hc106] at h
    exact tagPatternCount_inv cfg.maxChordSize cfg flags input i st st2 ni h hinv
  rw [if_neg hc106] at h
  by_cases hc107 : cmd = 107
  · rw [if_pos hc107] at h
    exact tagKey_inv cfg.maxChordSize cfg flags input i st st2 ni h hinv
  rw [if_neg hc107] at h
  by_cases hc108 : cmd = 108
  · rw [if_pos hc108] at h
    exact tagLoopStart_inv cfg.maxChordSize flags input i st st2 ni h hinv
  rw [if_neg hc108] at h
  by_cases hc109 : cmd = 109
  · rw [if_pos hc109] at h
    exact tagReverb_inv cfg.maxChordSize cfg flags input i st st2 ni h hinv
  rw [if_neg hc109] at h
  by_cases hc110 : cmd = 110
  · rw [if_pos hc110] at h
    exact tagChannelCount_inv cfg.maxChordSize cfg flags input i st st2 ni h hinv
  rw [if_neg hc110] at h
  by_cases hc111 : cmd = 111
  · rw [if_pos hc111] at h
    exact tagChannelOctave_inv cfg.maxChordSize cfg flags input i st st2 ni h hinv
  rw [if_neg hc111] at h
  by_cases hc112 : cmd = 112
  · rw [if_pos hc112] at h
    exact tagPatterns_inv cfg flags input i st st2 ni hppb hrh hmc h hinv
  rw [if_neg hc112] at h
  by_cases hc113 : cmd = 113
  · rw [if_pos hc113] at h
    exact tagEffects_inv cfg.maxChordSize cfg flags input i st st2 ni h hinv
  rw [if_neg hc113] at h
  by_cases hc114 : cmd = 114
  · rw [if_pos hc114] at h
    exact tagRhythm_inv cfg.maxChordSize input i st st2 ni h hinv
  rw [if_neg hc114] at h
  by_cases hc115 : cmd = 115
  · rw [if_pos hc115] at h
    exact tagScale_inv cfg.maxChordSize flags input i st st2 ni h hinv
  rw [if_neg hc115] at h
  by_cases hc116 : cmd = 116
  · rw [if_pos hc116] at h
    exact tagTempo_inv cfg.maxChordSize cfg flags input i st st2 ni h hinv
  rw [if_neg hc116] at h
  by_cases hc117 : cmd = 117
  · rw [if_pos hc117] at h
    exact tagPreset_inv cfg.maxChordSize input i st st2 ni h hinv
  rw [if_neg hc117] at h
  by_cases hc118 : cmd = 118
  · rw [if_pos hc118] at h
    exact tagVolume_inv cfg.maxChordSize cfg flags input i st st2 ni h hinv
  rw [if_neg hc118] at h
  by_cases hc119 : cmd = 119
  · rw [if_pos hc119] at h
    exact tagWave_inv cfg.maxChordSize cfg convert flags input i st st2 ni h hinv
  rw [if_neg hc119] at h
  by_cases hc121 : cmd = 121
  · rw [if_pos hc121] at h
    exact tagFilterResonance_inv cfg.maxChordSize convert flags input i st st2 ni h hinv
  rw [if_neg hc121] at h
  by_cases hc122 : cmd = 122
  · rw [if_pos hc122] at h
    exact tagFilterEnvelope_inv cfg.maxChordSize cfg convert flags input i st st2 ni h hinv
  rw [if_neg hc122] at h
  by_cases hc65 : cmd = 65
  · rw [if_pos hc65] at h
    exact tagAlgorithm_inv cfg.maxChordSize cfg input i st st2 ni h hinv
  rw [if_neg hc65] at h
  by_cases hc66 : cmd = 66
  · rw [if_pos hc66] at h
    exact tagFeedbackAmplitude_inv cfg.maxChordSize cfg input i st st2 ni h hinv
  rw [if_neg hc66] at h
  by_cases hc67 : cmd = 67
  · rw [if_pos hc67] at h
    exact tagChord_inv cfg.maxChordSize cfg input i st st2 ni h hinv
  rw [if_neg hc67] at h
  by_cases hc68 : cmd = 68
  · rw [if_pos hc68] at h
    exact tagDistortion_inv cfg.maxChordSize cfg input i st st2 ni h hinv
  rw [if_neg hc68] at h
  by_cases hc69 : cmd = 69
  · rw [if_pos hc69] at h
    exact tagOperatorEnvelopes_inv cfg.maxChordSize cfg input i st st2 ni h hinv
  rw [if_neg hc69] at h
  by_cases hc70 : cmd = 70
  · rw [if_pos hc70] at h
    exact tagFeedbackType_inv cfg.maxChordSize cfg input i st st2 ni h hinv
  rw [if_neg hc70] at h
  by_cases hc71 : cmd = 71
  · rw [if_pos hc71] at h
    exact tagDistortionFilter_inv cfg.maxChordSize cfg input i st st2 ni h hinv
  rw [if_neg hc71] at h
  by_cases hc72 : cmd = 72
  · rw [if_pos hc72] at h
    exact tagHarmonics_inv cfg.maxChordSize cfg input i st st2 ni h hinv
  rw [if_neg hc72] at h
  by_cases hc76 : cmd = 76
  · rw [if_pos hc76] at h
    exact tagPan_inv cfg.maxChordSize cfg input i st st2 ni h hinv
  rw [if_neg hc76] at h
  by_cases hc80 : cmd = 80
  · rw [if_pos hc80] at h
    exact tagOperatorAmplitudes_inv cfg.maxChordSize cfg input i st st2 ni h hinv
  rw [if_neg hc80] at h
  by_cases hc81 : cmd = 81
  · rw [if_pos hc81] at h
    exact tagOperatorFrequencies_inv cfg.maxChordSize cfg input i st st2 ni h hinv
  rw [if_neg hc81] at h
  by_cases hc82 : cmd = 82
  · rw [if_pos hc82] at h
    exact tagBitcrusher_inv cfg.maxChordSize cfg input i st st2 ni h hinv
  rw [if_neg hc82] at h
  by_cases hc83 : cmd = 83
  · rw [if_pos hc83] at h
    exact tagSpectrum_inv cfg.maxChordSize cfg input i st st2 ni h hinv
  rw [if_neg hc83] at h
  by_cases hc84 : cmd = 84
  · rw [if_pos hc84] at h
    exact tagStartInstrument_inv cfg.maxChordSize cfg flags input i st st2 ni h hinv
  rw [if_neg hc84] at h
  by_cases hc85 : cmd = 85
  · rw [if_pos hc85] at h
    exact tagSustain_inv cfg.maxChordSize cfg input i st st2 ni h hinv
  rw [if_neg hc85] at h
  by_cases hc86 : cmd = 86
  · rw [if_pos hc86] at h
    exact tagFeedbackEnvelope_inv cfg.maxChordSize cfg input i st st2 ni h hinv
  rw [if_neg hc86] at h
  by_cases hc87 : cmd = 87
  · rw [if_pos hc87] at h
    exact tagPulseWidth_inv cfg.maxChordSize cfg input i st st2 ni h hinv
  rw [if_neg hc87] at h
  exact absurd h (by simp)

/-- The decode loop preserves the channel-list note invariant. -/

theorem decodeLoop_inv (cfg : Config) (convert : ConvertFn) (flags : VersionFlags)
    (input : List ℕ)
    (hppb : 0 < cfg.partsPerBeat) (hrh : ∀ r ∈ cfg.rhythms, 0 < r)
    (hmc : 1 ≤ cfg.maxChordSize) :
    ∀ (fuel i : ℕ) (st st2 : DecState),
    channelsInv cfg.maxChordSize st.song.channels = true →
    decodeLoop cfg convert flags input fuel i st = .ok st2 →
    channelsInv cfg.maxChordSize st2.song.channels = true := by
  intro fuel
  induction fuel with
  | zero =>
    intro i st st2 hinv h
    rw [decodeLoop] at h
    split at h
    · exact absurd h (by simp)
    · simp only [Except.ok.injEq] at h
      subst h
      exact hinv
  | succ fuel ih =>
    intro i st st2 hinv h
    rw [decodeLoop] at h
    split at h
    · simp only [Except.ok.injEq] at h
      subst h
      exact hinv
    next cmd hcmd =>
      split at h
      · exact absurd h (by simp)
      next st3 heq =>
        simp only [Except.ok.injEq] at h
        subst h
        exact applyTag_inv cfg convert flags input cmd (i + 1) st st3 none
          hppb hrh hmc heq hinv
      next st3 j heq =>
        exact ih j st3 st2 (applyTag_inv cfg convert flags input cmd (i + 1) st st3
          (some j) hppb hrh hmc heq hinv) h

/-- `initToDefault` preserves the channel-list note invariant (with a
channel reset it holds outright: every pattern becomes `Pattern.default`). -/

theorem initToDefault_inv (mc : ℕ) (cfg : Config) (b : Bool) (s : Song)
    (hinv : channelsInv mc s.channels = true) :
    channelsInv mc (initToDefault cfg b s).channels = true := by
  cases b with
  | false => exact hinv
  | true =>
    rw [channelsInv_iff]
    intro ch hch
    have hch2 : ch ∈ (List.range 4).map (fun idx =>
        let old := (s.channels.get? idx).getD Channel.default
        let isNoise : Bool := decide (3 ≤ idx)
        { octave := 3 - (idx : ℤ)
          patterns := List.replicate 8 Pattern.default
          instruments := (padTruncate old.instruments 1 (Instrument.new cfg isNoise)).map (fun ins => ins.setTypeAndReset cfg (if isNoise then .noise else .chip) isNoise)
          bars := (List.range 16).map (fun bar => if bar < 4 then some 1 else some 0) }) := hch
    rw [List.mem_map] at hch2
    obtain ⟨idx, hidx, hid⟩ := hch2
    rw [chInv, List.all_eq_true]
    intro p hp
    rw [← hid] at hp
    have hp2 : p ∈ List.replicate 8 Pattern.default := hp
    rw [List.eq_of_mem_replicate hp2]
    rfl

/-- `mapM` over channels with a patterns-preserving update keeps the
invariant. -/

theorem mapM_channels_chInv (mc : ℕ) (f : Channel → Except DecodeErr Channel)
    (hf : ∀ ch ch2, f ch = .ok ch2 → ch2.patterns = ch.patterns) :
    ∀ (chs chs2 : List Channel), chs.mapM f = .ok chs2 →
    channelsInv mc chs = true → channelsInv mc chs2 = true := by
  intro chs
  induction chs with
  | nil =>
    intro chs2 h hinv
    rw [List.mapM_nil] at h
    have hp : (pure ([] : List Channel) : Except DecodeErr (List Channel)) = .ok [] := rfl
    rw [hp] at h
    simp only [Except.ok.injEq] at h
    subst h
    rfl
  | cons c0 cs ih =>
    intro chs2 h hinv
    rw [List.mapM_cons] at h
    obtain ⟨a, ha, h⟩ := bind_ok_inv _ _ _ h
    obtain ⟨as, has, h⟩ := bind_ok_inv _ _ _ h
    have hp : (pure (a :: as) : Except DecodeErr (List Channel)) = .ok (a :: as) := rfl
    rw [hp] at h
    simp only [Except.ok.injEq] at h
    subst h
    simp only [channelsInv, List.all_cons, Bool.and_eq_true] at hinv ⊢
    constructor
    · rw [chInv_congr mc c0 a (hf c0 a ha)]
      exact hinv.1
    · exact ih as has hinv.2

/-- The version < 3 channel fix-ups only touch instruments. -/

theorem beforeThreeInits_inv (mc : ℕ) (s s2 : Song)
    (h : beforeThreeInits s = .ok s2)
    (hinv : channelsInv mc s.channels = true) :
    channelsInv mc s2.channels = true := by
  unfold beforeThreeInits at h
  obtain ⟨chans, hchans, h⟩ := bind_ok_inv _ _ _ h
  have hci : channelsInv mc chans = true := by
    refine mapM_channels_chInv mc _ ?_ s.channels chans hchans hinv
    intro ch ch2 hok
    split at hok
    · exact absurd hok (by simp)
    next ins rest heq =>
      simp only [Except.ok.injEq] at hok
      subst hok
      rfl
  split at h
  · exact absurd h (by simp)
  next ch3 hch3 =>
    split at h
    · exact absurd h (by simp)
    next ins rest heq =>
      simp only [Except.ok.injEq] at h
      subst h
      refine channelsInv_set mc chans 3 _ hci ?_
      have hc3 := (channelsInv_iff mc chans).mp hci ch3 (List.get?_mem hch3)
      rw [chInv] at hc3 ⊢
      exact hc3

/-- The decode body preserves the channel-list note invariant. -/

theorem decodeBody_inv (cfg : Config) (convert : ConvertFn) (flags : VersionFlags)
    (input : List ℕ) (i : ℕ) (s sg : Song)
    (hppb : 0 < cfg.partsPerBeat) (hrh : ∀ r ∈ cfg.rhythms, 0 < r)
    (hmc : 1 ≤ cfg.maxChordSize)
    (hs : channelsInv cfg.maxChordSize s.channels = true)
    (h : decodeBody cfg convert flags input i s = .ok sg) :
    channelsInv cfg.maxChordSize sg.channels = true := by
  unfold decodeBody at h
  simp only [] at h
  split at h
  · exact absurd h (by simp)
  next s2 heq =>
    split at h
    · exact absurd h (by simp)
    next st heq2 =>
      simp only [DecodeResult.ok.injEq] at h
      subst h
      have hs2 : channelsInv cfg.maxChordSize s2.channels = true := by
        by_cases hb : flags.beforeThree = true
        · rw [if_pos hb] at heq
          exact beforeThreeInits_inv cfg.maxChordSize _ s2 heq
            (initToDefault_inv cfg.maxChordSize cfg _ s hs)
        · rw [if_neg hb] at heq
          simp only [Except.ok.injEq] at heq
          rw [← heq]
          exact initToDefault_inv cfg.maxChordSize cfg _ s hs
      exact decodeLoop_inv cfg convert flags input hppb hrh hmc
        (input.length + 1) i _ st hs2 heq2

/-- Unfolding of a successful `noteInv` check into the claim's five
properties. -/

theorem noteInv_spec (mc : ℕ) (nt : Note) (h : noteInv mc nt = true) :
    ∃ s0 e : ℚ, nt.start = some s0 ∧ nt.stop = some e ∧ s0 < e ∧
      (∃ p0 rest, nt.pins = p0 :: rest ∧ p0.time = some 0 ∧ p0.interval = 0) ∧
      pinsTimesIncreasing nt.pins = true ∧
      (∃ pl, nt.pins.getLast? = some pl ∧ pl.time = some (e - s0)) ∧
      nt.pitches.length ≤ mc := by
  unfold noteInv at h
  split at h
  next s0 e hs he =>
    simp only [Bool.and_eq_true] at h
    obtain ⟨⟨⟨⟨hA, hB⟩, hC⟩, hD⟩, hE⟩ := h
    refine ⟨s0, e, hs, he, by simpa using hA, ?_, hC, ?_, by simpa using hE⟩
    · split at hB
      next p0 rest heq =>
        simp only [Bool.and_eq_true, decide_eq_true_eq] at hB
        exact ⟨p0, rest, heq, hB.2, hB.1⟩
      next => exact absurd hB (by simp)
    · split at hD
      next pl heq =>
        simp only [decide_eq_true_eq] at hD
        exact ⟨pl, heq, hD⟩
      next => exact absurd hD (by simp)
  next => exact absurd h (by simp)

/-- C8. Decoded-note invariants: provided the configuration is sane
(positive `partsPerBeat`, positive rhythm step counts, a chord size of at
least one) and the incoming song already satisfies the note invariants
(versions ≥ 6 do not reset the channels, so pre-existing notes survive the
decode), every note of every pattern of every channel of a song produced by
`fromBase64String` has: a first pin at time 0 with interval 0, strictly
increasing pin times, a last pin at time `end - start`, at most
`maxChordSize` pitches, and `end > start`. -/

theorem fromBase64String_note_invariants (cfg : Config) (convert : ConvertFn)
    (input : List ℕ) (s sg : Song)
    (hppb : 0 < cfg.partsPerBeat) (hrh : ∀ r ∈ cfg.rhythms, 0 < r)
    (hmc : 1 ≤ cfg.maxChordSize)
    (hs : songNotesInv cfg.maxChordSize s = true)
    (h : fromBase64String cfg convert input s = .ok sg) :
    ∀ ch ∈ sg.channels, ∀ p ∈ ch.patterns, ∀ nt ∈ p.notes,
      ∃ s0 e : ℚ, nt.start = some s0 ∧ nt.stop = some e ∧ s0 < e ∧
        (∃ p0 rest, nt.pins = p0 :: rest ∧ p0.time = some 0 ∧ p0.interval = 0) ∧
        pinsTimesIncreasing nt.pins = true ∧
        (∃ pl, nt.pins.getLast? = some pl ∧ pl.time = some (e - s0)) ∧
        nt.pitches.length ≤ cfg.maxChordSize := by
  have hchan : channelsInv cfg.maxChordSize sg.channels = true := by
    unfold fromBase64String at h
    split at h
    · simp only [DecodeResult.ok.injEq] at h
      subst h
      exact initToDefault_inv cfg.maxChordSize cfg true s hs
    · simp only [] at h
      repeat' split at h
      all_goals first
        | exact decodeBody_inv cfg convert flagsUndefined input _ s sg hppb hrh hmc hs h
        | exact decodeBody_inv cfg convert (flagsOf _) input _ s sg hppb hrh hmc hs h
        | (simp only [DecodeResult.ok.injEq] at h
           subst h
           exact hs)
        | exact absurd h (by simp)
  intro ch hch p hp nt hnt
  have h1 := (channelsInv_iff cfg.maxChordSize sg.channels).mp hchan ch hch
  rw [chInv, List.all_eq_true] at h1
  have h2 := h1 p hp
  rw [List.all_eq_true] at h2
  exact noteInv_spec cfg.maxChordSize nt (h2 nt hnt)

/-- The C8 theorem applied to the version-9 URL `"9"` decoded over the
default-shaped song with no channels. -/

theorem fromBase64String_note_invariants_witness :
    (0 < cfgStd.partsPerBeat ∧ (∀ r ∈ cfgStd.rhythms, 0 < r) ∧
      1 ≤ cfgStd.maxChordSize ∧ songNotesInv cfgStd.maxChordSize songZero = true ∧
      fromBase64String cfgStd convert0 [57] songZero =
        .ok (initToDefault cfgStd false songZero)) ∧
    (∀ ch ∈ (initToDefault cfgStd false songZero).channels, ∀ p ∈ ch.patterns,
      ∀ nt ∈ p.notes,
      ∃ s0 e : ℚ, nt.start = some s0 ∧ nt.stop = some e ∧ s0 < e ∧
        (∃ p0 rest, nt.pins = p0 :: rest ∧ p0.time = some 0 ∧ p0.interval = 0) ∧
        pinsTimesIncreasing nt.pins = true ∧
        (∃ pl, nt.pins.getLast? = some pl ∧ pl.time = some (e - s0)) ∧
        nt.pitches.length ≤ cfgStd.maxChordSize) :=
  ⟨⟨by decide, by decide, by decide, rfl, rfl⟩,
    fromBase64String_note_invariants cfgStd convert0 [57] songZero
      (initToDefault cfgStd false songZero) (by decide) (by decide) (by decide)
      rfl rfl⟩

end Beep
